import Mathlib

/-! # libyasvg: the path interpreter of `svg2cairo.cpp`

A shallow embedding of `Svg2Cairo::Path` (`src/src/svg2cairo.cpp`): the coordinate
tokenizer and the operand switch of `perform_operation`, the character loop of
`Path::draw`, and `endpoint_to_center`.

Numbers are read in an ordered field `α` (exact arithmetic; the rounding of
`double` is not represented).  The elementary functions of `<cmath>` are collected
in a record `Trig α`, so that every definition computes over `ℚ` and the same
definitions can be read over `ℝ`.

Two events end a run; both are values of `Err`:
* `bad_lexical_cast`: a `boost::bad_lexical_cast` thrown outside a `try` block;
* `out_of_range`: `coord[i]` with `i ≥ coord.size()`.  The operator `[]` of
  `std::vector` does not check the index and C++ leaves such a read undefined: the
  run is followed up to it and no further.  The compiled program makes the read and
  goes on; the bodies of the arc commands are given a second time with the read
  made, see `read_unchecked`.
-/

namespace Svg2Cairo

/-- The two ways in which a call of `perform_operation` does not complete. -/
inductive Err where
  | bad_lexical_cast
  | out_of_range
  deriving DecidableEq, Repr

/-! ## Numbers and `boost::lexical_cast<double>` -/

/-- Value of a run of decimal digits, most significant digit first. -/
def digits_value (ds : List Char) : Nat :=
  ds.foldl (fun n c => 10 * n + (c.toNat - 48)) 0

/-- Value of the decimal `ip.fp` (integer digits `ip`, fraction digits `fp`). -/
def decimal_value {α : Type} [LinearOrderedField α] (ip fp : List Char) : α :=
  (digits_value ip : α) + (digits_value fp : α) / 10 ^ fp.length

/-- Apply the sign read in front of a number. -/
def with_sign {α : Type} [LinearOrderedField α] (neg : Bool) (v : α) : α :=
  if neg then -v else v

/-- The digits `'0'` to `'9'`. -/
def is_digit (c : Char) : Bool :=
  48 ≤ c.toNat && c.toNat ≤ 57

/-- The part of `lexical_cast` after the sign: digits with at most one decimal
point and at least one digit, up to the end of the string. -/
def cast_unsigned {α : Type} [LinearOrderedField α] (neg : Bool) (body : List Char) :
    Option α :=
  let ip := body.takeWhile is_digit
  match body.dropWhile is_digit with
  | [] => if ip = [] then none else some (with_sign neg (decimal_value ip []))
  | '.' :: fp =>
    if fp.all is_digit ∧ (ip ≠ [] ∨ fp ≠ []) then
      some (with_sign neg (decimal_value ip fp))
    else none
  | _ => none

/-- Model of `boost::lexical_cast<double>(s)` (library code, not part of the
repository) on text without letters: an optional sign, then digits with at most
one decimal point and at least one digit; the whole string has to be consumed.
`none` stands for the exception `bad_lexical_cast`.  The spellings the library
accepts beyond these (exponents, `inf`, `nan`) all contain a letter, and
`Path::draw` never stores a letter in the coordinate buffer. -/
def lexical_cast {α : Type} [LinearOrderedField α] (s : List Char) : Option α :=
  match s with
  | '-' :: t => cast_unsigned true t
  | '+' :: t => cast_unsigned false t
  | _ => cast_unsigned false s

/-! ## The coordinate tokenizer (`perform_operation`, lines 176-213) -/

/-- The three locals of the tokenizer: `coord`, `digit` and `firstdot`. -/
structure TokState (α : Type) where
  coord : List α
  digit : List Char
  firstdot : Bool

/-- The statement `coord.push_back(boost::lexical_cast<double>(digit))` outside a
`try` block: a failed cast leaves the function. -/
def push_digit {α : Type} [LinearOrderedField α] (coord : List α) (digit : List Char) :
    Except Err (List α) :=
  match lexical_cast digit with
  | some v => .ok (coord ++ [v])
  | none => .error .bad_lexical_cast

/-- One iteration of `for(char c : this->coordinates)`. -/
def tokenize_char {α : Type} [LinearOrderedField α] (st : TokState α) (c : Char) :
    Except Err (TokState α) :=
  if c = ',' ∨ c = ' ' then
    -- try { push_back } catch(const std::exception&) { /* do nothing */ }
    let coord :=
      match (lexical_cast st.digit : Option α) with
      | some v => st.coord ++ [v]
      | none => st.coord
    .ok { coord := coord, digit := [], firstdot := true }
  else if c = '-' then
    if st.digit ≠ [] then do
      let coord ← push_digit st.coord st.digit
      .ok { coord := coord, digit := [c], firstdot := true }
    else
      .ok { st with digit := st.digit ++ [c] }
  else if c = '.' then
    if st.firstdot then
      .ok { st with digit := st.digit ++ [c], firstdot := false }
    else do
      let coord ← push_digit st.coord st.digit
      .ok { coord := coord, digit := [c], firstdot := true }
  else
    .ok { st with digit := st.digit ++ [c] }

/-- The tokenizer at the head of `perform_operation`: the numbers held by the
coordinate buffer, in order. -/
def parse_coordinates {α : Type} [LinearOrderedField α] (coordinates : List Char) :
    Except Err (List α) :=
  if coordinates ≠ [] then do
    let st ← coordinates.foldlM tokenize_char
      ({ coord := [], digit := [], firstdot := true } : TokState α)
    if st.digit ≠ [] then push_digit st.coord st.digit else .ok st.coord
  else
    .ok []

/-! ## The cairo context

cairo is an external library; the model below follows its reference manual.  A
context records the calls it received (`trace`), the current transformation matrix
with the stack kept by `cairo_save`/`cairo_restore`, and the current point and the
first point of the current sub-path, both held in device space as cairo does.  The
error status of a context is not represented. -/

/-- The elementary functions of `<cmath>` used by the interpreter. -/
structure Trig (α : Type) where
  pi : α
  sqrt : α → α
  cos : α → α
  sin : α → α
  acos : α → α

/-- An affine map `(x, y) ↦ (xx*x + xy*y + x0, yx*x + yy*y + y0)` (`cairo_matrix_t`). -/
structure Ctm (α : Type) where
  xx : α
  yx : α
  xy : α
  yy : α
  x0 : α
  y0 : α
  deriving DecidableEq

/-- The calls a context can receive from this library. -/
inductive Prim (α : Type) where
  | save
  | restore
  | translate (tx ty : α)
  | rotate (angle : α)
  | scale (sx sy : α)
  | set_source_rgb (r g b : α)
  | move_to (x y : α)
  | line_to (x y : α)
  | curve_to (x1 y1 x2 y2 x3 y3 : α)
  | arc (xc yc radius angle1 angle2 : α)
  | arc_negative (xc yc radius angle1 angle2 : α)
  | close_path
  | fill
  deriving DecidableEq

/-- State of a cairo context `cairo_t`. -/
structure Cairo (α : Type) where
  trace : List (Prim α)
  ctm : Ctm α
  saved : List (Ctm α)
  current : Option (α × α)
  start : Option (α × α)

section Backend

variable {α : Type} [LinearOrderedField α]

/-- The identity matrix. -/
def Ctm.identity : Ctm α :=
  { xx := 1, yx := 0, xy := 0, yy := 1, x0 := 0, y0 := 0 }

/-- User space to device space. -/
def Ctm.apply (m : Ctm α) (p : α × α) : α × α :=
  (m.xx * p.1 + m.xy * p.2 + m.x0, m.yx * p.1 + m.yy * p.2 + m.y0)

/-- Determinant of the linear part. -/
def Ctm.det (m : Ctm α) : α :=
  m.xx * m.yy - m.yx * m.xy

/-- Device space to user space. -/
def Ctm.unapply (m : Ctm α) (p : α × α) : α × α :=
  ((m.yy * (p.1 - m.x0) - m.xy * (p.2 - m.y0)) / m.det,
   (m.xx * (p.2 - m.y0) - m.yx * (p.1 - m.x0)) / m.det)

/-- A freshly created context: identity matrix, empty path. -/
def Cairo.init : Cairo α :=
  { trace := [], ctm := Ctm.identity, saved := [], current := none, start := none }

/-- Function `cairo_save`: push the graphics state. -/
def cairo_save (cr : Cairo α) : Cairo α :=
  { cr with trace := cr.trace ++ [Prim.save], saved := cr.ctm :: cr.saved }

/-- Function `cairo_restore`: pop the graphics state; the path is not part of it. -/
def cairo_restore (cr : Cairo α) : Cairo α :=
  match cr.saved with
  | [] => { cr with trace := cr.trace ++ [Prim.restore] }
  | m :: rest => { cr with trace := cr.trace ++ [Prim.restore], ctm := m, saved := rest }

/-- Function `cairo_translate`: the translation takes place before the existing
transformation. -/
def cairo_translate (cr : Cairo α) (tx ty : α) : Cairo α :=
  { cr with
    trace := cr.trace ++ [Prim.translate tx ty]
    ctm := { cr.ctm with x0 := cr.ctm.xx * tx + cr.ctm.xy * ty + cr.ctm.x0,
                         y0 := cr.ctm.yx * tx + cr.ctm.yy * ty + cr.ctm.y0 } }

/-- Function `cairo_rotate`. -/
def cairo_rotate (T : Trig α) (cr : Cairo α) (angle : α) : Cairo α :=
  let c := T.cos angle
  let s := T.sin angle
  { cr with
    trace := cr.trace ++ [Prim.rotate angle]
    ctm := { cr.ctm with xx := cr.ctm.xx * c + cr.ctm.xy * s,
                         yx := cr.ctm.yx * c + cr.ctm.yy * s,
                         xy := cr.ctm.xy * c - cr.ctm.xx * s,
                         yy := cr.ctm.yy * c - cr.ctm.yx * s } }

/-- Function `cairo_scale`. -/
def cairo_scale (cr : Cairo α) (sx sy : α) : Cairo α :=
  { cr with
    trace := cr.trace ++ [Prim.scale sx sy]
    ctm := { cr.ctm with xx := cr.ctm.xx * sx, yx := cr.ctm.yx * sx,
                         xy := cr.ctm.xy * sy, yy := cr.ctm.yy * sy } }

/-- Function `cairo_set_source_rgb`. -/
def cairo_set_source_rgb (cr : Cairo α) (r g b : α) : Cairo α :=
  { cr with trace := cr.trace ++ [Prim.set_source_rgb r g b] }

/-- Function `cairo_get_current_point`: the current point in user space, `(0, 0)`
when there is none. -/
def cairo_get_current_point (cr : Cairo α) : α × α :=
  match cr.current with
  | some p => cr.ctm.unapply p
  | none => (0, 0)

/-- Function `cairo_move_to`: begin a new sub-path at `(x, y)`. -/
def cairo_move_to (cr : Cairo α) (x y : α) : Cairo α :=
  { cr with
    trace := cr.trace ++ [Prim.move_to x y]
    current := some (cr.ctm.apply (x, y))
    start := some (cr.ctm.apply (x, y)) }

/-- Function `cairo_line_to`: without a current point it behaves as `cairo_move_to`. -/
def cairo_line_to (cr : Cairo α) (x y : α) : Cairo α :=
  { cr with
    trace := cr.trace ++ [Prim.line_to x y]
    current := some (cr.ctm.apply (x, y))
    start := match cr.current with
      | some _ => cr.start
      | none => some (cr.ctm.apply (x, y)) }

/-- Function `cairo_curve_to`: without a current point the curve starts at
`(x1, y1)`; afterwards the current point is `(x3, y3)`. -/
def cairo_curve_to (cr : Cairo α) (x1 y1 x2 y2 x3 y3 : α) : Cairo α :=
  { cr with
    trace := cr.trace ++ [Prim.curve_to x1 y1 x2 y2 x3 y3]
    current := some (cr.ctm.apply (x3, y3))
    start := match cr.current with
      | some _ => cr.start
      | none => some (cr.ctm.apply (x1, y1)) }

/-- Function `cairo_arc`: a line joins the current point, if any, to the beginning
of the arc; afterwards the current point is the end of the arc. -/
def cairo_arc (T : Trig α) (cr : Cairo α) (xc yc radius angle1 angle2 : α) : Cairo α :=
  { cr with
    trace := cr.trace ++ [Prim.arc xc yc radius angle1 angle2]
    current := some (cr.ctm.apply (xc + radius * T.cos angle2, yc + radius * T.sin angle2))
    start := match cr.current with
      | some _ => cr.start
      | none =>
        some (cr.ctm.apply (xc + radius * T.cos angle1, yc + radius * T.sin angle1)) }

/-- Function `cairo_arc_negative`: as `cairo_arc`, drawn in the direction of
decreasing angles. -/
def cairo_arc_negative (T : Trig α) (cr : Cairo α) (xc yc radius angle1 angle2 : α) :
    Cairo α :=
  { cr with
    trace := cr.trace ++ [Prim.arc_negative xc yc radius angle1 angle2]
    current := some (cr.ctm.apply (xc + radius * T.cos angle2, yc + radius * T.sin angle2))
    start := match cr.current with
      | some _ => cr.start
      | none =>
        some (cr.ctm.apply (xc + radius * T.cos angle1, yc + radius * T.sin angle1)) }

/-- Function `cairo_close_path`: join the current point to the beginning of the
sub-path, which becomes the current point; nothing happens without a current point. -/
def cairo_close_path (cr : Cairo α) : Cairo α :=
  { cr with
    trace := cr.trace ++ [Prim.close_path]
    current := match cr.current with
      | some _ => cr.start
      | none => none }

/-- Function `cairo_fill`: fill the current path and clear it. -/
def cairo_fill (cr : Cairo α) : Cairo α :=
  { cr with trace := cr.trace ++ [Prim.fill], current := none, start := none }

end Backend

/-! ## `Path::endpoint_to_center` (lines 356-440) -/

section Interpreter

variable {α : Type} [LinearOrderedField α] [FloorRing α]

/-- Function `fmod(x, y)` of `<cmath>`: `x - n*y`, with `n` the quotient `x/y`
truncated toward zero. -/
def fmod (x y : α) : α :=
  let q := x / y
  x - ((if 0 ≤ q then ⌊q⌋ else ⌈q⌉ : ℤ) : α) * y

/-- Conversion of an arc from endpoint to centre parameterisation.  Returns
`(cx, cy, angle_start, angle_extend)`. -/
def endpoint_to_center (T : Trig α) (x1 y1 x2 y2 fa fs rx ry phi : α) : α × α × α × α :=
  -- half distance between the current and the final point
  let dx2 := (x1 - x2) / 2
  let dy2 := (y1 - y2) / 2
  let cos_angle := T.cos phi
  let sin_angle := T.sin phi
  -- step 1
  let x1p := cos_angle * dx2 + sin_angle * dy2
  let y1p := -sin_angle * dx2 + cos_angle * dy2
  let rx0 := |rx|
  let ry0 := |ry|
  let Px1 := x1p * x1p
  let Py1 := y1p * y1p
  let radii_check := Px1 / (rx0 * rx0) + Py1 / (ry0 * ry0)
  let rx := if radii_check > 1 then T.sqrt radii_check * rx0 else rx0
  let ry := if radii_check > 1 then T.sqrt radii_check * ry0 else ry0
  let Prx := rx * rx
  let Pry := ry * ry
  -- step 2
  let sign : α := if |fa - fs| < 1 / 1000 then -1 else 1
  let sq0 := (Prx * Pry - Prx * Py1 - Pry * Px1) / (Prx * Py1 + Pry * Px1)
  let sq := if sq0 < 0 then 0 else sq0
  let coef := sign * T.sqrt sq
  let cx1 := coef * ((rx * y1p) / ry)
  let cy1 := coef * -((ry * x1p) / rx)
  -- step 3
  let sx2 := (x1 + x2) / 2
  let sy2 := (y1 + y2) / 2
  let cx := sx2 + (cos_angle * cx1 - sin_angle * cy1)
  let cy := sy2 + (sin_angle * cx1 + cos_angle * cy1)
  -- step 4
  let ux := (x1p - cx1) / rx
  let uy := (y1p - cy1) / ry
  let vx := (-x1p - cx1) / rx
  let vy := (-y1p - cy1) / ry
  let n1 := T.sqrt (ux * ux + uy * uy)
  let sign1 : α := if uy < 0 then -1 else 1
  let angle_start := sign1 * T.acos (ux / n1)
  let n2 := T.sqrt ((ux * ux + uy * uy) * (vx * vx + vy * vy))
  let p2 := ux * vx + uy * vy
  let sign2 : α := if ux * vy - uy * vx < 0 then -1 else 1
  let angle_extend0 := sign2 * T.acos (p2 / n2)
  let angle_extend :=
    if fs < 1 / 2 ∧ angle_extend0 > 0 then angle_extend0 - 2 * T.pi
    else if fs > 1 / 2 ∧ angle_extend0 < 0 then angle_extend0 + 2 * T.pi
    else angle_extend0
  (cx, cy, fmod angle_start (2 * T.pi), fmod angle_extend (2 * T.pi))

/-! ## Shapes and `Path` -/

/-- Class `Color` of `color.h`: channel values and the hexadecimal code. -/
structure Color where
  r : Nat
  g : Nat
  b : Nat
  hexcode : List Char
  deriving DecidableEq

/-- Constructor `Color::Color()`. -/
def Color.black : Color :=
  { r := 0, g := 0, b := 0, hexcode := [] }

/-- Method `Color::get_r`. -/
def Color.get_r (c : Color) : α := (c.r : α) / 255

/-- Method `Color::get_g`. -/
def Color.get_g (c : Color) : α := (c.g : α) / 255

/-- Method `Color::get_b`. -/
def Color.get_b (c : Color) : α := (c.b : α) / 255

/-- Class `Shape`: the optional transformations and the fill colour.  `rotate`
holds the angle in radians, as `Rotate::Rotate` stores it. -/
structure Shape (α : Type) where
  translate : Option (α × α)
  rotate : Option α
  color : Color

/-- Class `Path`: the command string, the pending operand and the coordinate buffer. -/
structure Path (α : Type) extends Shape α where
  operations : List Char
  operand : Char
  coordinates : List Char

/-- The character `'\0'`: no pending operand. -/
def NUL : Char := Char.ofNat 0

/-- Constructor `Path::Path(_operations)`. -/
def Path.new (operations : List Char) : Path α :=
  { translate := none, rotate := none, color := Color.black,
    operations := operations, operand := NUL, coordinates := [] }

/-- Method `Shape::cairo_set_color`. -/
def cairo_set_color (s : Shape α) (cr : Cairo α) : Cairo α :=
  cairo_set_source_rgb cr s.color.get_r s.color.get_g s.color.get_b

/-! ## The operand switch of `perform_operation` (lines 221-323) -/

/-- The expression `coord[i]`, with the bound made explicit: inside the sequence the
element; past its end, where the unchecked operator reads memory the program does
not determine, the run is not followed further. -/
def index (coord : List α) (i : Nat) : Except Err α :=
  match coord[i]? with
  | some v => .ok v
  | none => .error .out_of_range

/-- The loop `for(i=2; i<coord.size(); i+=2) cairo_line_to(cr, coord[i], coord[i+1])`
of case `'M'`; the argument is the part of `coord` from index `i` on. -/
def loop_M : List α → Cairo α → Except Err (Cairo α)
  | [], cr => .ok cr
  | [_], _ => .error .out_of_range
  | x :: y :: rest, cr => loop_M rest (cairo_line_to cr x y)

/-- The loop of case `'m'`: each pair is added to the current point. -/
def loop_m : List α → Cairo α → Except Err (Cairo α)
  | [], cr => .ok cr
  | [_], _ => .error .out_of_range
  | x :: y :: rest, cr =>
    let p := cairo_get_current_point cr
    loop_m rest (cairo_line_to cr (p.1 + x) (p.2 + y))

/-- Body of `case 'M'`. -/
def case_M (coord : List α) (cr : Cairo α) : Except Err (Cairo α) := do
  let c0 ← index coord 0
  let c1 ← index coord 1
  loop_M (coord.drop 2) (cairo_move_to cr c0 c1)

/-- Body of `case 'm'`. -/
def case_m (coord : List α) (cr : Cairo α) : Except Err (Cairo α) := do
  let p := cairo_get_current_point cr
  let c0 ← index coord 0
  let c1 ← index coord 1
  loop_m (coord.drop 2) (cairo_move_to cr (p.1 + c0) (p.2 + c1))

/-- The statements shared by the bodies of `case 'A'` and `case 'a'`, from the call
of `endpoint_to_center` to `cairo_restore`; `cr` is the context after `cairo_save`. -/
def arc_group (T : Trig α) (coord : List α) (cr : Cairo α) (x1 y1 x2 y2 : α) :
    Except Err (Cairo α) := do
  let c0 ← index coord 0
  let c1 ← index coord 1
  let c2 ← index coord 2
  let c3 ← index coord 3
  let c4 ← index coord 4
  let centercoord := endpoint_to_center T x1 y1 x2 y2 c3 c4 c0 c1 (c2 / 180 * T.pi)
  let cr := cairo_translate cr centercoord.1 centercoord.2.1
  let cr := cairo_rotate T cr (c2 / 180 * T.pi)
  let cr := cairo_scale cr c0 c1
  let cr := cairo_arc_negative T cr 0 0 1 centercoord.2.2.1
    (centercoord.2.2.1 + centercoord.2.2.2)
  .ok (cairo_restore cr)

/-- Body of `case 'A'` (no `break` follows it). -/
def case_A (T : Trig α) (coord : List α) (cr : Cairo α) : Except Err (Cairo α) := do
  let cr := cairo_save cr
  let p := cairo_get_current_point cr
  let x2 ← index coord 5
  let y2 ← index coord 6
  arc_group T coord cr p.1 p.2 x2 y2

/-- Body of `case 'a'`. -/
def case_a (T : Trig α) (coord : List α) (cr : Cairo α) : Except Err (Cairo α) := do
  let cr := cairo_save cr
  let p := cairo_get_current_point cr
  let c5 ← index coord 5
  let c6 ← index coord 6
  arc_group T coord cr p.1 p.2 (p.1 + c5) (p.2 + c6)

/-- Body of `case 'L'`. -/
def case_L (coord : List α) (cr : Cairo α) : Except Err (Cairo α) := do
  let c0 ← index coord 0
  let c1 ← index coord 1
  .ok (cairo_line_to cr c0 c1)

/-- Body of `case 'l'`. -/
def case_l (coord : List α) (cr : Cairo α) : Except Err (Cairo α) := do
  let p := cairo_get_current_point cr
  let c0 ← index coord 0
  let c1 ← index coord 1
  .ok (cairo_line_to cr (p.1 + c0) (p.2 + c1))

/-- Body of `case 'V'` (no `break` follows it). -/
def case_V (coord : List α) (cr : Cairo α) : Except Err (Cairo α) := do
  let p := cairo_get_current_point cr
  let c0 ← index coord 0
  .ok (cairo_line_to cr p.1 c0)

/-- Body of `case 'v'`. -/
def case_v (coord : List α) (cr : Cairo α) : Except Err (Cairo α) := do
  let p := cairo_get_current_point cr
  let c0 ← index coord 0
  .ok (cairo_line_to cr p.1 (p.2 + c0))

/-- Body of `case 'h'` (no `break` follows it). -/
def case_h (coord : List α) (cr : Cairo α) : Except Err (Cairo α) := do
  let p := cairo_get_current_point cr
  let c0 ← index coord 0
  .ok (cairo_line_to cr (p.1 + c0) p.2)

/-- Body of `case 'H'` (no `break` follows it). -/
def case_H (coord : List α) (cr : Cairo α) : Except Err (Cairo α) := do
  let p := cairo_get_current_point cr
  let c0 ← index coord 0
  .ok (cairo_line_to cr c0 p.2)

/-- Body of `case 'C'`. -/
def case_C (coord : List α) (cr : Cairo α) : Except Err (Cairo α) := do
  let c0 ← index coord 0
  let c1 ← index coord 1
  let c2 ← index coord 2
  let c3 ← index coord 3
  let c4 ← index coord 4
  let c5 ← index coord 5
  .ok (cairo_curve_to cr c0 c1 c2 c3 c4 c5)

/-- Body of `case 'c'` (no `break` follows it). -/
def case_c (coord : List α) (cr : Cairo α) : Except Err (Cairo α) := do
  let p := cairo_get_current_point cr
  let cr := cairo_save cr
  let cr := cairo_translate cr p.1 p.2
  let cr ← case_C coord cr
  .ok (cairo_restore cr)

/-- The `switch(this->operand)` of `perform_operation`.  A case whose body is not
closed by `break` runs on into the bodies below it.  The `default` case writes a
message to `std::cerr` and has no effect on the context. -/
def execute_operand (T : Trig α) (operand : Char) (coord : List α) (cr : Cairo α) :
    Except Err (Cairo α) :=
  match operand with
  | 'M' => case_M coord cr
  | 'm' => case_m coord cr
  | 'A' => case_A T coord cr >>= case_a T coord
  | 'a' => case_a T coord cr
  | 'L' => case_L coord cr
  | 'l' => case_l coord cr
  | 'V' => case_V coord cr >>= case_v coord
  | 'v' => case_v coord cr
  | 'h' => case_h coord cr >>= case_H coord >>= case_c coord >>= case_C coord
  | 'H' => case_H coord cr >>= case_c coord >>= case_C coord
  | 'c' => case_c coord cr >>= case_C coord
  | 'C' => case_C coord cr
  | 'Z' => .ok (cairo_close_path (cairo_close_path cr))
  | 'z' => .ok (cairo_close_path cr)
  | _ => .ok cr

/-! ## `Path::perform_operation` and `Path::draw` -/

/-- Method `Path::perform_operation(cr, new_operand)`: tokenize the buffer, run
the pending operand, then store the new operand and clear the buffer. -/
def perform_operation (T : Trig α) (p : Path α) (cr : Cairo α) (new_operand : Char) :
    Except Err (Path α × Cairo α) := do
  let coord ← parse_coordinates p.coordinates
  let cr ← execute_operand T p.operand coord cr
  .ok ({ p with operand := new_operand, coordinates := [] }, cr)

/-- The test `(c >= 65 && c <= 90) || (c >= 97 && c <= 122)` of `Path::draw`. -/
def is_letter (c : Char) : Bool :=
  (65 ≤ c.toNat && c.toNat ≤ 90) || (97 ≤ c.toNat && c.toNat ≤ 122)

/-- One iteration of `for(char c : this->operations)` in `Path::draw`. -/
def draw_char (T : Trig α) (st : Path α × Cairo α) (c : Char) :
    Except Err (Path α × Cairo α) :=
  if is_letter c then
    if st.1.operand ≠ NUL then
      perform_operation T st.1 st.2 c
    else
      .ok ({ st.1 with operand := c }, st.2)
  else
    .ok ({ st.1 with coordinates := st.1.coordinates ++ [c] }, st.2)

/-- The interpreter part of `Path::draw`: the loop over the characters and the
closing call `perform_operation(cr, '\0')`. -/
def Path.interpret (T : Trig α) (p : Path α) (cr : Cairo α) :
    Except Err (Path α × Cairo α) := do
  let st ← p.operations.foldlM (draw_char T) (p, cr)
  perform_operation T st.1 st.2 NUL

/-- Method `Path::draw`: set the colour, interpret the commands, then always close
and fill the path. -/
def Path.draw (T : Trig α) (p : Path α) (cr : Cairo α) : Except Err (Path α × Cairo α) := do
  let st ← p.interpret T (cairo_set_color p.toShape cr)
  .ok (st.1, cairo_fill (cairo_close_path st.2))

end Interpreter

/-! ## `Shape` setters, `Circle` and `Svg2Cairo::draw` -/

section Document

variable {α : Type} [LinearOrderedField α] [FloorRing α]

/-- Method `Shape::set_translate`. -/
def Shape.set_translate (s : Shape α) (x y : α) : Shape α :=
  { s with translate := some (x, y) }

/-- Method `Shape::set_rotate`: `Rotate::Rotate` converts the angle from degrees to
radians. -/
def Shape.set_rotate (T : Trig α) (s : Shape α) (angle : α) : Shape α :=
  { s with rotate := some (angle / 180 * T.pi) }

/-- Method `Shape::set_color`. -/
def Shape.set_color (s : Shape α) (color : Color) : Shape α :=
  { s with color := color }

/-- Method `Shape::handle_transform`: the translation, if any, then the rotation, if
any (`Translate::draw` and `Rotate::draw`). -/
def Shape.handle_transform (T : Trig α) (s : Shape α) (cr : Cairo α) : Cairo α :=
  let cr :=
    match s.translate with
    | some t => cairo_translate cr t.1 t.2
    | none => cr
  match s.rotate with
  | some angle => cairo_rotate T cr angle
  | none => cr

/-- Class `Circle`. -/
structure Circle (α : Type) extends Shape α where
  cx : α
  cy : α
  r : α

/-- Constructor `Circle::Circle(_cx, _cy, _r)`. -/
def Circle.new (cx cy r : α) : Circle α :=
  { translate := none, rotate := none, color := Color.black, cx := cx, cy := cy, r := r }

/-- Method `Circle::draw`. -/
def Circle.draw (T : Trig α) (c : Circle α) (cr : Cairo α) : Cairo α :=
  let cr := cairo_set_color c.toShape cr
  let cr := cairo_arc T cr c.cx c.cy c.r 0 (2 * T.pi)
  cairo_fill cr

/-- An element of `Svg2Cairo::shapes`: a pointer to `Shape` whose object is a
`Circle` or a `Path`. -/
inductive AnyShape (α : Type) where
  | circle (c : Circle α)
  | path (p : Path α)

/-- The base object of a shape. -/
def AnyShape.toShape : AnyShape α → Shape α
  | .circle c => c.toShape
  | .path p => p.toShape

/-- Body of the loop of `Svg2Cairo::draw` for one shape: `cairo_save`,
`handle_transform`, the virtual call `shape->draw(cr)`, `cairo_restore`.  The path
object is returned with the state `Path::draw` left in it. -/
def draw_shape (T : Trig α) (sh : AnyShape α) (cr : Cairo α) :
    Except Err (AnyShape α × Cairo α) :=
  let cr := cairo_save cr
  let cr := sh.toShape.handle_transform T cr
  match sh with
  | .circle c => .ok (.circle c, cairo_restore (c.draw T cr))
  | .path p => do
    let st ← p.draw T cr
    .ok (.path st.1, cairo_restore st.2)

/-- Method `Svg2Cairo::draw` of class `Svg2Cairo`: the loop
`for(auto shape : this->shapes)`.  The argument is the member `shapes`, the shapes
of the document in document order; the shapes are returned as the loop left them. -/
def draw (T : Trig α) : List (AnyShape α) → Cairo α →
    Except Err (List (AnyShape α) × Cairo α)
  | [], cr => .ok ([], cr)
  | sh :: rest, cr => do
    let st ← draw_shape T sh cr
    let st2 ← draw T rest st.2
    .ok (st.1 :: st2.1, st2.2)

end Document

/-! ## `Color(hex)` and `Svg2Cairo::find_transformations` -/

/-- The ways in which `find_transformations` does not complete:

* `bad_lexical_cast`: a `boost::bad_lexical_cast` thrown by the cast of a matched
  number;
* `runtime_error`: the `std::runtime_error` thrown by `Color::hex2int`;
* `out_of_range`: the `std::out_of_range` thrown by `std::string::substr`. -/
inductive LoadErr where
  | bad_lexical_cast
  | runtime_error
  | out_of_range
  deriving DecidableEq, Repr

/-! ### Model of `boost::regex_match` on the three patterns -/

/-- The pieces the three patterns of `find_transformations` are made of. -/
inductive Piece where
  /-- The piece `.*`: any characters, as many as possible. -/
  | any_star
  /-- A run of literal characters. -/
  | lit (s : List Char)
  /-- A character class followed by `*`, such as `\s*`. -/
  | class_star (p : Char → Bool)
  /-- A marked sub-expression made of a character class followed by `+`, such as
  `([0-9.-]+)`. -/
  | group_plus (p : Char → Bool)

/-- A greedy repetition: the counts `n`, `n - 1`, ..., `0` are tried in this order
and the first one for which the rest of the pattern matches is taken. -/
def first_down {β : Type} (f : Nat → Option β) : Nat → Option β
  | 0 => f 0
  | n + 1 =>
    match f (n + 1) with
    | some r => some r
    | none => first_down f n

/-- Match of a pattern against the whole of a string, in the way of the Perl syntax
of `boost::regex` (library code, not part of the repository): the alternatives are
explored depth first, every repetition taking the longest run first, and the first
match found is the result.  The result holds the text of the marked sub-expressions,
in order. -/
def regex_run : List Piece → List Char → Option (List (List Char))
  | [], s => if s.isEmpty then some [] else none
  | Piece.any_star :: rest, s =>
    first_down (fun n => regex_run rest (s.drop n)) s.length
  | Piece.lit l :: rest, s =>
    if l.isPrefixOf s then regex_run rest (s.drop l.length) else none
  | Piece.class_star p :: rest, s =>
    first_down (fun n => regex_run rest (s.drop n)) (s.takeWhile p).length
  | Piece.group_plus p :: rest, s =>
    match (s.takeWhile p).length with
    | 0 => none
    | m + 1 =>
      first_down
        (fun n => (regex_run rest (s.drop (n + 1))).map (fun caps => s.take (n + 1) :: caps)) m

/-- Model of `boost::regex_match(s, what, e)`: `none` when `s` does not match, else
the sequence `what`, with the whole match at index 0 and the marked sub-expressions
from index 1 on. -/
def regex_match (e : List Piece) (s : List Char) : Option (List (List Char)) :=
  (regex_run e s).map (fun caps => s :: caps)

/-- The class `[0-9.-]`. -/
def is_number_char (c : Char) : Bool :=
  is_digit c || c == '.' || c == '-'

/-- The class `\s`: space, tab, line feed, vertical tab, form feed, carriage return. -/
def is_space (c : Char) : Bool :=
  c == ' ' || (9 ≤ c.toNat && c.toNat ≤ 13)

/-- The class `[a-fA-F0-9]`. -/
def is_hex_char (c : Char) : Bool :=
  (97 ≤ c.toNat && c.toNat ≤ 102) || (65 ≤ c.toNat && c.toNat ≤ 70) || is_digit c

/-- The pattern `.*translate\(([0-9.-]+) ([0-9.-]+)\).*`. -/
def regex_translate : List Piece :=
  [Piece.any_star, Piece.lit "translate(".toList, Piece.group_plus is_number_char,
   Piece.lit " ".toList, Piece.group_plus is_number_char, Piece.lit ")".toList, Piece.any_star]

/-- The pattern `.*rotate\(([0-9.-]+)\).*`. -/
def regex_rotate : List Piece :=
  [Piece.any_star, Piece.lit "rotate(".toList, Piece.group_plus is_number_char,
   Piece.lit ")".toList, Piece.any_star]

/-- The pattern `.*fill:\s*#([a-fA-F0-9]+).*`. -/
def regex_fill_color : List Piece :=
  [Piece.any_star, Piece.lit "fill:".toList, Piece.class_star is_space, Piece.lit "#".toList,
   Piece.group_plus is_hex_char, Piece.any_star]

/-! ### `Color::Color(const std::string&)` -/

/-- Method `std::string::substr(pos, len)`. -/
def substr (s : List Char) (pos len : Nat) : Except LoadErr (List Char) :=
  if pos > s.length then .error .out_of_range else .ok ((s.drop pos).take len)

/-- Value of a hexadecimal digit; a character that is none counts 0. -/
def hex_digit_value (c : Char) : Nat :=
  if is_digit c then c.toNat - 48
  else if 97 ≤ c.toNat ∧ c.toNat ≤ 102 then c.toNat - 87
  else if 65 ≤ c.toNat ∧ c.toNat ≤ 70 then c.toNat - 55
  else 0

/-- Model of `strtol(s, &offset, 16)` (library code) on text that begins with a
hexadecimal digit or is empty: the value of the longest run of hexadecimal digits at
the start of `s`.  The white space, the sign and the prefix `0x` that the library
accepts in front of the digits are not hexadecimal digits, and the pattern of
`find_transformations` passes hexadecimal digits only. -/
def strtol16 (s : List Char) : Nat :=
  (s.takeWhile is_hex_char).foldl (fun n c => 16 * n + hex_digit_value c) 0

/-- Method `Color::hex2int`: the conversion to `unsigned int` keeps the value, which
is below `16 ^ 2`. -/
def hex2int (hex : List Char) : Except LoadErr Nat :=
  if hex.length ≠ 2 then .error .runtime_error else .ok (strtol16 hex)

/-- Constructor `Color::Color(const std::string& _hex)`. -/
def Color.new (hex : List Char) : Except LoadErr Color := do
  let s0 ← substr hex 0 2
  let r ← hex2int s0
  let s2 ← substr hex 2 2
  let g ← hex2int s2
  let s4 ← substr hex 4 2
  let b ← hex2int s4
  .ok { r := r, g := g, b := b, hexcode := hex }

/-! ### `Svg2Cairo::find_transformations` -/

section Transformations

variable {α : Type} [LinearOrderedField α]

/-- The statement `boost::lexical_cast<double>(what[i])` of `find_transformations`:
a failed cast leaves the function. -/
def cast_match (what : List (List Char)) (i : Nat) : Except LoadErr α :=
  match lexical_cast (what.getD i []) with
  | some v => .ok v
  | none => .error .bad_lexical_cast

/-- The first `if` statement of `find_transformations`: the translation. -/
def find_translate (shape : Shape α) (transform : List Char) : Except LoadErr (Shape α) :=
  match regex_match regex_translate transform with
  | some what => do
    let x ← cast_match what 1
    let y ← cast_match what 2
    .ok (shape.set_translate x y)
  | none => .ok shape

/-- The second `if` statement of `find_transformations`: the rotation. -/
def find_rotate (T : Trig α) (shape : Shape α) (transform : List Char) :
    Except LoadErr (Shape α) :=
  match regex_match regex_rotate transform with
  | some what => do
    let angle ← cast_match what 1
    .ok (shape.set_rotate T angle)
  | none => .ok shape

/-- The statement `hex = hex[0] + "f" + hex[1] + "f" + hex[2] + "f"` for a string of
length 3; other strings are kept. -/
def expand_hex (hex : List Char) : List Char :=
  match hex with
  | [h0, h1, h2] => [h0, 'f', h1, 'f', h2, 'f']
  | _ => hex

/-- The third `if` statement of `find_transformations`: the fill colour. -/
def find_fill_color (shape : Shape α) (style : List Char) : Except LoadErr (Shape α) :=
  match regex_match regex_fill_color style with
  | some what => do
    let color ← Color.new (expand_hex (what.getD 1 []))
    .ok (shape.set_color color)
  | none => .ok shape

/-- Method `Svg2Cairo::find_transformations`. -/
def find_transformations (T : Trig α) (shape : Shape α) (transform style : List Char) :
    Except LoadErr (Shape α) := do
  let shape ← find_translate shape transform
  let shape ← find_rotate T shape transform
  find_fill_color shape style

end Transformations

/-! ## The arc commands with the reads of `coord` as the machine makes them

`coord[i]` is `std::vector<double>::operator[]`, which does not compare the index
with the size.  The definitions above report a read past the end (`index`); those
below make the read and go on, as the compiled program does. -/

section Unchecked

variable {α : Type} [LinearOrderedField α] [FloorRing α]

/-- The expression `coord[i]` without a check of the index: inside the sequence the
element, past its end the value that lies in memory behind the elements.  The
program does not determine that value; `beyond i` stands for it. -/
def read_unchecked (beyond : Nat → α) (coord : List α) (i : Nat) : α :=
  match coord[i]? with
  | some v => v
  | none => beyond i

end Unchecked

/-! ## Vocabulary of the specification -/

/-- The elementary functions over the real numbers. -/
noncomputable def Trig.real : Trig ℝ :=
  { pi := Real.pi, sqrt := Real.sqrt, cos := Real.cos, sin := Real.sin, acos := Real.arccos }

/-- A non-empty string of decimal digits. -/
def is_digits (s : List Char) : Bool :=
  !s.isEmpty && s.all is_digit

/-- The two separators of the tokenizer, `,` and the space. -/
def is_separator (c : Char) : Bool :=
  c == ',' || c == ' '

/-- A decimal numeral without sign: digits with at most one `.` among them, and at
least one digit. -/
def is_unsigned_numeral (body : List Char) : Bool :=
  body.all (fun c => is_digit c || c == '.') && decide (body.count '.' ≤ 1) && body.any is_digit

/-- A decimal numeral: an optional leading `-`, then digits with at most one `.`. -/
def is_numeral (s : List Char) : Bool :=
  match s with
  | '-' :: t => is_unsigned_numeral t
  | _ => is_unsigned_numeral s

/-- The number written by an unsigned numeral: the digits before the `.` are the
integer part, those after it the fraction. -/
def unsigned_value {α : Type} [LinearOrderedField α] (body : List Char) : α :=
  decimal_value (body.takeWhile (fun c => c != '.')) ((body.dropWhile (fun c => c != '.')).drop 1)

/-- The number written by a decimal numeral. -/
def numeral_value {α : Type} [LinearOrderedField α] (s : List Char) : α :=
  match s with
  | '-' :: t => -unsigned_value t
  | _ => unsigned_value s

/-- Numerals, each followed by its run of separators, after a leading run. -/
def joined (lead : List Char) (items : List (List Char × List Char)) : List Char :=
  lead ++ (items.map (fun it => it.1 ++ it.2)).flatten

/-- Every item is a numeral followed by separators only, and only the last item may
have no separator after it. -/
def well_separated : List (List Char × List Char) → Bool
  | [] => true
  | [it] => is_numeral it.1 && it.2.all is_separator
  | it :: rest =>
    is_numeral it.1 && it.2.all is_separator && !it.2.isEmpty && well_separated rest

/-- The statements of the tokenizer after its loop: the number still held in
`digit`, if any, is pushed. -/
def finish_digit {α : Type} [LinearOrderedField α] (st : TokState α) : Except Err (List α) :=
  if st.digit ≠ [] then push_digit st.coord st.digit else .ok st.coord

section SpecInterpreter

variable {α : Type} [LinearOrderedField α] [FloorRing α]

/-- A path object as it is when `draw` is called on it: built by `Path::Path`, its
transformations and colour set afterwards. -/
def Path.fresh (s : Shape α) (operations : List Char) : Path α :=
  { toShape := s, operations := operations, operand := NUL, coordinates := [] }

/-- The commands written in a path string: every letter, with the characters lying
between it and the next letter (or the end of the string). -/
def segments : List Char → List (Char × List Char)
  | [] => []
  | c :: rest =>
    if is_letter c then (c, rest.takeWhile (fun x => !is_letter x)) :: segments rest
    else segments rest

/-- Tokenize the argument text of every command; fails when one of them fails. -/
def tokenize_segments : List (Char × List Char) → Except Err (List (Char × List α))
  | [] => .ok []
  | s :: rest => do
    let coord ← parse_coordinates s.2
    let cmds ← tokenize_segments rest
    .ok ((s.1, coord) :: cmds)

/-- Execute commands, each a letter with its numbers, one after the other. -/
def run_commands (T : Trig α) (cmds : List (Char × List α)) (cr : Cairo α) :
    Except Err (Cairo α) :=
  cmds.foldlM (fun cr cmd => execute_operand T cmd.1 cmd.2 cr) cr

/-- Tokenize and execute commands given as text, one after the other. -/
def run_segments (T : Trig α) (segs : List (Char × List Char)) (cr : Cairo α) :
    Except Err (Cairo α) :=
  segs.foldlM (fun cr s => parse_coordinates s.2 >>= fun coord => execute_operand T s.1 coord cr) cr

end SpecInterpreter

section SpecPolyline

variable {α : Type} [LinearOrderedField α]

/-- A coordinate pair as it is written: two numerals separated by a space. -/
def pair_text (p : List Char × List Char) : List Char :=
  p.1 ++ ' ' :: p.2

/-- Both members of a written pair are decimal numerals. -/
def is_pair (p : List Char × List Char) : Bool :=
  is_numeral p.1 && is_numeral p.2

/-- The point a written pair denotes. -/
def pair_value (p : List Char × List Char) : α × α :=
  (numeral_value p.1, numeral_value p.2)

/-- The path `M p1 p2 ... pk`: one letter, the pairs separated by spaces. -/
def implicit_path (p1 : List Char × List Char) (ps : List (List Char × List Char)) :
    List Char :=
  'M' :: (pair_text p1 ++ (ps.map (fun p => ' ' :: pair_text p)).flatten)

/-- The path `M p1 L p2 ... L pk`. -/
def explicit_path (p1 : List Char × List Char) (ps : List (List Char × List Char)) :
    List Char :=
  'M' :: (pair_text p1 ++ (ps.map (fun p => ' ' :: 'L' :: pair_text p)).flatten)

/-- The calls move-to(`p1`), line-to(`p2`), ..., line-to(`pk`) made on a context. -/
def polyline (cr : Cairo α) (p1 : α × α) (ps : List (α × α)) : Cairo α :=
  ps.foldl (fun cr q => cairo_line_to cr q.1 q.2) (cairo_move_to cr p1.1 p1.2)

end SpecPolyline

section SpecCommands

variable {α : Type} [LinearOrderedField α] [FloorRing α]

/-- The calls of one arc group: save, translate(centre), rotate(`rot*pi/180`),
scale(`rx`, `ry`), the unit-circle arc in the negative direction from the start
angle to start angle plus extent, restore; centre and angles are those
`endpoint_to_center` returns for the arc from `start` to `stop`. -/
def arc_calls (T : Trig α) (start stop : α × α) (rx ry rot fa fs : α) : List (Prim α) :=
  let c := endpoint_to_center T start.1 start.2 stop.1 stop.2 fa fs rx ry (rot * T.pi / 180)
  [Prim.save, Prim.translate c.1 c.2.1, Prim.rotate (rot * T.pi / 180), Prim.scale rx ry,
    Prim.arc_negative 0 0 1 c.2.2.1 (c.2.2.1 + c.2.2.2), Prim.restore]

/-- The letters `perform_operation` has a case for. -/
def is_known (op : Char) : Bool :=
  op ∈ ['M', 'm', 'L', 'l', 'H', 'h', 'V', 'v', 'C', 'c', 'A', 'a', 'Z', 'z']

end SpecCommands

section SpecTrace

variable {α : Type}

/-- The call is `cairo_save`. -/
def is_save : Prim α → Bool
  | .save => true
  | _ => false

/-- The call is `cairo_restore`. -/
def is_restore : Prim α → Bool
  | .restore => true
  | _ => false

/-- The call is `cairo_fill`. -/
def is_fill : Prim α → Bool
  | .fill => true
  | _ => false

/-- Save and restore calls are balanced in a sequence of calls: in every initial
part the restores do not outnumber the saves, and over the whole sequence the two
numbers are equal. -/
def balanced (l : List (Prim α)) : Prop :=
  (∀ pre, pre <+: l → pre.countP is_restore ≤ pre.countP is_save) ∧
  l.countP is_save = l.countP is_restore

/-- Depth of the stack of saved states after a sequence of calls made at depth `d`;
`none` when a restore is met at depth `0`. -/
def final_depth : List (Prim α) → Nat → Option Nat
  | [], d => some d
  | p :: rest, d =>
    if is_save p then final_depth rest (d + 1)
    else if is_restore p then
      match d with
      | 0 => none
      | e + 1 => final_depth rest e
    else final_depth rest d

/-- A sequence of calls that returns to the depth it starts from and does not fill. -/
def calm (l : List (Prim α)) : Bool :=
  final_depth l 0 == some 0 && l.all (fun p => !is_fill p)

/-- The context `cr1` is `cr` after the calls `l`, with the matrix and the stack of
saved states of `cr`. -/
def Emits (cr cr1 : Cairo α) (l : List (Prim α)) : Prop :=
  cr1.trace = cr.trace ++ l ∧ cr1.ctm = cr.ctm ∧ cr1.saved = cr.saved

/-- The context `cr1` is reached from `cr` by calls that leave the stack depth as it
was and do not fill. -/
def Calmly (cr cr1 : Cairo α) : Prop :=
  ∃ l, Emits cr cr1 l ∧ calm l = true

end SpecTrace

section SpecDocument

variable {α : Type} [LinearOrderedField α] [FloorRing α]

/-- The calls of `handle_transform`: translate if set, then rotate if set. -/
def transform_calls (s : Shape α) : List (Prim α) :=
  (match s.translate with
    | some t => [Prim.translate t.1 t.2]
    | none => []) ++
  (match s.rotate with
    | some angle => [Prim.rotate angle]
    | none => [])

/-- The block of calls of one shape: save, the transformations, the fill colour, the
geometry of the shape, fill, restore. -/
def shape_block (s : Shape α) (geometry : List (Prim α)) : List (Prim α) :=
  Prim.save :: (transform_calls s ++
    Prim.set_source_rgb s.color.get_r s.color.get_g s.color.get_b ::
      (geometry ++ [Prim.fill, Prim.restore]))

/-- The geometry of a shape: for a circle the full arc around its centre; for a path
the calls of its commands, which leave the stack depth unchanged and do not fill,
followed by close-path. -/
def is_geometry (T : Trig α) (sh : AnyShape α) (g : List (Prim α)) : Prop :=
  match sh with
  | .circle c => g = [Prim.arc c.cx c.cy c.r 0 (2 * T.pi)]
  | .path _ => ∃ l, calm l = true ∧ g = l ++ [Prim.close_path]

end SpecDocument

section SpecArc

variable {α : Type} [LinearOrderedField α] [FloorRing α]

/-- The local variables of `endpoint_to_center` that its results are made of: the
start point in the frame of the ellipse, the radii after the check, the divisor of
the centre computation, the centre in that frame, the two vectors `u` and `v` and the
two magnitudes `n`. -/
structure ArcFrame (α : Type) where
  x1p : α
  y1p : α
  radii_check : α
  rx : α
  ry : α
  denominator : α
  sq : α
  coef : α
  cx1 : α
  cy1 : α
  ux : α
  uy : α
  vx : α
  vy : α
  n1 : α
  n2 : α

/-- The local variables of `endpoint_to_center`, computed by the statements of the
function, in the same order. -/
def arc_frame (T : Trig α) (x1 y1 x2 y2 fa fs rx ry phi : α) : ArcFrame α :=
  let dx2 := (x1 - x2) / 2
  let dy2 := (y1 - y2) / 2
  let cos_angle := T.cos phi
  let sin_angle := T.sin phi
  let x1p := cos_angle * dx2 + sin_angle * dy2
  let y1p := -sin_angle * dx2 + cos_angle * dy2
  let rx0 := |rx|
  let ry0 := |ry|
  let Px1 := x1p * x1p
  let Py1 := y1p * y1p
  let radii_check := Px1 / (rx0 * rx0) + Py1 / (ry0 * ry0)
  let rx := if radii_check > 1 then T.sqrt radii_check * rx0 else rx0
  let ry := if radii_check > 1 then T.sqrt radii_check * ry0 else ry0
  let Prx := rx * rx
  let Pry := ry * ry
  let sign : α := if |fa - fs| < 1 / 1000 then -1 else 1
  let sq0 := (Prx * Pry - Prx * Py1 - Pry * Px1) / (Prx * Py1 + Pry * Px1)
  let sq := if sq0 < 0 then 0 else sq0
  let coef := sign * T.sqrt sq
  let cx1 := coef * ((rx * y1p) / ry)
  let cy1 := coef * -((ry * x1p) / rx)
  let ux := (x1p - cx1) / rx
  let uy := (y1p - cy1) / ry
  let vx := (-x1p - cx1) / rx
  let vy := (-y1p - cy1) / ry
  { x1p := x1p, y1p := y1p, radii_check := radii_check, rx := rx, ry := ry,
    denominator := Prx * Py1 + Pry * Px1, sq := sq, coef := coef, cx1 := cx1, cy1 := cy1,
    ux := ux, uy := uy, vx := vx, vy := vy,
    n1 := T.sqrt (ux * ux + uy * uy),
    n2 := T.sqrt ((ux * ux + uy * uy) * (vx * vx + vy * vy)) }

/-- The angle `sign * acos(p / n)` of `endpoint_to_center`, the sign being that of `s`. -/
def signed_acos (T : Trig α) (s p n : α) : α :=
  (if s < 0 then -1 else 1) * T.acos (p / n)

/-- The adjustment of the extent by the sweep flag in `endpoint_to_center`. -/
def sweep_adjust (T : Trig α) (fs angle_extend : α) : α :=
  if fs < 1 / 2 ∧ angle_extend > 0 then angle_extend - 2 * T.pi
  else if fs > 1 / 2 ∧ angle_extend < 0 then angle_extend + 2 * T.pi
  else angle_extend

end SpecArc

section SpecMatch

/-- The text `l` stands at position `k` of `s`. -/
def starts_at (l s : List Char) (k : Nat) : Bool :=
  l.isPrefixOf (s.drop k)

/-- The text `l` stands at no position of `s` after `k`. -/
def none_after (l s : List Char) (k : Nat) : Bool :=
  (List.range (s.length - k)).all (fun i => !starts_at l s (k + 1 + i))

/-- The text `translate(x y)`. -/
def translate_text (x y : List Char) : List Char :=
  "translate(".toList ++ (x ++ ' ' :: (y ++ [')']))

/-- The text `rotate(a)`. -/
def rotate_text (a : List Char) : List Char :=
  "rotate(".toList ++ (a ++ [')'])

/-- The text `fill:`, white space `ws`, `#` and the digits `ds`. -/
def fill_text (ws ds : List Char) : List Char :=
  "fill:".toList ++ (ws ++ '#' :: ds)

/-- A non-empty run of the characters `0-9`, `.` and `-`. -/
def is_number_text (x : List Char) : Bool :=
  !x.isEmpty && x.all is_number_char

/-- The first character of `s`, if any, is outside the class `p`. -/
def stops (p : Char → Bool) (s : List Char) : Bool :=
  match s with
  | [] => true
  | c :: _ => !p c

end SpecMatch

section SpecRelative

variable {α : Type} [LinearOrderedField α]

/-- The points reached from `c` by the offsets `ds` taken one after the other:
`c + d1`, `c + d1 + d2`, ... -/
def relative_points (c : α × α) : List (α × α) → List (α × α)
  | [] => []
  | d :: ds => (c.1 + d.1, c.2 + d.2) :: relative_points (c.1 + d.1, c.2 + d.2) ds

/-- The point `c + d1 + ... + dk`. -/
def offset_sum (c : α × α) (ds : List (α × α)) : α × α :=
  ds.foldl (fun p d => (p.1 + d.1, p.2 + d.2)) c

end SpecRelative

/-! ## Lemmas -/

section TokLemmas
variable {α : Type} [LinearOrderedField α]

theorem ok_bind {ε β γ : Type} (a : β) (f : β → Except ε γ) :
    (Except.ok a >>= f) = f a := rfl

theorem error_bind {ε β γ : Type} (e : ε) (f : β → Except ε γ) :
    ((Except.error e : Except ε β) >>= f) = Except.error e := rfl

theorem is_digit_ne_sep {c : Char} (h : is_digit c = true) :
    c ≠ ',' ∧ c ≠ ' ' ∧ c ≠ '-' ∧ c ≠ '.' ∧ c ≠ '+' := by
  refine ⟨?_, ?_, ?_, ?_, ?_⟩ <;> (rintro rfl; revert h; decide)

theorem tokenize_char_plain (st : TokState α) (c : Char)
    (h1 : c ≠ ',') (h2 : c ≠ ' ') (h3 : c ≠ '-') (h4 : c ≠ '.') :
    tokenize_char st c = .ok { st with digit := st.digit ++ [c] } := by
  simp [tokenize_char, h1, h2, h3, h4]

theorem tokenize_digits (ds : List Char) (hd : ∀ c ∈ ds, is_digit c = true) (st : TokState α) :
    ds.foldlM tokenize_char st = .ok { st with digit := st.digit ++ ds } := by
  induction ds generalizing st with
  | nil => simp [pure, Except.pure]
  | cons c cs ih =>
    obtain ⟨h1, h2, h3, h4, _⟩ := is_digit_ne_sep (hd c (by simp))
    rw [List.foldlM_cons, tokenize_char_plain st c h1 h2 h3 h4, ok_bind,
      ih (fun x hx => hd x (by simp [hx]))]
    simp

end TokLemmas

section CastLemmas
variable {α : Type} [LinearOrderedField α]

theorem takeWhile_digits_append (ip rest : List Char) (hd : ∀ c ∈ ip, is_digit c = true)
    (hr : ∀ c, rest.head? = some c → is_digit c = false) :
    (ip ++ rest).takeWhile is_digit = ip ∧ (ip ++ rest).dropWhile is_digit = rest := by
  induction ip with
  | nil =>
    cases rest with
    | nil => simp
    | cons c cs => simp [List.takeWhile, List.dropWhile, hr c rfl]
  | cons c cs ih =>
    have hc := hd c (by simp)
    have := ih (fun x hx => hd x (by simp [hx]))
    simp [List.takeWhile, List.dropWhile, hc, this]

theorem cast_unsigned_int (neg : Bool) (ip : List Char) (hne : ip ≠ [])
    (hd : ∀ c ∈ ip, is_digit c = true) :
    (cast_unsigned neg ip : Option α) = some (with_sign neg (decimal_value ip [])) := by
  have h := takeWhile_digits_append ip [] hd (by simp)
  simp only [List.append_nil] at h
  simp [cast_unsigned, h.1, h.2, hne]

theorem cast_unsigned_frac (neg : Bool) (ip fp : List Char) (hne : ip ≠ [] ∨ fp ≠ [])
    (hd : ∀ c ∈ ip, is_digit c = true) (hf : ∀ c ∈ fp, is_digit c = true) :
    (cast_unsigned neg (ip ++ '.' :: fp) : Option α)
      = some (with_sign neg (decimal_value ip fp)) := by
  have h := takeWhile_digits_append ip ('.' :: fp) hd (by simp; decide)
  simp only [cast_unsigned, h.1, h.2]
  rw [if_pos]
  exact ⟨by simpa using hf, hne⟩

theorem lexical_cast_unsigned (c : Char) (t : List Char) (h1 : c ≠ '-') (h2 : c ≠ '+') :
    (lexical_cast (c :: t) : Option α) = cast_unsigned false (c :: t) := by
  unfold lexical_cast
  split
  · rename_i h; cases h; exact absurd rfl h1
  · rename_i h; cases h; exact absurd rfl h2
  · rfl

theorem lexical_cast_neg (t : List Char) :
    (lexical_cast ('-' :: t) : Option α) = cast_unsigned true t := rfl

theorem lexical_cast_nil : (lexical_cast [] : Option α) = none := by
  simp [lexical_cast, cast_unsigned]

end CastLemmas

section CompactLemmas
variable {α : Type} [LinearOrderedField α]

theorem is_digits_iff (s : List Char) :
    is_digits s = true ↔ s ≠ [] ∧ ∀ c ∈ s, is_digit c = true := by
  cases s <;> simp [is_digits]

theorem push_digit_some (coord : List α) (digit : List Char) (v : α)
    (h : lexical_cast digit = some v) : push_digit coord digit = .ok (coord ++ [v]) := by
  simp [push_digit, h]

theorem tokenize_compact (a b c d : List Char)
    (ha : is_digits a = true) (hb : is_digits b = true)
    (hc : is_digits c = true) (hd : is_digits d = true) :
    (parse_coordinates (a ++ '-' :: (b ++ '.' :: (c ++ '.' :: d))) : Except Err (List α)) =
      .ok [(digits_value a : α),
           -((digits_value b : α) + (digits_value c : α) / 10 ^ c.length),
           (digits_value d : α) / 10 ^ d.length] := by
  rw [is_digits_iff] at ha hb hc hd
  obtain ⟨a0, as, rfl⟩ := List.exists_cons_of_ne_nil ha.1
  have ha0 := is_digit_ne_sep (ha.2 a0 (by simp))
  have e1 : (lexical_cast (a0 :: as) : Option α) = some (digits_value (a0 :: as) : α) := by
    rw [lexical_cast_unsigned a0 as ha0.2.2.1 ha0.2.2.2.2, cast_unsigned_int false _ ha.1 ha.2]
    simp [with_sign, decimal_value, digits_value]
  have e2 : (lexical_cast ('-' :: (b ++ '.' :: c)) : Option α)
      = some (-((digits_value b : α) + (digits_value c : α) / 10 ^ c.length)) := by
    rw [lexical_cast_neg, cast_unsigned_frac true b c (Or.inl hb.1) hb.2 hc.2]
    simp [with_sign, decimal_value]
  have e3 : (lexical_cast ('.' :: d) : Option α)
      = some ((digits_value d : α) / 10 ^ d.length) := by
    rw [lexical_cast_unsigned '.' d (by decide) (by decide)]
    have : (cast_unsigned false ([] ++ '.' :: d) : Option α) = _ :=
      cast_unsigned_frac false [] d (Or.inr hd.1) (by simp) hd.2
    simp only [List.nil_append] at this
    rw [this]
    simp [with_sign, decimal_value, digits_value]
  unfold parse_coordinates
  rw [if_pos (by simp)]
  simp only [List.foldlM_append, List.foldlM_cons, tokenize_digits _ ha.2, tokenize_digits _ hb.2,
    tokenize_digits _ hc.2, tokenize_digits _ hd.2, ok_bind, bind_assoc]
  simp [tokenize_char, push_digit_some _ _ _ e1, push_digit_some _ _ _ e2, push_digit_some _ _ _ e3, ok_bind]
end CompactLemmas

section NumeralLemmas
variable {α : Type} [LinearOrderedField α]

/-- Shape of an unsigned numeral: digits only, or digits around a single point. -/
theorem unsigned_shape (body : List Char)
    (hall : ∀ c ∈ body, is_digit c = true ∨ c = '.') (hcount : body.count '.' ≤ 1) :
    (∀ c ∈ body, is_digit c = true) ∨
    ∃ ip fp, body = ip ++ '.' :: fp ∧ (∀ c ∈ ip, is_digit c = true) ∧
      (∀ c ∈ fp, is_digit c = true) := by
  induction body with
  | nil => left; simp
  | cons c cs ih =>
    have hcs : ∀ x ∈ cs, is_digit x = true ∨ x = '.' := fun x hx => hall x (by simp [hx])
    rcases hall c (by simp) with hc | hc
    · have hne : c ≠ '.' := (is_digit_ne_sep hc).2.2.2.1
      have hcnt : cs.count '.' ≤ 1 := by
        rw [List.count_cons_of_ne (Ne.symm hne)] at hcount; exact hcount
      rcases ih hcs hcnt with h | ⟨ip, fp, rfl, h1, h2⟩
      · left; intro x hx
        rcases List.mem_cons.1 hx with rfl | hx
        · exact hc
        · exact h x hx
      · right
        refine ⟨c :: ip, fp, by simp, ?_, h2⟩
        intro x hx
        rcases List.mem_cons.1 hx with rfl | hx
        · exact hc
        · exact h1 x hx
    · subst hc
      right
      refine ⟨[], cs, by simp, by simp, ?_⟩
      intro x hx
      rcases hcs x hx with h | h
      · exact h
      · subst h
        rw [List.count_cons_self] at hcount
        have : 0 < cs.count '.' := List.count_pos_iff.2 hx
        omega

theorem is_unsigned_numeral_shape (body : List Char) (h : is_unsigned_numeral body = true) :
    (body ≠ [] ∧ ∀ c ∈ body, is_digit c = true) ∨
    ∃ ip fp, body = ip ++ '.' :: fp ∧ (ip ≠ [] ∨ fp ≠ []) ∧ (∀ c ∈ ip, is_digit c = true) ∧
      (∀ c ∈ fp, is_digit c = true) := by
  simp only [is_unsigned_numeral, Bool.and_eq_true, List.all_eq_true, Bool.or_eq_true,
    beq_iff_eq, decide_eq_true_eq, List.any_eq_true] at h
  obtain ⟨⟨hall, hcount⟩, d, hd, hdd⟩ := h
  rcases unsigned_shape body hall hcount with h | ⟨ip, fp, rfl, h1, h2⟩
  · left
    exact ⟨List.ne_nil_of_mem hd, h⟩
  · right
    refine ⟨ip, fp, rfl, ?_, h1, h2⟩
    rcases List.mem_append.1 hd with hm | hm
    · exact Or.inl (List.ne_nil_of_mem hm)
    · rcases List.mem_cons.1 hm with rfl | hm
      · exact absurd hdd (by decide)
      · exact Or.inr (List.ne_nil_of_mem hm)

theorem takeWhile_not_dot (ip rest : List Char) (hd : ∀ c ∈ ip, is_digit c = true)
    (hr : ∀ c, rest.head? = some c → c = '.') :
    (ip ++ rest).takeWhile (fun c => c != '.') = ip ∧
    (ip ++ rest).dropWhile (fun c => c != '.') = rest := by
  induction ip with
  | nil =>
    cases rest with
    | nil => simp
    | cons c cs => simp [List.takeWhile, List.dropWhile, hr c rfl]
  | cons c cs ih =>
    have hc : (c != '.') = true := by
      simpa using (is_digit_ne_sep (hd c (by simp))).2.2.2.1
    have := ih (fun x hx => hd x (by simp [hx]))
    simp [List.takeWhile, List.dropWhile, hc, this]

theorem cast_unsigned_numeral (neg : Bool) (body : List Char)
    (h : is_unsigned_numeral body = true) :
    (cast_unsigned neg body : Option α) = some (with_sign neg (unsigned_value body)) := by
  rcases is_unsigned_numeral_shape body h with ⟨hne, hd⟩ | ⟨ip, fp, rfl, hne, h1, h2⟩
  · have := takeWhile_not_dot body [] hd (by simp)
    simp only [List.append_nil] at this
    rw [cast_unsigned_int neg body hne hd, unsigned_value, this.1, this.2]
    rfl
  · have := takeWhile_not_dot ip ('.' :: fp) h1 (by simp)
    rw [cast_unsigned_frac neg ip fp hne h1 h2, unsigned_value, this.1, this.2]
    rfl

theorem unsigned_head (c : Char) (t : List Char) (h : is_unsigned_numeral (c :: t) = true) :
    c ≠ '-' ∧ c ≠ '+' := by
  simp only [is_unsigned_numeral, Bool.and_eq_true, List.all_eq_true, Bool.or_eq_true,
    beq_iff_eq] at h
  rcases h.1.1 c (by simp) with hc | hc
  · exact ⟨(is_digit_ne_sep hc).2.2.1, (is_digit_ne_sep hc).2.2.2.2⟩
  · subst hc; decide

theorem is_numeral_cases (s : List Char) (h : is_numeral s = true) :
    (∃ t, s = '-' :: t ∧ is_unsigned_numeral t = true) ∨
    (∃ c t, s = c :: t ∧ c ≠ '-' ∧ c ≠ '+' ∧ is_unsigned_numeral s = true) := by
  unfold is_numeral at h
  split at h
  · left; exact ⟨_, rfl, h⟩
  · right
    cases s with
    | nil => simp [is_unsigned_numeral] at h
    | cons c t => exact ⟨c, t, rfl, (unsigned_head c t h).1, (unsigned_head c t h).2, h⟩

theorem numeral_value_unsigned (c : Char) (t : List Char) (h : c ≠ '-') :
    (numeral_value (c :: t) : α) = unsigned_value (c :: t) := by
  unfold numeral_value
  split
  · rename_i heq; cases heq; exact absurd rfl h
  · rfl

theorem lexical_cast_numeral (s : List Char) (h : is_numeral s = true) :
    (lexical_cast s : Option α) = some (numeral_value s) := by
  rcases is_numeral_cases s h with ⟨t, rfl, ht⟩ | ⟨c, t, rfl, h1, h2, hs⟩
  · rw [lexical_cast_neg, cast_unsigned_numeral true t ht]
    rfl
  · rw [lexical_cast_unsigned c t h1 h2, cast_unsigned_numeral false _ hs,
      numeral_value_unsigned c t h1]
    rfl

end NumeralLemmas

section ItemLemmas
variable {α : Type} [LinearOrderedField α]

theorem parse_coordinates_eq (s : List Char) (hs : s ≠ []) :
    (parse_coordinates s : Except Err (List α)) =
      s.foldlM tokenize_char ({ coord := [], digit := [], firstdot := true } : TokState α)
        >>= finish_digit := by
  unfold parse_coordinates
  rw [if_pos hs]
  rfl

theorem tokenize_unsigned (body : List Char) (h : is_unsigned_numeral body = true)
    (coord : List α) (digit : List Char) :
    ∃ fd, body.foldlM tokenize_char ({ coord := coord, digit := digit, firstdot := true })
      = .ok ({ coord := coord, digit := digit ++ body, firstdot := fd } : TokState α) := by
  rcases is_unsigned_numeral_shape body h with ⟨_, hd⟩ | ⟨ip, fp, rfl, _, h1, h2⟩
  · exact ⟨true, by rw [tokenize_digits body hd]⟩
  · refine ⟨false, ?_⟩
    rw [List.foldlM_append, tokenize_digits ip h1, ok_bind, List.foldlM_cons]
    simp only [tokenize_char]
    simp [ok_bind, tokenize_digits fp h2]

theorem tokenize_numeral (s : List Char) (h : is_numeral s = true) (coord : List α) :
    ∃ fd, s.foldlM tokenize_char ({ coord := coord, digit := [], firstdot := true })
      = .ok ({ coord := coord, digit := s, firstdot := fd } : TokState α) := by
  rcases is_numeral_cases s h with ⟨t, rfl, ht⟩ | ⟨c, t, rfl, _, _, hs⟩
  · obtain ⟨fd, hfd⟩ := tokenize_unsigned t ht coord ['-']
    refine ⟨fd, ?_⟩
    rw [List.foldlM_cons]
    simp only [tokenize_char]
    simpa [ok_bind] using hfd
  · obtain ⟨fd, hfd⟩ := tokenize_unsigned (c :: t) hs coord []
    exact ⟨fd, by simpa using hfd⟩

theorem tokenize_separators_idle (seps : List Char) (hs : ∀ c ∈ seps, is_separator c = true)
    (coord : List α) :
    seps.foldlM tokenize_char ({ coord := coord, digit := [], firstdot := true })
      = .ok ({ coord := coord, digit := [], firstdot := true } : TokState α) := by
  induction seps with
  | nil => rfl
  | cons c cs ih =>
    have hc : c = ',' ∨ c = ' ' := by simpa [is_separator] using hs c (by simp)
    rw [List.foldlM_cons]
    simp only [tokenize_char, if_pos hc, lexical_cast_nil, ok_bind]
    exact ih (fun x hx => hs x (by simp [hx]))

theorem tokenize_separators_push (seps : List Char) (hs : ∀ c ∈ seps, is_separator c = true)
    (hne : seps ≠ []) (coord : List α) (digit : List Char) (fd : Bool) (v : α)
    (hv : lexical_cast digit = some v) :
    seps.foldlM tokenize_char ({ coord := coord, digit := digit, firstdot := fd })
      = .ok ({ coord := coord ++ [v], digit := [], firstdot := true } : TokState α) := by
  obtain ⟨c, cs, rfl⟩ := List.exists_cons_of_ne_nil hne
  have hc : c = ',' ∨ c = ' ' := by simpa [is_separator] using hs c (by simp)
  rw [List.foldlM_cons]
  simp only [tokenize_char, if_pos hc, hv, ok_bind]
  exact tokenize_separators_idle cs (fun x hx => hs x (by simp [hx])) _

theorem is_numeral_ne_nil (s : List Char) (h : is_numeral s = true) : s ≠ [] := by
  rcases is_numeral_cases s h with ⟨t, rfl, _⟩ | ⟨c, t, rfl, _⟩ <;> simp

theorem tokenize_item (n seps : List Char) (hn : is_numeral n = true)
    (hs : ∀ c ∈ seps, is_separator c = true) (coord : List α) :
    ∃ st, (n ++ seps).foldlM tokenize_char ({ coord := coord, digit := [], firstdot := true })
        = .ok st ∧
      finish_digit st = .ok (coord ++ [numeral_value n]) ∧
      (seps ≠ [] → st = { coord := coord ++ [numeral_value n], digit := [], firstdot := true }) := by
  obtain ⟨fd, hfd⟩ := tokenize_numeral n hn coord
  by_cases hne : seps = []
  · subst hne
    refine ⟨_, by simpa using hfd, ?_, by simp⟩
    simp [finish_digit, is_numeral_ne_nil n hn, push_digit_some _ _ _ (lexical_cast_numeral n hn)]
  · refine ⟨_, ?_, ?_, fun _ => rfl⟩
    · rw [List.foldlM_append, hfd, ok_bind]
      exact tokenize_separators_push seps hs hne coord n fd _ (lexical_cast_numeral n hn)
    · simp [finish_digit]

theorem tokenize_items (items : List (List Char × List Char))
    (h : well_separated items = true) (coord : List α) :
    ∃ st, ((items.map (fun it => it.1 ++ it.2)).flatten).foldlM tokenize_char
        ({ coord := coord, digit := [], firstdot := true }) = .ok st ∧
      finish_digit st = .ok (coord ++ items.map (fun it => numeral_value it.1)) := by
  induction items generalizing coord with
  | nil => exact ⟨_, rfl, by simp [finish_digit]⟩
  | cons it rest ih =>
    cases rest with
    | nil =>
      simp only [well_separated, Bool.and_eq_true, List.all_eq_true] at h
      obtain ⟨st, h1, h2, _⟩ := tokenize_item it.1 it.2 h.1 h.2 coord
      exact ⟨st, by simpa using h1, by simpa using h2⟩
    | cons it2 rest2 =>
      simp only [well_separated, Bool.and_eq_true, List.all_eq_true, Bool.not_eq_true',
        List.isEmpty_eq_false] at h
      obtain ⟨⟨⟨hn, hs⟩, hne⟩, hrest⟩ := h
      obtain ⟨st, h1, _, h3⟩ := tokenize_item it.1 it.2 hn hs coord
      obtain ⟨st2, h4, h5⟩ := ih hrest (coord ++ [numeral_value it.1])
      refine ⟨st2, ?_, by simpa using h5⟩
      rw [List.map_cons, List.flatten_cons, List.foldlM_append, h1, ok_bind, h3 hne]
      exact h4

theorem parse_joined (lead : List Char) (items : List (List Char × List Char))
    (hl : ∀ c ∈ lead, is_separator c = true) (hi : well_separated items = true) :
    (parse_coordinates (joined lead items) : Except Err (List α))
      = .ok (items.map (fun it => numeral_value it.1)) := by
  by_cases hnil : joined lead items = []
  · have hitems : items = [] := by
      cases items with
      | nil => rfl
      | cons it rest =>
        exfalso
        have hn : is_numeral it.1 = true := by
          cases rest <;> simp [well_separated] at hi <;> simp [hi]
        have := is_numeral_ne_nil it.1 hn
        simp [joined] at hnil
        exact this hnil.2.1
    subst hitems
    simp [hnil, parse_coordinates]
  · obtain ⟨st, h1, h2⟩ := tokenize_items items hi ([] : List α)
    rw [parse_coordinates_eq _ hnil, joined, List.foldlM_append,
      tokenize_separators_idle lead hl, ok_bind, h1, ok_bind]
    simpa using h2

end ItemLemmas

section LoopLemmas
variable {α : Type} [LinearOrderedField α] [FloorRing α]

theorem is_letter_ne_NUL (c : Char) (h : is_letter c = true) : c ≠ NUL := by
  rintro rfl; revert h; decide

theorem map_ok {ε β γ : Type} (f : β → γ) (a : β) :
    Except.map f (Except.ok a : Except ε β) = Except.ok (f a) := rfl

theorem map_error {ε β γ : Type} (f : β → γ) (e : ε) :
    Except.map f (Except.error e : Except ε β) = Except.error e := rfl

theorem perform_operation_eq (T : Trig α) (p : Path α) (cr : Cairo α) (nxt : Char) :
    perform_operation T p cr nxt =
      (run_segments T [(p.operand, p.coordinates)] cr).map
        (fun cr1 => ({ p with operand := nxt, coordinates := [] }, cr1)) := by
  unfold perform_operation run_segments
  rw [List.foldlM_cons]
  cases (parse_coordinates p.coordinates : Except Err (List α)) with
  | error e => rfl
  | ok coord =>
    simp only [ok_bind, List.foldlM_nil]
    cases execute_operand T p.operand coord cr <;> rfl

theorem run_segments_cons (T : Trig α) (s : Char × List Char) (segs : List (Char × List Char))
    (cr : Cairo α) :
    run_segments T (s :: segs) cr = run_segments T [s] cr >>= run_segments T segs := by
  unfold run_segments
  simp only [List.foldlM_cons, List.foldlM_nil, bind_assoc, bind_pure]

theorem segments_dropWhile (txt : List Char) :
    segments (txt.dropWhile (fun x => !is_letter x)) = segments txt := by
  induction txt with
  | nil => rfl
  | cons c r ih =>
    by_cases hc : is_letter c = true
    · simp [List.dropWhile, hc]
    · simp only [Bool.not_eq_true] at hc
      simp [List.dropWhile, hc, segments, ih]

/-- The character loop of `Path::draw` from a state with a pending operand, closed by
a finalizing step `fin` that calls `perform_operation` with `nxt`. -/
theorem draw_loop_segments (T : Trig α) (nxt : Char)
    (fin : Path α × Cairo α → Except Err (Path α × Cairo α))
    (hfin : ∀ q cr, q.operand ≠ NUL → fin (q, cr) = perform_operation T q cr nxt)
    (txt : List Char) (p : Path α) (op : Char) (buf : List Char) (cr : Cairo α)
    (hop : op ≠ NUL) :
    (txt.foldlM (draw_char T) ({ p with operand := op, coordinates := buf }, cr) >>= fin) =
      (run_segments T ((op, buf ++ txt.takeWhile (fun x => !is_letter x)) ::
          segments (txt.dropWhile (fun x => !is_letter x))) cr).map
        (fun cr1 => ({ p with operand := nxt, coordinates := [] }, cr1)) := by
  induction txt generalizing op buf cr with
  | nil =>
    simp only [List.foldlM_nil, List.takeWhile_nil, List.dropWhile_nil, List.append_nil, segments]
    show fin _ = _
    rw [hfin _ _ hop, perform_operation_eq]
  | cons c r ih =>
    rw [List.foldlM_cons]
    by_cases hc : is_letter c = true
    · have h1 : draw_char T ({ p with operand := op, coordinates := buf }, cr) c
          = perform_operation T { p with operand := op, coordinates := buf } cr c := by
        simp [draw_char, hc, hop]
      rw [h1, perform_operation_eq]
      simp only [List.takeWhile, List.dropWhile, hc, Bool.not_true, List.append_nil]
      rw [run_segments_cons T (op, buf) (segments (c :: r))]
      cases run_segments T [(op, buf)] cr with
      | error e => simp only [error_bind, map_error]
      | ok cr1 =>
        simp only [map_ok, ok_bind]
        have := ih c [] cr1 (is_letter_ne_NUL c hc)
        simp only [List.nil_append] at this
        rw [segments_dropWhile] at this
        rw [segments, if_pos hc]
        exact this
    · simp only [Bool.not_eq_true] at hc
      have h1 : draw_char T ({ p with operand := op, coordinates := buf }, cr) c
          = .ok ({ p with operand := op, coordinates := buf ++ [c] }, cr) := by
        simp [draw_char, hc]
      rw [h1, ok_bind]
      have := ih op (buf ++ [c]) cr hop
      simpa [List.takeWhile, List.dropWhile, hc] using this

end LoopLemmas

section SegmentLemmas
variable {α : Type} [LinearOrderedField α]

theorem takeWhile_append_stop {β : Type} (f : β → Bool) (xs : List β) (y : β) (ys : List β)
    (hy : f y = false) : (xs ++ y :: ys).takeWhile f = xs.takeWhile f := by
  induction xs with
  | nil => simp [List.takeWhile, hy]
  | cons x r ih => cases hx : f x <;> simp [List.takeWhile, hx, ih]

theorem segments_letter (c : Char) (r : List Char) (h : is_letter c = true) :
    segments (c :: r) = (c, r.takeWhile (fun x => !is_letter x)) :: segments r := by
  rw [segments, if_pos h]

theorem segments_other (c : Char) (r : List Char) (h : ¬ is_letter c = true) :
    segments (c :: r) = segments r := by
  rw [segments, if_neg h]

theorem segments_append_letter (pre : List Char) (l : Char) (post : List Char)
    (hl : is_letter l = true) :
    segments (pre ++ l :: post) = segments pre ++ segments (l :: post) := by
  induction pre with
  | nil => rfl
  | cons c r ih =>
    rw [List.cons_append]
    by_cases hc : is_letter c = true
    · rw [segments_letter _ _ hc, segments_letter _ _ hc, ih,
        takeWhile_append_stop _ r l post (by simp [hl])]
      rfl
    · rw [segments_other _ _ hc, segments_other _ _ hc, ih]

theorem segments_letters (d : List Char) :
    (segments d).map Prod.fst = d.filter is_letter := by
  induction d with
  | nil => rfl
  | cons c r ih =>
    by_cases hc : is_letter c = true
    · simp [segments, hc, ih]
    · simp [segments, hc, ih]

theorem tokenize_segments_letters (segs : List (Char × List Char)) (cmds : List (Char × List α))
    (h : tokenize_segments segs = .ok cmds) : cmds.map Prod.fst = segs.map Prod.fst := by
  induction segs generalizing cmds with
  | nil => simp [tokenize_segments] at h; simp [← h]
  | cons s r ih =>
    simp only [tokenize_segments] at h
    cases hp : (parse_coordinates s.2 : Except Err (List α)) with
    | error e => rw [hp] at h; cases h
    | ok coord =>
      rw [hp, ok_bind] at h
      cases hr : (tokenize_segments r : Except Err (List (Char × List α))) with
      | error e => rw [hr] at h; cases h
      | ok cs =>
        rw [hr, ok_bind] at h
        cases h
        simp [ih cs hr]

theorem tokenize_segments_take (s1 s2 : List (Char × List Char)) (cmds : List (Char × List α))
    (h : tokenize_segments (s1 ++ s2) = .ok cmds) :
    tokenize_segments s1 = .ok (cmds.take s1.length) := by
  induction s1 generalizing cmds with
  | nil => simp [tokenize_segments]
  | cons s r ih =>
    rw [List.cons_append, tokenize_segments] at h
    rw [tokenize_segments]
    cases hp : (parse_coordinates s.2 : Except Err (List α)) with
    | error e => rw [hp] at h; cases h
    | ok coord =>
      rw [hp, ok_bind] at h
      rw [ok_bind]
      cases hr : (tokenize_segments (r ++ s2) : Except Err (List (Char × List α))) with
      | error e => rw [hr] at h; cases h
      | ok cs =>
        rw [hr, ok_bind] at h
        cases h
        rw [ih cs hr]
        rfl

variable [FloorRing α]

theorem run_segments_tokenized (T : Trig α) (segs : List (Char × List Char))
    (cmds : List (Char × List α)) (h : tokenize_segments segs = .ok cmds) (cr : Cairo α) :
    run_segments T segs cr = run_commands T cmds cr := by
  induction segs generalizing cmds cr with
  | nil => simp [tokenize_segments] at h; subst h; rfl
  | cons s r ih =>
    simp only [tokenize_segments] at h
    cases hp : (parse_coordinates s.2 : Except Err (List α)) with
    | error e => rw [hp] at h; cases h
    | ok coord =>
      rw [hp, ok_bind] at h
      cases hr : (tokenize_segments r : Except Err (List (Char × List α))) with
      | error e => rw [hr] at h; cases h
      | ok cs =>
        rw [hr, ok_bind] at h
        cases h
        unfold run_segments run_commands
        simp only [List.foldlM_cons, hp, ok_bind]
        cases execute_operand T s.1 coord cr with
        | error e => rfl
        | ok cr1 => exact ih cs hr cr1

/-- The interpreter on a fresh path whose string starts with a letter. -/
theorem interpret_segments (T : Trig α) (s : Shape α) (l : Char) (rest : List Char)
    (hl : is_letter l = true) (cr : Cairo α) :
    (Path.fresh s (l :: rest)).interpret T cr =
      (run_segments T (segments (l :: rest)) cr).map
        (fun cr1 => (Path.fresh s (l :: rest), cr1)) := by
  unfold Path.interpret
  have h0 : draw_char T (Path.fresh s (l :: rest), cr) l
      = .ok ({ Path.fresh s (l :: rest) with operand := l, coordinates := [] }, cr) := by
    simp [draw_char, hl, Path.fresh]
  show List.foldlM (draw_char T) (Path.fresh s (l :: rest), cr) (l :: rest) >>= _ = _
  rw [List.foldlM_cons, h0, ok_bind]
  have := draw_loop_segments T NUL (fun st => perform_operation T st.1 st.2 NUL)
    (fun _ _ _ => rfl) rest (Path.fresh s (l :: rest)) l [] cr (is_letter_ne_NUL l hl)
  rw [this, segments, if_pos hl, segments_dropWhile]
  rfl

/-- The state of the loop of `Path::draw` right after a letter `nxt` that follows a
non-empty part of the string starting with a letter. -/
theorem loop_after_letter (T : Trig α) (s : Shape α) (ops : List Char) (l : Char)
    (pre : List Char) (nxt : Char) (hl : is_letter l = true) (hn : is_letter nxt = true)
    (cr : Cairo α) :
    (l :: pre ++ [nxt]).foldlM (draw_char T) (Path.fresh s ops, cr) =
      (run_segments T (segments (l :: pre)) cr).map
        (fun cr1 => ({ Path.fresh s ops with operand := nxt, coordinates := [] }, cr1)) := by
  have h0 : draw_char T (Path.fresh s ops, cr) l
      = .ok ({ Path.fresh s ops with operand := l, coordinates := [] }, cr) := by
    simp [draw_char, hl, Path.fresh]
  rw [List.cons_append, List.foldlM_cons, h0, ok_bind, List.foldlM_append]
  have := draw_loop_segments T nxt (fun st => [nxt].foldlM (draw_char T) st)
    (fun q c hq => by
      simp [List.foldlM_cons, draw_char, hn, hq])
    pre (Path.fresh s ops) l [] cr (is_letter_ne_NUL l hl)
  rw [this, segments, if_pos hl, segments_dropWhile]
  rfl

end SegmentLemmas

section BackendLemmas
variable {α : Type} [LinearOrderedField α]

theorem Ctm.unapply_apply (m : Ctm α) (h : m.det ≠ 0) (p : α × α) :
    m.unapply (m.apply p) = p := by
  obtain ⟨x, y⟩ := p
  have h2 : m.xx * m.yy - m.yx * m.xy ≠ 0 := h
  simp only [Ctm.unapply, Ctm.apply, Ctm.det]
  refine Prod.ext ?_ ?_
  · show _ / _ = x
    field_simp
    ring
  · show _ / _ = y
    field_simp
    ring

theorem line_fold_trace (c0 : Cairo α) (ps : List (α × α)) :
    (ps.foldl (fun cr q => cairo_line_to cr q.1 q.2) c0).trace =
      c0.trace ++ ps.map (fun q => Prim.line_to q.1 q.2) := by
  induction ps generalizing c0 with
  | nil => simp
  | cons q qs ih =>
    rw [List.foldl_cons, ih]
    simp [cairo_line_to]

theorem line_fold_point (c0 : Cairo α) (p : α × α) (ps : List (α × α))
    (h : c0.current = some (c0.ctm.apply p)) :
    (ps.foldl (fun cr q => cairo_line_to cr q.1 q.2) c0).ctm = c0.ctm ∧
    (ps.foldl (fun cr q => cairo_line_to cr q.1 q.2) c0).current =
      some (c0.ctm.apply ((p :: ps).getLast (by simp))) := by
  induction ps generalizing c0 p with
  | nil => exact ⟨rfl, by simpa using h⟩
  | cons q qs ih =>
    have := ih (cairo_line_to c0 q.1 q.2) q rfl
    rw [List.foldl_cons]
    refine ⟨this.1, ?_⟩
    rw [this.2]
    simp [cairo_line_to]

theorem polyline_trace (cr : Cairo α) (p1 : α × α) (ps : List (α × α)) :
    (polyline cr p1 ps).trace =
      cr.trace ++ Prim.move_to p1.1 p1.2 :: ps.map (fun q => Prim.line_to q.1 q.2) := by
  unfold polyline
  rw [line_fold_trace]
  simp [cairo_move_to]

theorem polyline_ctm (cr : Cairo α) (p1 : α × α) (ps : List (α × α)) :
    (polyline cr p1 ps).ctm = cr.ctm ∧
    (polyline cr p1 ps).current = some (cr.ctm.apply ((p1 :: ps).getLast (by simp))) :=
  line_fold_point (cairo_move_to cr p1.1 p1.2) p1 ps rfl

theorem polyline_cursor (cr : Cairo α) (h : cr.ctm.det ≠ 0) (p1 : α × α) (ps : List (α × α)) :
    cairo_get_current_point (polyline cr p1 ps) = (p1 :: ps).getLast (by simp) := by
  obtain ⟨h1, h2⟩ := polyline_ctm cr p1 ps
  rw [cairo_get_current_point, h2, h1]
  exact Ctm.unapply_apply cr.ctm h _

end BackendLemmas

section PolylineLemmas
variable {α : Type} [LinearOrderedField α]

theorem is_digit_not_letter (c : Char) (h : is_digit c = true) : is_letter c = false := by
  simp only [is_digit, Bool.and_eq_true, decide_eq_true_eq] at h
  simp only [is_letter, Bool.or_eq_false_iff, Bool.and_eq_false_iff, decide_eq_false_iff_not]
  omega

theorem unsigned_no_letter (t : List Char) (h : is_unsigned_numeral t = true) :
    ∀ c ∈ t, is_letter c = false := by
  simp only [is_unsigned_numeral, Bool.and_eq_true, List.all_eq_true, Bool.or_eq_true,
    beq_iff_eq] at h
  intro c hc
  rcases h.1.1 c hc with hd | rfl
  · exact is_digit_not_letter c hd
  · decide

theorem numeral_no_letter (s : List Char) (h : is_numeral s = true) :
    ∀ c ∈ s, is_letter c = false := by
  rcases is_numeral_cases s h with ⟨t, rfl, ht⟩ | ⟨c, t, rfl, _, _, hs⟩
  · intro c hc
    rcases List.mem_cons.1 hc with rfl | hc
    · decide
    · exact unsigned_no_letter t ht c hc
  · exact unsigned_no_letter _ hs

theorem is_pair_iff (p : List Char × List Char) :
    is_pair p = true ↔ is_numeral p.1 = true ∧ is_numeral p.2 = true := by
  simp [is_pair]

theorem pair_no_letter (p : List Char × List Char) (h : is_pair p = true) :
    ∀ c ∈ pair_text p, is_letter c = false := by
  rw [is_pair_iff] at h
  intro c hc
  rcases List.mem_append.1 hc with h1 | h1
  · exact numeral_no_letter _ h.1 c h1
  · rcases List.mem_cons.1 h1 with rfl | h1
    · decide
    · exact numeral_no_letter _ h.2 c h1

/-- The tokenizer on a written pair: the first number is pushed, the second is held. -/
theorem tokenize_pair (p : List Char × List Char) (h : is_pair p = true) (coord : List α) :
    ∃ fd, (pair_text p).foldlM tokenize_char ({ coord := coord, digit := [], firstdot := true })
      = .ok ({ coord := coord ++ [numeral_value p.1], digit := p.2, firstdot := fd }
          : TokState α) := by
  rw [is_pair_iff] at h
  obtain ⟨st, h1, _, h3⟩ := tokenize_item p.1 [' '] h.1 (by simp; decide) coord
  obtain ⟨fd, h4⟩ := tokenize_numeral p.2 h.2 (coord ++ [numeral_value p.1])
  refine ⟨fd, ?_⟩
  have e : pair_text p = (p.1 ++ [' ']) ++ p.2 := by simp [pair_text]
  rw [e, List.foldlM_append, h1, ok_bind, h3 (by simp)]
  exact h4

theorem tokenize_space (coord : List α) (y : List Char) (fd : Bool)
    (hy : is_numeral y = true) :
    tokenize_char ({ coord := coord, digit := y, firstdot := fd } : TokState α) ' '
      = .ok { coord := coord ++ [numeral_value y], digit := [], firstdot := true } := by
  simp [tokenize_char, lexical_cast_numeral y hy]

/-- The tokenizer on further written pairs, each preceded by a space, entered with
the numeral `y` still held in `digit`. -/
theorem tokenize_more_pairs (ps : List (List Char × List Char))
    (hps : ∀ p ∈ ps, is_pair p = true) (coord : List α) (y : List Char) (fd : Bool)
    (hy : is_numeral y = true) :
    ∃ st, ((ps.map (fun p => ' ' :: pair_text p)).flatten).foldlM tokenize_char
        ({ coord := coord, digit := y, firstdot := fd } : TokState α) = .ok st ∧
      finish_digit st = .ok (coord ++ numeral_value y ::
        (ps.map (fun p => [(numeral_value p.1 : α), numeral_value p.2])).flatten) := by
  induction ps generalizing coord y fd with
  | nil =>
    refine ⟨_, rfl, ?_⟩
    simp [finish_digit, is_numeral_ne_nil y hy, push_digit_some _ _ _ (lexical_cast_numeral y hy)]
  | cons q qs ih =>
    have hq := hps q (by simp)
    obtain ⟨fd1, h1⟩ := tokenize_pair q hq (coord ++ [numeral_value y])
    obtain ⟨st, h2, h3⟩ := ih (fun p hp => hps p (by simp [hp]))
      (coord ++ [numeral_value y] ++ [numeral_value q.1]) q.2 fd1 ((is_pair_iff q).1 hq).2
    refine ⟨st, ?_, by simpa using h3⟩
    rw [List.map_cons, List.flatten_cons, List.cons_append, List.foldlM_cons,
      tokenize_space coord y fd hy, ok_bind, List.foldlM_append, h1, ok_bind]
    exact h2

theorem parse_pairs (p1 : List Char × List Char) (ps : List (List Char × List Char))
    (h1 : is_pair p1 = true) (hps : ∀ p ∈ ps, is_pair p = true) :
    (parse_coordinates (pair_text p1 ++ (ps.map (fun p => ' ' :: pair_text p)).flatten)
        : Except Err (List α)) =
      .ok (numeral_value p1.1 :: numeral_value p1.2 ::
        (ps.map (fun p => [(numeral_value p.1 : α), numeral_value p.2])).flatten) := by
  obtain ⟨fd, h2⟩ := tokenize_pair p1 h1 ([] : List α)
  obtain ⟨st, h3, h4⟩ := tokenize_more_pairs ps hps [(numeral_value p1.1 : α)] p1.2 fd
    ((is_pair_iff p1).1 h1).2
  rw [parse_coordinates_eq _ (by simp [pair_text]), List.foldlM_append, h2, ok_bind]
  simp only [List.nil_append]
  rw [h3, ok_bind, h4]
  rfl

theorem parse_pair (p : List Char × List Char) (h : is_pair p = true) :
    (parse_coordinates (pair_text p) : Except Err (List α))
      = .ok [numeral_value p.1, numeral_value p.2] := by
  have h0 : (parse_coordinates (pair_text p ++ (([] : List (List Char × List Char)).map
      (fun p => ' ' :: pair_text p)).flatten) : Except Err (List α)) = _ :=
    parse_pairs p [] h (by simp)
  simpa using h0

theorem parse_pair_space (p : List Char × List Char) (h : is_pair p = true) :
    (parse_coordinates (pair_text p ++ [' ']) : Except Err (List α))
      = .ok [numeral_value p.1, numeral_value p.2] := by
  obtain ⟨fd, h2⟩ := tokenize_pair p h ([] : List α)
  rw [parse_coordinates_eq _ (by simp [pair_text]), List.foldlM_append, h2, ok_bind,
    List.foldlM_cons, tokenize_space _ _ _ ((is_pair_iff p).1 h).2]
  rfl

theorem loop_M_pairs (vs : List (α × α)) (cr : Cairo α) :
    loop_M ((vs.map (fun q => [q.1, q.2])).flatten) cr
      = .ok (vs.foldl (fun cr q => cairo_line_to cr q.1 q.2) cr) := by
  induction vs generalizing cr with
  | nil => rfl
  | cons q qs ih => simpa [loop_M] using ih (cairo_line_to cr q.1 q.2)

theorem map_pair_value (ps : List (List Char × List Char)) :
    (ps.map (fun p => [(numeral_value p.1 : α), numeral_value p.2])) =
      ((ps.map pair_value).map (fun q : α × α => [q.1, q.2])) := by
  simp [pair_value]

end PolylineLemmas

section PathLemmas
variable {α : Type} [LinearOrderedField α] [FloorRing α]

theorem segments_no_letter (txt : List Char) (h : ∀ c ∈ txt, is_letter c = false) :
    segments txt = [] ∧ txt.takeWhile (fun x => !is_letter x) = txt := by
  induction txt with
  | nil => exact ⟨rfl, rfl⟩
  | cons c r ih =>
    have hc := h c (by simp)
    have := ih (fun x hx => h x (by simp [hx]))
    refine ⟨?_, ?_⟩
    · rw [segments_other c r (by simp [hc])]; exact this.1
    · simp [List.takeWhile, hc, this.2]

theorem run_single (T : Trig α) (op : Char) (txt : List Char) (coord : List α)
    (cr : Cairo α) (h : parse_coordinates txt = .ok coord) :
    run_segments T [(op, txt)] cr = execute_operand T op coord cr := by
  unfold run_segments
  rw [List.foldlM_cons]
  simp only [h, ok_bind, List.foldlM_nil]
  cases execute_operand T op coord cr <;> rfl

theorem execute_M_pairs (T : Trig α) (v1 : α × α) (vs : List (α × α)) (cr : Cairo α) :
    execute_operand T 'M' (v1.1 :: v1.2 :: (vs.map (fun q => [q.1, q.2])).flatten) cr
      = .ok (polyline cr v1 vs) := by
  show case_M _ cr = _
  simp only [case_M, index, List.getElem?_cons_zero, List.getElem?_cons_succ, ok_bind,
    List.drop_succ_cons, List.drop_zero]
  exact loop_M_pairs vs (cairo_move_to cr v1.1 v1.2)

theorem execute_L_pair (T : Trig α) (v : α × α) (cr : Cairo α) :
    execute_operand T 'L' [v.1, v.2] cr = .ok (cairo_line_to cr v.1 v.2) := by
  show case_L _ cr = _
  simp [case_L, index, ok_bind]

/-- The interpreter on the path `M p1 p2 ... pk`. -/
theorem interpret_implicit (T : Trig α) (s : Shape α) (p1 : List Char × List Char)
    (ps : List (List Char × List Char)) (h1 : is_pair p1 = true)
    (hps : ∀ p ∈ ps, is_pair p = true) (cr : Cairo α) :
    (Path.fresh s (implicit_path p1 ps)).interpret T cr =
      .ok (Path.fresh s (implicit_path p1 ps), polyline cr (pair_value p1) (ps.map pair_value)) := by
  have hnl : ∀ c ∈ pair_text p1 ++ (ps.map (fun p => ' ' :: pair_text p)).flatten,
      is_letter c = false := by
    intro c hc
    rcases List.mem_append.1 hc with h | h
    · exact pair_no_letter p1 h1 c h
    · obtain ⟨l, hl, hcl⟩ := List.mem_flatten.1 h
      obtain ⟨p, hp, rfl⟩ := List.mem_map.1 hl
      rcases List.mem_cons.1 hcl with rfl | h
      · decide
      · exact pair_no_letter p (hps p hp) c h
  unfold implicit_path
  rw [interpret_segments T s 'M' _ (by decide) cr, segments_letter _ _ (by decide),
    (segments_no_letter _ hnl).1, (segments_no_letter _ hnl).2,
    run_single T 'M' _ _ cr (parse_pairs p1 ps h1 hps), map_pair_value]
  rw [show (numeral_value p1.1 : α) = (pair_value p1 : α × α).1 from rfl,
    show (numeral_value p1.2 : α) = (pair_value p1 : α × α).2 from rfl, execute_M_pairs]
  rfl

/-- Commands `L p` written one after the other behind a pending command. -/
theorem run_explicit_tail (T : Trig α) (ps : List (List Char × List Char))
    (hps : ∀ p ∈ ps, is_pair p = true) (op : Char) (hop : is_letter op = true)
    (q : List Char × List Char) (hq : is_pair q = true) (cr : Cairo α) :
    run_segments T (segments (op :: (pair_text q ++
        (ps.map (fun p => ' ' :: 'L' :: pair_text p)).flatten))) cr =
      execute_operand T op [numeral_value q.1, numeral_value q.2] cr >>= fun cr1 =>
        .ok ((ps.map pair_value).foldl (fun cr v => cairo_line_to cr v.1 v.2) cr1) := by
  induction ps generalizing op q cr with
  | nil =>
    simp only [List.map_nil, List.flatten_nil, List.append_nil, List.foldl_nil]
    rw [segments_letter _ _ hop, (segments_no_letter _ (pair_no_letter q hq)).1,
      (segments_no_letter _ (pair_no_letter q hq)).2, run_single T op _ _ cr (parse_pair q hq)]
    cases execute_operand T op [numeral_value q.1, numeral_value q.2] cr <;> rfl
  | cons p r ih =>
    have hp := hps p (by simp)
    have hsp : ∀ c ∈ pair_text q ++ [' '], is_letter c = false := by
      intro c hc
      rcases List.mem_append.1 hc with h | h
      · exact pair_no_letter q hq c h
      · simp at h; subst h; decide
    have e : pair_text q ++ ((p :: r).map (fun p => ' ' :: 'L' :: pair_text p)).flatten
        = (pair_text q ++ [' ']) ++ 'L' :: (pair_text p ++
            (r.map (fun p => ' ' :: 'L' :: pair_text p)).flatten) := by
      simp
    rw [e, segments_letter _ _ hop, takeWhile_append_stop _ _ 'L' _ (by decide),
      (segments_no_letter _ hsp).2, segments_append_letter _ _ _ (by decide),
      (segments_no_letter _ hsp).1, List.nil_append, run_segments_cons,
      run_single T op _ _ cr (parse_pair_space q hq)]
    cases execute_operand T op [numeral_value q.1, numeral_value q.2] cr with
    | error e => rfl
    | ok cr1 =>
      rw [ok_bind, ok_bind, ih (fun x hx => hps x (by simp [hx])) 'L' (by decide) p hp cr1]
      rw [show (numeral_value p.1 : α) = (pair_value p : α × α).1 from rfl,
        show (numeral_value p.2 : α) = (pair_value p : α × α).2 from rfl, execute_L_pair, ok_bind]
      rfl

/-- The interpreter on the path `M p1 L p2 ... L pk`. -/
theorem interpret_explicit (T : Trig α) (s : Shape α) (p1 : List Char × List Char)
    (ps : List (List Char × List Char)) (h1 : is_pair p1 = true)
    (hps : ∀ p ∈ ps, is_pair p = true) (cr : Cairo α) :
    (Path.fresh s (explicit_path p1 ps)).interpret T cr =
      .ok (Path.fresh s (explicit_path p1 ps), polyline cr (pair_value p1) (ps.map pair_value)) := by
  unfold explicit_path
  rw [interpret_segments T s 'M' _ (by decide) cr,
    run_explicit_tail T ps hps 'M' (by decide) p1 h1 cr]
  have := execute_M_pairs T (pair_value p1 : α × α) [] cr
  simp only [List.map_nil, List.flatten_nil] at this
  rw [show (numeral_value p1.1 : α) = (pair_value p1 : α × α).1 from rfl,
    show (numeral_value p1.2 : α) = (pair_value p1 : α × α).2 from rfl, this]
  rfl

theorem fresh_toShape {β : Type} (s : Shape β) (ops : List Char) :
    (Path.fresh s ops).toShape = s := rfl

theorem new_eq_fresh {β : Type} (ops : List Char) :
    (Path.new ops : Path β) = Path.fresh { translate := none, rotate := none, color := Color.black } ops :=
  rfl

theorem draw_of_interpret (T : Trig α) (p : Path α) (cr : Cairo α) (q : Path α) (cr1 : Cairo α)
    (h : p.interpret T (cairo_set_color p.toShape cr) = .ok (q, cr1)) :
    p.draw T cr = .ok (q, cairo_fill (cairo_close_path cr1)) := by
  unfold Path.draw
  rw [h]
  rfl

end PathLemmas

section TraceLemmas
variable {α : Type}

theorem bind_eq_ok {ε β γ : Type} {x : Except ε β} {f : β → Except ε γ} {b : γ}
    (h : (x >>= f) = .ok b) : ∃ a, x = .ok a ∧ f a = .ok b := by
  cases x with
  | error e => cases h
  | ok a => exact ⟨a, rfl, h⟩

theorem ok_of_isOk {ε β : Type} (x : Except ε β) (h : x.isOk = true) : ∃ a, x = .ok a := by
  cases x with
  | error e => cases h
  | ok a => exact ⟨a, rfl⟩

theorem final_depth_append (l1 l2 : List (Prim α)) (d : Nat) :
    final_depth (l1 ++ l2) d = (final_depth l1 d).bind (final_depth l2) := by
  induction l1 generalizing d with
  | nil => rfl
  | cons p r ih =>
    simp only [List.cons_append, final_depth]
    by_cases hs : is_save p = true
    · simp [hs, ih]
    · by_cases hr : is_restore p = true
      · cases d with
        | zero => simp [hs, hr]
        | succ e => simp [hs, hr, ih]
      · simp [hs, hr, ih]

theorem final_depth_shift (l : List (Prim α)) (d e k : Nat)
    (h : final_depth l d = some e) : final_depth l (d + k) = some (e + k) := by
  induction l generalizing d e with
  | nil => simp [final_depth] at h ⊢; omega
  | cons p r ih =>
    simp only [final_depth] at h ⊢
    by_cases hs : is_save p = true
    · simp only [hs, if_true] at h ⊢
      have := ih (d + 1) e h
      rw [show d + k + 1 = d + 1 + k by omega]
      exact this
    · by_cases hr : is_restore p = true
      · cases d with
        | zero => simp [hs, hr] at h
        | succ d1 =>
          simp only [hs, hr, if_true, Bool.false_eq_true, if_false] at h ⊢
          rw [show d1 + 1 + k = (d1 + k) + 1 by omega]
          exact ih d1 e h
      · simp only [hs, hr, Bool.false_eq_true, if_false] at h ⊢
        exact ih d e h

theorem final_depth_counts (l : List (Prim α)) (d e : Nat) (h : final_depth l d = some e) :
    (∀ pre, pre <+: l → pre.countP is_restore ≤ d + pre.countP is_save) ∧
    d + l.countP is_save = e + l.countP is_restore := by
  induction l generalizing d e with
  | nil =>
    simp only [final_depth, Option.some.injEq] at h
    refine ⟨?_, by simp [h]⟩
    intro pre hpre
    have : pre = [] := List.prefix_nil.1 hpre
    subst this; simp
  | cons p r ih =>
    simp only [final_depth] at h
    have hpre : ∀ pre, pre <+: p :: r → pre = [] ∨ ∃ t, pre = p :: t ∧ t <+: r := by
      intro pre hp
      cases pre with
      | nil => exact Or.inl rfl
      | cons a t =>
        right
        rw [List.cons_prefix_cons] at hp
        exact ⟨t, by rw [hp.1], hp.2⟩
    by_cases hs : is_save p = true
    · have hr : is_restore p = false := by cases p <;> simp_all [is_save, is_restore]
      simp only [hs, if_true] at h
      obtain ⟨h1, h2⟩ := ih (d + 1) e h
      refine ⟨?_, ?_⟩
      · intro pre hp
        rcases hpre pre hp with rfl | ⟨t, rfl, ht⟩
        · simp
        · have := h1 t ht
          simp only [List.countP_cons, hs, hr, if_true, Bool.false_eq_true, if_false]
          omega
      · simp only [List.countP_cons, hs, hr, if_true, Bool.false_eq_true, if_false]
        omega
    · by_cases hr : is_restore p = true
      · cases d with
        | zero => simp [hs, hr] at h
        | succ d1 =>
          simp only [hs, hr, if_true, Bool.false_eq_true, if_false] at h
          obtain ⟨h1, h2⟩ := ih d1 e h
          refine ⟨?_, ?_⟩
          · intro pre hp
            rcases hpre pre hp with rfl | ⟨t, rfl, ht⟩
            · simp
            · have := h1 t ht
              simp only [List.countP_cons, hs, hr, if_true, Bool.false_eq_true, if_false]
              omega
          · simp only [List.countP_cons, hs, hr, if_true, Bool.false_eq_true, if_false]
            omega
      · simp only [hs, hr, Bool.false_eq_true, if_false] at h
        obtain ⟨h1, h2⟩ := ih d e h
        refine ⟨?_, ?_⟩
        · intro pre hp
          rcases hpre pre hp with rfl | ⟨t, rfl, ht⟩
          · simp
          · have := h1 t ht
            simp only [List.countP_cons, hs, hr, Bool.false_eq_true, if_false]
            omega
        · simp only [List.countP_cons, hs, hr, Bool.false_eq_true, if_false]
          omega

theorem balanced_of_final_depth (l : List (Prim α)) (h : final_depth l 0 = some 0) :
    balanced l := by
  obtain ⟨h1, h2⟩ := final_depth_counts l 0 0 h
  exact ⟨fun pre hp => by simpa using h1 pre hp, by simpa using h2⟩

theorem calm_iff (l : List (Prim α)) :
    calm l = true ↔ final_depth l 0 = some 0 ∧ ∀ p ∈ l, is_fill p = false := by
  simp [calm]

theorem calm_append (l1 l2 : List (Prim α)) (h1 : calm l1 = true) (h2 : calm l2 = true) :
    calm (l1 ++ l2) = true := by
  rw [calm_iff] at h1 h2 ⊢
  refine ⟨?_, ?_⟩
  · rw [final_depth_append, h1.1]
    exact h2.1
  · intro p hp
    rcases List.mem_append.1 hp with h | h
    · exact h1.2 p h
    · exact h2.2 p h

theorem emits_refl (cr : Cairo α) : Emits cr cr [] := ⟨by simp, rfl, rfl⟩

theorem emits_trans {cr cr1 cr2 : Cairo α} {l1 l2 : List (Prim α)}
    (h1 : Emits cr cr1 l1) (h2 : Emits cr1 cr2 l2) : Emits cr cr2 (l1 ++ l2) :=
  ⟨by rw [h2.1, h1.1, List.append_assoc], h2.2.1.trans h1.2.1, h2.2.2.trans h1.2.2⟩

end TraceLemmas
section CalmLemmas
variable {α : Type}

theorem calmly_refl (cr : Cairo α) : Calmly cr cr := ⟨[], emits_refl cr, rfl⟩

theorem calmly_trans {cr cr1 cr2 : Cairo α} (h1 : Calmly cr cr1) (h2 : Calmly cr1 cr2) :
    Calmly cr cr2 := by
  obtain ⟨l1, e1, c1⟩ := h1
  obtain ⟨l2, e2, c2⟩ := h2
  exact ⟨l1 ++ l2, emits_trans e1 e2, calm_append l1 l2 c1 c2⟩

theorem calmly_bind {cr cr2 : Cairo α} {x : Except Err (Cairo α)}
    {f : Cairo α → Except Err (Cairo α)} (h : (x >>= f) = .ok cr2)
    (hx : ∀ cr1, x = .ok cr1 → Calmly cr cr1)
    (hf : ∀ cr1, f cr1 = .ok cr2 → Calmly cr1 cr2) : Calmly cr cr2 := by
  obtain ⟨cr1, h1, h2⟩ := bind_eq_ok h
  exact calmly_trans (hx cr1 h1) (hf cr1 h2)

end CalmLemmas

section CallLemmas
variable {α : Type} [LinearOrderedField α]

theorem calmly_line_to (cr : Cairo α) (x y : α) : Calmly cr (cairo_line_to cr x y) :=
  ⟨[Prim.line_to x y], ⟨rfl, rfl, rfl⟩, rfl⟩

theorem calmly_move_to (cr : Cairo α) (x y : α) : Calmly cr (cairo_move_to cr x y) :=
  ⟨[Prim.move_to x y], ⟨rfl, rfl, rfl⟩, rfl⟩

theorem calmly_curve_to (cr : Cairo α) (a b c d e f : α) :
    Calmly cr (cairo_curve_to cr a b c d e f) :=
  ⟨[Prim.curve_to a b c d e f], ⟨rfl, rfl, rfl⟩, rfl⟩

theorem calmly_close_path {β : Type} (cr : Cairo β) : Calmly cr (cairo_close_path cr) :=
  ⟨[Prim.close_path], ⟨rfl, rfl, rfl⟩, rfl⟩

theorem loop_M_calmly (l : List α) (cr cr1 : Cairo α) (h : loop_M l cr = .ok cr1) :
    Calmly cr cr1 := by
  induction l, cr using loop_M.induct with
  | case1 cr => simp only [loop_M, Except.ok.injEq] at h; subst h; exact calmly_refl _
  | case2 x cr => simp [loop_M] at h
  | case3 x y rest cr ih =>
    simp only [loop_M] at h
    exact calmly_trans (calmly_line_to cr x y) (ih h)

theorem loop_m_calmly (l : List α) (cr cr1 : Cairo α) (h : loop_m l cr = .ok cr1) :
    Calmly cr cr1 := by
  induction l, cr using loop_m.induct with
  | case1 cr => simp only [loop_m, Except.ok.injEq] at h; subst h; exact calmly_refl _
  | case2 x cr => simp [loop_m] at h
  | case3 x y rest cr p ih =>
    simp only [loop_m] at h
    exact calmly_trans (calmly_line_to cr _ _) (ih h)

theorem case_M_calmly (coord : List α) (cr cr1 : Cairo α) (h : case_M coord cr = .ok cr1) :
    Calmly cr cr1 := by
  unfold case_M at h
  obtain ⟨c0, _, h⟩ := bind_eq_ok h
  obtain ⟨c1, _, h⟩ := bind_eq_ok h
  exact calmly_trans (calmly_move_to cr c0 c1) (loop_M_calmly _ _ _ h)

theorem case_m_calmly (coord : List α) (cr cr1 : Cairo α) (h : case_m coord cr = .ok cr1) :
    Calmly cr cr1 := by
  unfold case_m at h
  obtain ⟨c0, _, h⟩ := bind_eq_ok h
  obtain ⟨c1, _, h⟩ := bind_eq_ok h
  exact calmly_trans (calmly_move_to cr _ _) (loop_m_calmly _ _ _ h)

theorem case_L_calmly (coord : List α) (cr cr1 : Cairo α) (h : case_L coord cr = .ok cr1) :
    Calmly cr cr1 := by
  unfold case_L at h
  obtain ⟨c0, _, h⟩ := bind_eq_ok h
  obtain ⟨c1, _, h⟩ := bind_eq_ok h
  simp only [Except.ok.injEq] at h
  subst h
  exact calmly_line_to _ _ _

theorem case_l_calmly (coord : List α) (cr cr1 : Cairo α) (h : case_l coord cr = .ok cr1) :
    Calmly cr cr1 := by
  unfold case_l at h
  obtain ⟨c0, _, h⟩ := bind_eq_ok h
  obtain ⟨c1, _, h⟩ := bind_eq_ok h
  simp only [Except.ok.injEq] at h
  subst h
  exact calmly_line_to _ _ _

theorem case_V_calmly (coord : List α) (cr cr1 : Cairo α) (h : case_V coord cr = .ok cr1) :
    Calmly cr cr1 := by
  unfold case_V at h
  obtain ⟨c0, _, h⟩ := bind_eq_ok h
  simp only [Except.ok.injEq] at h
  subst h
  exact calmly_line_to _ _ _

theorem case_v_calmly (coord : List α) (cr cr1 : Cairo α) (h : case_v coord cr = .ok cr1) :
    Calmly cr cr1 := by
  unfold case_v at h
  obtain ⟨c0, _, h⟩ := bind_eq_ok h
  simp only [Except.ok.injEq] at h
  subst h
  exact calmly_line_to _ _ _

theorem case_h_calmly (coord : List α) (cr cr1 : Cairo α) (h : case_h coord cr = .ok cr1) :
    Calmly cr cr1 := by
  unfold case_h at h
  obtain ⟨c0, _, h⟩ := bind_eq_ok h
  simp only [Except.ok.injEq] at h
  subst h
  exact calmly_line_to _ _ _

theorem case_H_calmly (coord : List α) (cr cr1 : Cairo α) (h : case_H coord cr = .ok cr1) :
    Calmly cr cr1 := by
  unfold case_H at h
  obtain ⟨c0, _, h⟩ := bind_eq_ok h
  simp only [Except.ok.injEq] at h
  subst h
  exact calmly_line_to _ _ _

theorem case_C_calmly (coord : List α) (cr cr1 : Cairo α) (h : case_C coord cr = .ok cr1) :
    Calmly cr cr1 := by
  unfold case_C at h
  obtain ⟨c0, _, h⟩ := bind_eq_ok h
  obtain ⟨c1, _, h⟩ := bind_eq_ok h
  obtain ⟨c2, _, h⟩ := bind_eq_ok h
  obtain ⟨c3, _, h⟩ := bind_eq_ok h
  obtain ⟨c4, _, h⟩ := bind_eq_ok h
  obtain ⟨c5, _, h⟩ := bind_eq_ok h
  simp only [Except.ok.injEq] at h
  subst h
  exact calmly_curve_to _ _ _ _ _ _ _

theorem case_c_calmly (coord : List α) (cr cr1 : Cairo α) (h : case_c coord cr = .ok cr1) :
    Calmly cr cr1 := by
  unfold case_c at h
  obtain ⟨cr2, h2, h⟩ := bind_eq_ok h
  simp only [Except.ok.injEq] at h
  subst h
  unfold case_C at h2
  obtain ⟨c0, _, h2⟩ := bind_eq_ok h2
  obtain ⟨c1, _, h2⟩ := bind_eq_ok h2
  obtain ⟨c2, _, h2⟩ := bind_eq_ok h2
  obtain ⟨c3, _, h2⟩ := bind_eq_ok h2
  obtain ⟨c4, _, h2⟩ := bind_eq_ok h2
  obtain ⟨c5, _, h2⟩ := bind_eq_ok h2
  simp only [Except.ok.injEq] at h2
  subst h2
  exact ⟨[Prim.save,
    Prim.translate (cairo_get_current_point cr).1 (cairo_get_current_point cr).2,
    Prim.curve_to c0 c1 c2 c3 c4 c5, Prim.restore],
    ⟨by simp [cairo_restore, cairo_curve_to, cairo_translate, cairo_save], rfl, rfl⟩, rfl⟩

end CallLemmas

section ExecuteLemmas
variable {α : Type} [LinearOrderedField α] [FloorRing α]

theorem arc_group_calmly (T : Trig α) (coord : List α) (cr cr1 : Cairo α) (x1 y1 x2 y2 : α)
    (h : arc_group T coord (cairo_save cr) x1 y1 x2 y2 = .ok cr1) : Calmly cr cr1 := by
  unfold arc_group at h
  obtain ⟨c0, _, h⟩ := bind_eq_ok h
  obtain ⟨c1, _, h⟩ := bind_eq_ok h
  obtain ⟨c2, _, h⟩ := bind_eq_ok h
  obtain ⟨c3, _, h⟩ := bind_eq_ok h
  obtain ⟨c4, _, h⟩ := bind_eq_ok h
  simp only [Except.ok.injEq] at h
  subst h
  exact ⟨[Prim.save,
    Prim.translate (endpoint_to_center T x1 y1 x2 y2 c3 c4 c0 c1 (c2 / 180 * T.pi)).1
      (endpoint_to_center T x1 y1 x2 y2 c3 c4 c0 c1 (c2 / 180 * T.pi)).2.1,
    Prim.rotate (c2 / 180 * T.pi), Prim.scale c0 c1,
    Prim.arc_negative 0 0 1
      (endpoint_to_center T x1 y1 x2 y2 c3 c4 c0 c1 (c2 / 180 * T.pi)).2.2.1
      ((endpoint_to_center T x1 y1 x2 y2 c3 c4 c0 c1 (c2 / 180 * T.pi)).2.2.1 +
        (endpoint_to_center T x1 y1 x2 y2 c3 c4 c0 c1 (c2 / 180 * T.pi)).2.2.2),
    Prim.restore],
    ⟨by simp [cairo_restore, cairo_arc_negative, cairo_scale, cairo_rotate, cairo_translate,
        cairo_save], rfl, rfl⟩, rfl⟩

theorem case_A_calmly (T : Trig α) (coord : List α) (cr cr1 : Cairo α)
    (h : case_A T coord cr = .ok cr1) : Calmly cr cr1 := by
  unfold case_A at h
  obtain ⟨x2, _, h⟩ := bind_eq_ok h
  obtain ⟨y2, _, h⟩ := bind_eq_ok h
  exact arc_group_calmly T coord cr cr1 _ _ _ _ h

theorem case_a_calmly (T : Trig α) (coord : List α) (cr cr1 : Cairo α)
    (h : case_a T coord cr = .ok cr1) : Calmly cr cr1 := by
  unfold case_a at h
  obtain ⟨x2, _, h⟩ := bind_eq_ok h
  obtain ⟨y2, _, h⟩ := bind_eq_ok h
  exact arc_group_calmly T coord cr cr1 _ _ _ _ h

/-- Every command that completes makes calls that leave the stack of saved states
and the matrix as they were, and none of them is a fill. -/
theorem execute_calmly (T : Trig α) (op : Char) (coord : List α) (cr cr1 : Cairo α)
    (h : execute_operand T op coord cr = .ok cr1) : Calmly cr cr1 := by
  unfold execute_operand at h
  split at h
  · exact case_M_calmly _ _ _ h
  · exact case_m_calmly _ _ _ h
  · exact calmly_bind h (fun _ => case_A_calmly T _ _ _) (fun _ => case_a_calmly T _ _ _)
  · exact case_a_calmly T _ _ _ h
  · exact case_L_calmly _ _ _ h
  · exact case_l_calmly _ _ _ h
  · exact calmly_bind h (fun _ => case_V_calmly _ _ _) (fun _ => case_v_calmly _ _ _)
  · exact case_v_calmly _ _ _ h
  · exact calmly_bind h (fun _ hx => calmly_bind hx (fun _ hy => calmly_bind hy
      (fun _ => case_h_calmly _ _ _) (fun _ => case_H_calmly _ _ _))
      (fun _ => case_c_calmly _ _ _)) (fun _ => case_C_calmly _ _ _)
  · exact calmly_bind h (fun _ hx => calmly_bind hx
      (fun _ => case_H_calmly _ _ _) (fun _ => case_c_calmly _ _ _))
      (fun _ => case_C_calmly _ _ _)
  · exact calmly_bind h (fun _ => case_c_calmly _ _ _) (fun _ => case_C_calmly _ _ _)
  · exact case_C_calmly _ _ _ h
  · simp only [Except.ok.injEq] at h; subst h
    exact calmly_trans (calmly_close_path _) (calmly_close_path _)
  · simp only [Except.ok.injEq] at h; subst h
    exact calmly_close_path _
  · simp only [Except.ok.injEq] at h; subst h
    exact calmly_refl _

end ExecuteLemmas
section DrawLemmas
variable {α : Type} [LinearOrderedField α] [FloorRing α]

theorem perform_operation_calmly (T : Trig α) (p p1 : Path α) (cr cr1 : Cairo α) (nxt : Char)
    (h : perform_operation T p cr nxt = .ok (p1, cr1)) :
    Calmly cr cr1 ∧ p1 = { p with operand := nxt, coordinates := [] } := by
  unfold perform_operation at h
  obtain ⟨coord, _, h⟩ := bind_eq_ok h
  obtain ⟨cr2, h2, h⟩ := bind_eq_ok h
  simp only [Except.ok.injEq, Prod.mk.injEq] at h
  obtain ⟨rfl, rfl⟩ := h
  exact ⟨execute_calmly T _ _ _ _ h2, rfl⟩

theorem draw_char_calmly (T : Trig α) (p p1 : Path α) (cr cr1 : Cairo α) (c : Char)
    (h : draw_char T (p, cr) c = .ok (p1, cr1)) :
    Calmly cr cr1 ∧ p1.toShape = p.toShape ∧ p1.operations = p.operations := by
  unfold draw_char at h
  split at h
  · split at h
    · obtain ⟨h1, h2⟩ := perform_operation_calmly T _ _ _ _ _ h
      exact ⟨h1, by rw [h2], by rw [h2]⟩
    · simp only [Except.ok.injEq, Prod.mk.injEq] at h
      obtain ⟨rfl, rfl⟩ := h
      exact ⟨calmly_refl _, rfl, rfl⟩
  · simp only [Except.ok.injEq, Prod.mk.injEq] at h
    obtain ⟨rfl, rfl⟩ := h
    exact ⟨calmly_refl _, rfl, rfl⟩

theorem draw_loop_calmly (T : Trig α) (txt : List Char) (p p1 : Path α) (cr cr1 : Cairo α)
    (h : txt.foldlM (draw_char T) (p, cr) = .ok (p1, cr1)) :
    Calmly cr cr1 ∧ p1.toShape = p.toShape ∧ p1.operations = p.operations := by
  induction txt generalizing p cr with
  | nil =>
    simp only [List.foldlM_nil, pure, Except.pure, Except.ok.injEq, Prod.mk.injEq] at h
    obtain ⟨rfl, rfl⟩ := h
    exact ⟨calmly_refl _, rfl, rfl⟩
  | cons c r ih =>
    rw [List.foldlM_cons] at h
    obtain ⟨⟨p2, cr2⟩, h1, h2⟩ := bind_eq_ok h
    obtain ⟨a1, a2, a3⟩ := draw_char_calmly T _ _ _ _ _ h1
    obtain ⟨b1, b2, b3⟩ := ih _ _ h2
    exact ⟨calmly_trans a1 b1, b2.trans a2, b3.trans a3⟩

theorem interpret_calmly (T : Trig α) (p p1 : Path α) (cr cr1 : Cairo α)
    (h : p.interpret T cr = .ok (p1, cr1)) :
    Calmly cr cr1 ∧ p1 = { p with operand := NUL, coordinates := [] } := by
  unfold Path.interpret at h
  obtain ⟨⟨p2, cr2⟩, h1, h2⟩ := bind_eq_ok h
  obtain ⟨a1, a2, a3⟩ := draw_loop_calmly T _ _ _ _ _ h1
  obtain ⟨b1, b2⟩ := perform_operation_calmly T _ _ _ _ _ h2
  refine ⟨calmly_trans a1 b1, ?_⟩
  rw [b2]
  cases p; cases p2
  simp only at a2 a3
  subst a2 a3
  rfl

/-- What a completed `Path::draw` has done: the colour, calls of the commands that
leave the stack depth unchanged and do not fill, then close-path and fill; the path
object is back in its state without pending operand. -/
theorem draw_calls (T : Trig α) (p p1 : Path α) (cr cr1 : Cairo α)
    (h : p.draw T cr = .ok (p1, cr1)) :
    ∃ l, calm l = true ∧
      cr1.trace = cr.trace ++ Prim.set_source_rgb p.color.get_r p.color.get_g p.color.get_b ::
        (l ++ [Prim.close_path, Prim.fill]) ∧
      cr1.ctm = cr.ctm ∧ cr1.saved = cr.saved ∧
      p1 = { p with operand := NUL, coordinates := [] } := by
  unfold Path.draw at h
  obtain ⟨⟨p2, cr2⟩, h1, h2⟩ := bind_eq_ok h
  simp only [Except.ok.injEq, Prod.mk.injEq] at h2
  obtain ⟨rfl, rfl⟩ := h2
  obtain ⟨⟨l, ⟨e1, e2, e3⟩, hl⟩, hp⟩ := interpret_calmly T _ _ _ _ h1
  refine ⟨l, hl, ?_, e2, e3, hp⟩
  simp [cairo_fill, cairo_close_path, e1, cairo_set_color, cairo_set_source_rgb]

end DrawLemmas
section UnknownLemmas
variable {α : Type} [LinearOrderedField α] [FloorRing α]

theorem execute_unknown (T : Trig α) (op : Char) (coord : List α) (cr : Cairo α)
    (h : is_known op = false) : execute_operand T op coord cr = .ok cr := by
  unfold execute_operand
  split <;> first | rfl | (exfalso; revert h; decide)

theorem run_segments_append (T : Trig α) (s1 s2 : List (Char × List Char)) (cr : Cairo α) :
    run_segments T (s1 ++ s2) cr = run_segments T s1 cr >>= run_segments T s2 := by
  unfold run_segments
  rw [List.foldlM_append]

theorem interpret_fresh (T : Trig α) (s : Shape α) (ops : List Char)
    (h : ∀ c, ops.head? = some c → is_letter c = true) (cr : Cairo α) :
    (Path.fresh s ops).interpret T cr =
      (run_segments T (segments ops) cr).map (fun cr1 => (Path.fresh s ops, cr1)) := by
  cases ops with
  | nil => rfl
  | cons l rest => exact interpret_segments T s l rest (h l rfl) cr

theorem takeWhile_args (args post : List Char) (ha : ∀ c ∈ args, is_letter c = false)
    (hp : ∀ c, post.head? = some c → is_letter c = true) :
    (args ++ post).takeWhile (fun x => !is_letter x) = args ∧
    segments (args ++ post) = segments post := by
  cases post with
  | nil =>
    simp only [List.append_nil]
    exact ⟨(segments_no_letter args ha).2, (segments_no_letter args ha).1⟩
  | cons l t =>
    have hl := hp l rfl
    refine ⟨?_, ?_⟩
    · rw [takeWhile_append_stop _ args l t (by simp [hl])]
      exact (segments_no_letter args ha).2
    · rw [segments_append_letter args l t hl, (segments_no_letter args ha).1]
      rfl

theorem segments_append_head (pre post : List Char)
    (hp : ∀ c, post.head? = some c → is_letter c = true) :
    segments (pre ++ post) = segments pre ++ segments post := by
  cases post with
  | nil => simp [segments]
  | cons l t => exact segments_append_letter pre l t (hp l rfl)

theorem segments_around (pre args post : List Char) (q : Char) (hq : is_letter q = true)
    (ha : ∀ c ∈ args, is_letter c = false)
    (hp : ∀ c, post.head? = some c → is_letter c = true) :
    segments (pre ++ q :: (args ++ post)) = segments pre ++ (q, args) :: segments post := by
  rw [segments_append_letter pre q _ hq, segments_letter q _ hq,
    (takeWhile_args args post ha hp).1, (takeWhile_args args post ha hp).2]

theorem run_unknown_segment (T : Trig α) (q : Char) (args : List Char) (coord : List α)
    (cr : Cairo α) (hk : is_known q = false) (htok : parse_coordinates args = .ok coord) :
    run_segments T [(q, args)] cr = .ok cr := by
  rw [run_single T q args coord cr htok, execute_unknown T q coord cr hk]

theorem run_skip_unknown (T : Trig α) (s1 s2 : List (Char × List Char)) (q : Char)
    (args : List Char) (coord : List α) (cr : Cairo α) (hk : is_known q = false)
    (htok : parse_coordinates args = .ok coord) :
    run_segments T (s1 ++ (q, args) :: s2) cr = run_segments T (s1 ++ s2) cr := by
  rw [run_segments_append, run_segments_append]
  cases run_segments T s1 cr with
  | error e => rfl
  | ok cr1 =>
    rw [ok_bind, ok_bind, run_segments_cons, run_unknown_segment T q args coord cr1 hk htok,
      ok_bind]

theorem head_append_letter (pre rest : List Char) (q : Char) (hq : is_letter q = true)
    (hpre : ∀ c, pre.head? = some c → is_letter c = true) :
    ∀ c, (pre ++ q :: rest).head? = some c → is_letter c = true := by
  cases pre with
  | nil => intro c hc; simp at hc; subst hc; exact hq
  | cons a t => intro c hc; exact hpre c (by simpa using hc)

theorem head_append_or (pre post : List Char)
    (hpre : ∀ c, pre.head? = some c → is_letter c = true)
    (hpost : ∀ c, post.head? = some c → is_letter c = true) :
    ∀ c, (pre ++ post).head? = some c → is_letter c = true := by
  cases pre with
  | nil => simpa using hpost
  | cons a t => intro c hc; exact hpre c (by simpa using hc)

end UnknownLemmas
section TransformLemmas
variable {α : Type} [LinearOrderedField α]

theorem handle_transform_calls (T : Trig α) (s : Shape α) (cr : Cairo α) :
    (s.handle_transform T cr).trace = cr.trace ++ transform_calls s ∧
    (s.handle_transform T cr).saved = cr.saved := by
  unfold Shape.handle_transform transform_calls
  cases s.translate <;> cases s.rotate <;>
    simp [cairo_translate, cairo_rotate]

end TransformLemmas

section DocumentLemmas

theorem restore_of_saved {β : Type} (cr : Cairo β) (m : Ctm β) (rest : List (Ctm β))
    (h : cr.saved = m :: rest) :
    (cairo_restore cr).trace = cr.trace ++ [Prim.restore] ∧ (cairo_restore cr).ctm = m ∧
    (cairo_restore cr).saved = rest := by
  unfold cairo_restore
  rw [h]
  exact ⟨rfl, rfl, rfl⟩

end DocumentLemmas

section CircleLemmas
variable {α : Type} [LinearOrderedField α]

theorem circle_draw_calls (T : Trig α) (c : Circle α) (cr : Cairo α) :
    (c.draw T cr).trace = cr.trace ++
      [Prim.set_source_rgb c.color.get_r c.color.get_g c.color.get_b,
        Prim.arc c.cx c.cy c.r 0 (2 * T.pi), Prim.fill] ∧
    (c.draw T cr).saved = cr.saved := by
  simp [Circle.draw, cairo_fill, cairo_arc, cairo_set_color, cairo_set_source_rgb]

end CircleLemmas

section BlockLemmas
variable {α : Type} [LinearOrderedField α] [FloorRing α]

/-- One shape of the document: the calls made are the block of the shape, the matrix
and the stack of saved states are those before the shape. -/
theorem draw_shape_block (T : Trig α) (sh sh1 : AnyShape α) (cr cr1 : Cairo α)
    (h : draw_shape T sh cr = .ok (sh1, cr1)) :
    ∃ g, is_geometry T sh g ∧ cr1.trace = cr.trace ++ shape_block sh.toShape g ∧
      cr1.ctm = cr.ctm ∧ cr1.saved = cr.saved := by
  obtain ⟨ht, hs⟩ := handle_transform_calls T sh.toShape (cairo_save cr)
  have hs2 : (sh.toShape.handle_transform T (cairo_save cr)).saved = cr.ctm :: cr.saved := hs
  have ht2 : (sh.toShape.handle_transform T (cairo_save cr)).trace =
      cr.trace ++ Prim.save :: transform_calls sh.toShape := by
    rw [ht]; simp [cairo_save]
  cases sh with
  | circle c =>
    simp only [draw_shape, Except.ok.injEq, Prod.mk.injEq] at h
    obtain ⟨_, rfl⟩ := h
    obtain ⟨d1, d2⟩ := circle_draw_calls T c ((AnyShape.circle c).toShape.handle_transform T
      (cairo_save cr))
    obtain ⟨r1, r2, r3⟩ := restore_of_saved _ _ _ (d2.trans hs2)
    refine ⟨_, rfl, ?_, r2, r3⟩
    rw [r1, d1, ht2]
    simp [shape_block, AnyShape.toShape]
  | path p =>
    simp only [draw_shape] at h
    obtain ⟨⟨p2, cr2⟩, h1, h2⟩ := bind_eq_ok h
    simp only [Except.ok.injEq, Prod.mk.injEq] at h2
    obtain ⟨_, rfl⟩ := h2
    obtain ⟨l, hl, e1, _, e3, _⟩ := draw_calls T _ _ _ _ h1
    obtain ⟨r1, r2, r3⟩ := restore_of_saved _ _ _ (e3.trans hs2)
    refine ⟨l ++ [Prim.close_path], ⟨l, hl, rfl⟩, ?_, r2, r3⟩
    rw [r1, e1, ht2]
    simp [shape_block, AnyShape.toShape]

/-- The whole document: one block per shape, in document order. -/
theorem draw_blocks (T : Trig α) (shapes shapes1 : List (AnyShape α)) (cr cr1 : Cairo α)
    (h : draw T shapes cr = .ok (shapes1, cr1)) :
    ∃ geoms, List.Forall₂ (is_geometry T) shapes geoms ∧
      cr1.trace = cr.trace ++
        (List.zipWith (fun sh g => shape_block sh.toShape g) shapes geoms).flatten ∧
      cr1.ctm = cr.ctm ∧ cr1.saved = cr.saved := by
  induction shapes generalizing shapes1 cr with
  | nil =>
    simp only [draw, Except.ok.injEq, Prod.mk.injEq] at h
    obtain ⟨_, rfl⟩ := h
    exact ⟨[], List.Forall₂.nil, by simp, rfl, rfl⟩
  | cons sh rest ih =>
    simp only [draw] at h
    obtain ⟨⟨sh2, cr2⟩, h1, h2⟩ := bind_eq_ok h
    obtain ⟨⟨rest2, cr3⟩, h3, h4⟩ := bind_eq_ok h2
    simp only [Except.ok.injEq, Prod.mk.injEq] at h4
    obtain ⟨_, rfl⟩ := h4
    obtain ⟨g, hg, e1, e2, e3⟩ := draw_shape_block T _ _ _ _ h1
    obtain ⟨gs, hgs, f1, f2, f3⟩ := ih _ _ h3
    refine ⟨g :: gs, List.Forall₂.cons hg hgs, ?_, f2.trans e2, f3.trans e3⟩
    simp only [List.zipWith_cons_cons, List.flatten_cons]
    rw [f1, e1, List.append_assoc]

end BlockLemmas

section BlockDepthLemmas
variable {α : Type} [LinearOrderedField α]

theorem final_depth_save {β : Type} (l : List (Prim β)) (d : Nat) :
    final_depth (Prim.save :: l) d = final_depth l (d + 1) := by
  simp [final_depth, is_save]

theorem final_depth_colour {β : Type} (r g b : β) (l : List (Prim β)) (d : Nat) :
    final_depth (Prim.set_source_rgb r g b :: l) d = final_depth l d := by
  simp [final_depth, is_save, is_restore]

theorem calm_shape_block (T : Trig α) (sh : AnyShape α) (g : List (Prim α))
    (hg : is_geometry T sh g) : final_depth (shape_block sh.toShape g) 0 = some 0 := by
  have ht : ∀ d, final_depth (transform_calls sh.toShape) d = some d := by
    intro d
    unfold transform_calls
    cases sh.toShape.translate <;> cases sh.toShape.rotate <;> rfl
  have hgd : final_depth g 1 = some 1 := by
    cases sh with
    | circle c => simp only [is_geometry] at hg; subst hg; rfl
    | path p =>
      obtain ⟨l, hl, rfl⟩ := hg
      rw [calm_iff] at hl
      rw [final_depth_append, final_depth_shift l 0 0 1 hl.1]
      rfl
  unfold shape_block
  rw [final_depth_save, final_depth_append, ht]
  show final_depth (_ :: (g ++ _)) 1 = _
  rw [final_depth_colour, final_depth_append, hgd]
  rfl

theorem final_depth_blocks (T : Trig α) (shapes : List (AnyShape α))
    (geoms : List (List (Prim α))) (h : List.Forall₂ (is_geometry T) shapes geoms) :
    final_depth (List.zipWith (fun sh g => shape_block sh.toShape g) shapes geoms).flatten 0
      = some 0 := by
  induction h with
  | nil => rfl
  | cons hg _ ih =>
    simp only [List.zipWith_cons_cons, List.flatten_cons]
    rw [final_depth_append, calm_shape_block T _ _ hg]
    exact ih

end BlockDepthLemmas
section ArcLemmas
variable {α : Type} [LinearOrderedField α] [FloorRing α]

/-- The results of `endpoint_to_center` in terms of its local variables. -/
theorem endpoint_to_center_frame (T : Trig α) (x1 y1 x2 y2 fa fs rx ry phi : α) :
    endpoint_to_center T x1 y1 x2 y2 fa fs rx ry phi =
      ((x1 + x2) / 2 + (T.cos phi * (arc_frame T x1 y1 x2 y2 fa fs rx ry phi).cx1
          - T.sin phi * (arc_frame T x1 y1 x2 y2 fa fs rx ry phi).cy1),
       (y1 + y2) / 2 + (T.sin phi * (arc_frame T x1 y1 x2 y2 fa fs rx ry phi).cx1
          + T.cos phi * (arc_frame T x1 y1 x2 y2 fa fs rx ry phi).cy1),
       fmod (signed_acos T (arc_frame T x1 y1 x2 y2 fa fs rx ry phi).uy
          (arc_frame T x1 y1 x2 y2 fa fs rx ry phi).ux
          (arc_frame T x1 y1 x2 y2 fa fs rx ry phi).n1) (2 * T.pi),
       fmod (sweep_adjust T fs (signed_acos T
          ((arc_frame T x1 y1 x2 y2 fa fs rx ry phi).ux *
              (arc_frame T x1 y1 x2 y2 fa fs rx ry phi).vy
            - (arc_frame T x1 y1 x2 y2 fa fs rx ry phi).uy *
              (arc_frame T x1 y1 x2 y2 fa fs rx ry phi).vx)
          ((arc_frame T x1 y1 x2 y2 fa fs rx ry phi).ux *
              (arc_frame T x1 y1 x2 y2 fa fs rx ry phi).vx
            + (arc_frame T x1 y1 x2 y2 fa fs rx ry phi).uy *
              (arc_frame T x1 y1 x2 y2 fa fs rx ry phi).vy)
          (arc_frame T x1 y1 x2 y2 fa fs rx ry phi).n2)) (2 * T.pi)) :=
  rfl

end ArcLemmas
section FmodLemmas
variable {α : Type} [LinearOrderedField α] [FloorRing α]

theorem fmod_small (x y : α) (hy : 0 < y) (h : |x| < y) : fmod x y = x := by
  have hq : |x / y| < 1 := by
    rw [abs_div, abs_of_pos hy, div_lt_one hy]
    exact h
  rw [abs_lt] at hq
  unfold fmod
  simp only
  split
  · rename_i h0
    have : ⌊x / y⌋ = 0 := Int.floor_eq_zero_iff.2 ⟨h0, hq.2⟩
    simp [this]
  · rename_i h0
    have : ⌈x / y⌉ = 0 := Int.ceil_eq_zero_iff.2 ⟨hq.1, le_of_lt (not_le.1 h0)⟩
    simp [this]

end FmodLemmas

section RealAngleLemmas

theorem signed_acos_bounds (s p n : ℝ) :
    -Real.pi ≤ signed_acos Trig.real s p n ∧ signed_acos Trig.real s p n ≤ Real.pi ∧
    (s < 0 → signed_acos Trig.real s p n ≤ 0) ∧ (¬ s < 0 → 0 ≤ signed_acos Trig.real s p n) := by
  have h0 := Real.arccos_nonneg (p / n)
  have h1 := Real.arccos_le_pi (p / n)
  unfold signed_acos
  simp only [Trig.real]
  by_cases hs : s < 0
  · rw [if_pos hs]
    refine ⟨by linarith, by linarith, fun _ => by linarith, fun h => absurd hs h⟩
  · rw [if_neg hs]
    refine ⟨by linarith, by linarith, fun h => absurd h hs, fun _ => by linarith⟩

theorem sweep_adjust_bounds (fs e : ℝ) (h1 : -Real.pi ≤ e) (h2 : e ≤ Real.pi) :
    (1 / 2 < fs → 0 ≤ sweep_adjust Trig.real fs e) ∧
    (fs < 1 / 2 → sweep_adjust Trig.real fs e ≤ 0) ∧
    |sweep_adjust Trig.real fs e| < 2 * Real.pi := by
  have hpi := Real.pi_pos
  unfold sweep_adjust
  simp only [Trig.real]
  by_cases c1 : fs < 1 / 2 ∧ e > 0
  · rw [if_pos c1]
    refine ⟨fun h => by linarith [c1.1], fun _ => by linarith, ?_⟩
    rw [abs_lt]; constructor <;> linarith [c1.2]
  · rw [if_neg c1]
    by_cases c2 : fs > 1 / 2 ∧ e < 0
    · rw [if_pos c2]
      refine ⟨fun _ => by linarith, fun h => by linarith [c2.1], ?_⟩
      rw [abs_lt]; constructor <;> linarith [c2.2]
    · rw [if_neg c2]
      refine ⟨fun h => ?_, fun h => ?_, ?_⟩
      · by_contra hneg
        exact c2 ⟨h, not_le.1 hneg⟩
      · by_contra hpos
        exact c1 ⟨h, not_le.1 hpos⟩
      · rw [abs_lt]; constructor <;> linarith

end RealAngleLemmas
section FrameLemmas
variable {α : Type} [LinearOrderedField α]

/-- The statements of `endpoint_to_center`, one equation for each local variable. -/
theorem arc_frame_eqs (T : Trig α) (x1 y1 x2 y2 fa fs rx ry phi : α) :
    (arc_frame T x1 y1 x2 y2 fa fs rx ry phi).x1p =
      T.cos phi * ((x1 - x2) / 2) + T.sin phi * ((y1 - y2) / 2) ∧
    (arc_frame T x1 y1 x2 y2 fa fs rx ry phi).y1p =
      -T.sin phi * ((x1 - x2) / 2) + T.cos phi * ((y1 - y2) / 2) ∧
    (arc_frame T x1 y1 x2 y2 fa fs rx ry phi).radii_check =
      (arc_frame T x1 y1 x2 y2 fa fs rx ry phi).x1p *
          (arc_frame T x1 y1 x2 y2 fa fs rx ry phi).x1p / (|rx| * |rx|)
        + (arc_frame T x1 y1 x2 y2 fa fs rx ry phi).y1p *
          (arc_frame T x1 y1 x2 y2 fa fs rx ry phi).y1p / (|ry| * |ry|) ∧
    (arc_frame T x1 y1 x2 y2 fa fs rx ry phi).rx =
      (if (arc_frame T x1 y1 x2 y2 fa fs rx ry phi).radii_check > 1
        then T.sqrt (arc_frame T x1 y1 x2 y2 fa fs rx ry phi).radii_check * |rx| else |rx|) ∧
    (arc_frame T x1 y1 x2 y2 fa fs rx ry phi).ry =
      (if (arc_frame T x1 y1 x2 y2 fa fs rx ry phi).radii_check > 1
        then T.sqrt (arc_frame T x1 y1 x2 y2 fa fs rx ry phi).radii_check * |ry| else |ry|) :=
  ⟨rfl, rfl, rfl, rfl, rfl⟩

/-- The statements of `endpoint_to_center` that compute the centre. -/
theorem arc_frame_centre (T : Trig α) (x1 y1 x2 y2 fa fs rx ry phi : α) :
    (arc_frame T x1 y1 x2 y2 fa fs rx ry phi).denominator =
      (arc_frame T x1 y1 x2 y2 fa fs rx ry phi).rx * (arc_frame T x1 y1 x2 y2 fa fs rx ry phi).rx
          * ((arc_frame T x1 y1 x2 y2 fa fs rx ry phi).y1p *
            (arc_frame T x1 y1 x2 y2 fa fs rx ry phi).y1p)
        + (arc_frame T x1 y1 x2 y2 fa fs rx ry phi).ry *
          (arc_frame T x1 y1 x2 y2 fa fs rx ry phi).ry
          * ((arc_frame T x1 y1 x2 y2 fa fs rx ry phi).x1p *
            (arc_frame T x1 y1 x2 y2 fa fs rx ry phi).x1p) ∧
    (arc_frame T x1 y1 x2 y2 fa fs rx ry phi).sq =
      (if ((arc_frame T x1 y1 x2 y2 fa fs rx ry phi).rx *
              (arc_frame T x1 y1 x2 y2 fa fs rx ry phi).rx
            * ((arc_frame T x1 y1 x2 y2 fa fs rx ry phi).ry *
              (arc_frame T x1 y1 x2 y2 fa fs rx ry phi).ry)
          - (arc_frame T x1 y1 x2 y2 fa fs rx ry phi).rx *
              (arc_frame T x1 y1 x2 y2 fa fs rx ry phi).rx
            * ((arc_frame T x1 y1 x2 y2 fa fs rx ry phi).y1p *
              (arc_frame T x1 y1 x2 y2 fa fs rx ry phi).y1p)
          - (arc_frame T x1 y1 x2 y2 fa fs rx ry phi).ry *
              (arc_frame T x1 y1 x2 y2 fa fs rx ry phi).ry
            * ((arc_frame T x1 y1 x2 y2 fa fs rx ry phi).x1p *
              (arc_frame T x1 y1 x2 y2 fa fs rx ry phi).x1p))
          / (arc_frame T x1 y1 x2 y2 fa fs rx ry phi).denominator < 0 then 0
        else ((arc_frame T x1 y1 x2 y2 fa fs rx ry phi).rx *
              (arc_frame T x1 y1 x2 y2 fa fs rx ry phi).rx
            * ((arc_frame T x1 y1 x2 y2 fa fs rx ry phi).ry *
              (arc_frame T x1 y1 x2 y2 fa fs rx ry phi).ry)
          - (arc_frame T x1 y1 x2 y2 fa fs rx ry phi).rx *
              (arc_frame T x1 y1 x2 y2 fa fs rx ry phi).rx
            * ((arc_frame T x1 y1 x2 y2 fa fs rx ry phi).y1p *
              (arc_frame T x1 y1 x2 y2 fa fs rx ry phi).y1p)
          - (arc_frame T x1 y1 x2 y2 fa fs rx ry phi).ry *
              (arc_frame T x1 y1 x2 y2 fa fs rx ry phi).ry
            * ((arc_frame T x1 y1 x2 y2 fa fs rx ry phi).x1p *
              (arc_frame T x1 y1 x2 y2 fa fs rx ry phi).x1p))
          / (arc_frame T x1 y1 x2 y2 fa fs rx ry phi).denominator) ∧
    (arc_frame T x1 y1 x2 y2 fa fs rx ry phi).coef =
      (if |fa - fs| < 1 / 1000 then -1 else 1)
        * T.sqrt (arc_frame T x1 y1 x2 y2 fa fs rx ry phi).sq ∧
    (arc_frame T x1 y1 x2 y2 fa fs rx ry phi).cx1 =
      (arc_frame T x1 y1 x2 y2 fa fs rx ry phi).coef *
        ((arc_frame T x1 y1 x2 y2 fa fs rx ry phi).rx *
          (arc_frame T x1 y1 x2 y2 fa fs rx ry phi).y1p /
          (arc_frame T x1 y1 x2 y2 fa fs rx ry phi).ry) ∧
    (arc_frame T x1 y1 x2 y2 fa fs rx ry phi).cy1 =
      (arc_frame T x1 y1 x2 y2 fa fs rx ry phi).coef *
        -((arc_frame T x1 y1 x2 y2 fa fs rx ry phi).ry *
          (arc_frame T x1 y1 x2 y2 fa fs rx ry phi).x1p /
          (arc_frame T x1 y1 x2 y2 fa fs rx ry phi).rx) :=
  ⟨rfl, rfl, rfl, rfl, rfl⟩

/-- The statements of `endpoint_to_center` that compute the vectors and magnitudes. -/
theorem arc_frame_vectors (T : Trig α) (x1 y1 x2 y2 fa fs rx ry phi : α) :
    (arc_frame T x1 y1 x2 y2 fa fs rx ry phi).ux =
      ((arc_frame T x1 y1 x2 y2 fa fs rx ry phi).x1p -
        (arc_frame T x1 y1 x2 y2 fa fs rx ry phi).cx1) /
        (arc_frame T x1 y1 x2 y2 fa fs rx ry phi).rx ∧
    (arc_frame T x1 y1 x2 y2 fa fs rx ry phi).uy =
      ((arc_frame T x1 y1 x2 y2 fa fs rx ry phi).y1p -
        (arc_frame T x1 y1 x2 y2 fa fs rx ry phi).cy1) /
        (arc_frame T x1 y1 x2 y2 fa fs rx ry phi).ry ∧
    (arc_frame T x1 y1 x2 y2 fa fs rx ry phi).vx =
      (-(arc_frame T x1 y1 x2 y2 fa fs rx ry phi).x1p -
        (arc_frame T x1 y1 x2 y2 fa fs rx ry phi).cx1) /
        (arc_frame T x1 y1 x2 y2 fa fs rx ry phi).rx ∧
    (arc_frame T x1 y1 x2 y2 fa fs rx ry phi).vy =
      (-(arc_frame T x1 y1 x2 y2 fa fs rx ry phi).y1p -
        (arc_frame T x1 y1 x2 y2 fa fs rx ry phi).cy1) /
        (arc_frame T x1 y1 x2 y2 fa fs rx ry phi).ry ∧
    (arc_frame T x1 y1 x2 y2 fa fs rx ry phi).n1 =
      T.sqrt ((arc_frame T x1 y1 x2 y2 fa fs rx ry phi).ux *
          (arc_frame T x1 y1 x2 y2 fa fs rx ry phi).ux
        + (arc_frame T x1 y1 x2 y2 fa fs rx ry phi).uy *
          (arc_frame T x1 y1 x2 y2 fa fs rx ry phi).uy) ∧
    (arc_frame T x1 y1 x2 y2 fa fs rx ry phi).n2 =
      T.sqrt (((arc_frame T x1 y1 x2 y2 fa fs rx ry phi).ux *
          (arc_frame T x1 y1 x2 y2 fa fs rx ry phi).ux
        + (arc_frame T x1 y1 x2 y2 fa fs rx ry phi).uy *
          (arc_frame T x1 y1 x2 y2 fa fs rx ry phi).uy)
        * ((arc_frame T x1 y1 x2 y2 fa fs rx ry phi).vx *
          (arc_frame T x1 y1 x2 y2 fa fs rx ry phi).vx
        + (arc_frame T x1 y1 x2 y2 fa fs rx ry phi).vy *
          (arc_frame T x1 y1 x2 y2 fa fs rx ry phi).vy)) :=
  ⟨rfl, rfl, rfl, rfl, rfl, rfl⟩

end FrameLemmas
section CircleArcLemmas

theorem signed_acos_cos_sin (s p : ℝ) (h : p * p + s * s = 1) :
    Real.cos (signed_acos Trig.real s p 1) = p ∧ Real.sin (signed_acos Trig.real s p 1) = s := by
  have hp1 : -1 ≤ p := by nlinarith
  have hp2 : p ≤ 1 := by nlinarith
  have hsq : Real.sqrt (1 - p ^ 2) = |s| := by
    rw [show 1 - p ^ 2 = s ^ 2 by nlinarith, Real.sqrt_sq_eq_abs]
  unfold signed_acos
  simp only [Trig.real, div_one]
  by_cases hs : s < 0
  · rw [if_pos hs, neg_one_mul, Real.cos_neg, Real.sin_neg, Real.cos_arccos hp1 hp2,
      Real.sin_arccos, hsq, abs_of_neg hs, neg_neg]
    exact ⟨rfl, rfl⟩
  · rw [if_neg hs, one_mul, Real.cos_arccos hp1 hp2, Real.sin_arccos, hsq,
      abs_of_nonneg (not_lt.1 hs)]
    exact ⟨rfl, rfl⟩

theorem sweep_adjust_cos_sin (fs e : ℝ) :
    Real.cos (sweep_adjust Trig.real fs e) = Real.cos e ∧
    Real.sin (sweep_adjust Trig.real fs e) = Real.sin e := by
  unfold sweep_adjust
  simp only [Trig.real]
  split
  · exact ⟨Real.cos_sub_two_pi e, Real.sin_sub_two_pi e⟩
  · split
    · exact ⟨Real.cos_add_two_pi e, Real.sin_add_two_pi e⟩
    · exact ⟨rfl, rfl⟩

/-- The start angle and the extent returned over the real numbers, when `u` and `v`
are unit vectors: the start angle is the direction of `u`, start plus extent is the
direction of `v`. -/
theorem angles_of_unit (x1 y1 x2 y2 fa fs rx ry phi : ℝ)
    (hu : (arc_frame Trig.real x1 y1 x2 y2 fa fs rx ry phi).ux *
        (arc_frame Trig.real x1 y1 x2 y2 fa fs rx ry phi).ux
      + (arc_frame Trig.real x1 y1 x2 y2 fa fs rx ry phi).uy *
        (arc_frame Trig.real x1 y1 x2 y2 fa fs rx ry phi).uy = 1)
    (hv : (arc_frame Trig.real x1 y1 x2 y2 fa fs rx ry phi).vx *
        (arc_frame Trig.real x1 y1 x2 y2 fa fs rx ry phi).vx
      + (arc_frame Trig.real x1 y1 x2 y2 fa fs rx ry phi).vy *
        (arc_frame Trig.real x1 y1 x2 y2 fa fs rx ry phi).vy = 1) :
    Real.cos (endpoint_to_center Trig.real x1 y1 x2 y2 fa fs rx ry phi).2.2.1 =
      (arc_frame Trig.real x1 y1 x2 y2 fa fs rx ry phi).ux ∧
    Real.sin (endpoint_to_center Trig.real x1 y1 x2 y2 fa fs rx ry phi).2.2.1 =
      (arc_frame Trig.real x1 y1 x2 y2 fa fs rx ry phi).uy ∧
    Real.cos ((endpoint_to_center Trig.real x1 y1 x2 y2 fa fs rx ry phi).2.2.1 +
        (endpoint_to_center Trig.real x1 y1 x2 y2 fa fs rx ry phi).2.2.2) =
      (arc_frame Trig.real x1 y1 x2 y2 fa fs rx ry phi).vx ∧
    Real.sin ((endpoint_to_center Trig.real x1 y1 x2 y2 fa fs rx ry phi).2.2.1 +
        (endpoint_to_center Trig.real x1 y1 x2 y2 fa fs rx ry phi).2.2.2) =
      (arc_frame Trig.real x1 y1 x2 y2 fa fs rx ry phi).vy := by
  obtain ⟨_, _, _, _, hn1, hn2⟩ := arc_frame_vectors Trig.real x1 y1 x2 y2 fa fs rx ry phi
  rw [endpoint_to_center_frame]
  simp only
  set f := arc_frame Trig.real x1 y1 x2 y2 fa fs rx ry phi with hf
  have hpi : (0 : ℝ) < 2 * Trig.real.pi := by
    show (0 : ℝ) < 2 * Real.pi
    linarith [Real.pi_pos]
  have e1 : f.n1 = 1 := by
    rw [hn1, hu]; exact Real.sqrt_one
  have e2 : f.n2 = 1 := by
    rw [hn2, hu, hv, one_mul]; exact Real.sqrt_one
  rw [e1, e2]
  have hcross : (f.ux * f.vx + f.uy * f.vy) * (f.ux * f.vx + f.uy * f.vy)
      + (f.ux * f.vy - f.uy * f.vx) * (f.ux * f.vy - f.uy * f.vx) = 1 := by
    have : (f.ux * f.vx + f.uy * f.vy) * (f.ux * f.vx + f.uy * f.vy)
      + (f.ux * f.vy - f.uy * f.vx) * (f.ux * f.vy - f.uy * f.vx)
      = (f.ux * f.ux + f.uy * f.uy) * (f.vx * f.vx + f.vy * f.vy) := by ring
    rw [this, hu, hv, one_mul]
  obtain ⟨a1, a2, _, _⟩ := signed_acos_bounds f.uy f.ux 1
  obtain ⟨b1, b2, _, _⟩ := signed_acos_bounds (f.ux * f.vy - f.uy * f.vx)
    (f.ux * f.vx + f.uy * f.vy) 1
  obtain ⟨_, _, b3⟩ := sweep_adjust_bounds fs _ b1 b2
  have a3 : |signed_acos Trig.real f.uy f.ux 1| < 2 * Trig.real.pi := by
    show _ < 2 * Real.pi
    rw [abs_lt]; constructor <;> linarith [Real.pi_pos]
  rw [fmod_small _ _ hpi a3, fmod_small _ _ hpi b3]
  obtain ⟨c1, c2⟩ := signed_acos_cos_sin f.uy f.ux hu
  obtain ⟨d1, d2⟩ := signed_acos_cos_sin (f.ux * f.vy - f.uy * f.vx)
    (f.ux * f.vx + f.uy * f.vy) hcross
  obtain ⟨g1, g2⟩ := sweep_adjust_cos_sin fs (signed_acos Trig.real (f.ux * f.vy - f.uy * f.vx)
    (f.ux * f.vx + f.uy * f.vy) 1)
  refine ⟨c1, c2, ?_, ?_⟩
  · rw [Real.cos_add, c1, c2, g1, g2, d1, d2]
    have : f.ux * (f.ux * f.vx + f.uy * f.vy) - f.uy * (f.ux * f.vy - f.uy * f.vx)
      = (f.ux * f.ux + f.uy * f.uy) * f.vx := by ring
    rw [this, hu, one_mul]
  · rw [Real.sin_add, c1, c2, g1, g2, d1, d2]
    have : f.uy * (f.ux * f.vx + f.uy * f.vy) + f.ux * (f.ux * f.vy - f.uy * f.vx)
      = (f.ux * f.ux + f.uy * f.uy) * f.vy := by ring
    rw [this, hu, one_mul]

end CircleArcLemmas
section CircleFrame


/-- The frame of a circular arc without rotation between two distinct points: both
radii become the effective radius, the larger of `r` and half the distance of the
points, and `u` and `v` are unit vectors. -/
theorem circle_frame (x1 y1 x2 y2 fa fs r : ℝ) (hr : 0 < r) (hne : ¬ (x1 = x2 ∧ y1 = y2)) :
    (arc_frame Trig.real x1 y1 x2 y2 fa fs r r 0).rx =
      max r (Real.sqrt (((x1 - x2) / 2) ^ 2 + ((y1 - y2) / 2) ^ 2)) ∧
    (arc_frame Trig.real x1 y1 x2 y2 fa fs r r 0).ry =
      (arc_frame Trig.real x1 y1 x2 y2 fa fs r r 0).rx ∧
    0 < (arc_frame Trig.real x1 y1 x2 y2 fa fs r r 0).rx ∧
    (arc_frame Trig.real x1 y1 x2 y2 fa fs r r 0).x1p = (x1 - x2) / 2 ∧
    (arc_frame Trig.real x1 y1 x2 y2 fa fs r r 0).y1p = (y1 - y2) / 2 ∧
    (arc_frame Trig.real x1 y1 x2 y2 fa fs r r 0).ux *
        (arc_frame Trig.real x1 y1 x2 y2 fa fs r r 0).ux
      + (arc_frame Trig.real x1 y1 x2 y2 fa fs r r 0).uy *
        (arc_frame Trig.real x1 y1 x2 y2 fa fs r r 0).uy = 1 ∧
    (arc_frame Trig.real x1 y1 x2 y2 fa fs r r 0).vx *
        (arc_frame Trig.real x1 y1 x2 y2 fa fs r r 0).vx
      + (arc_frame Trig.real x1 y1 x2 y2 fa fs r r 0).vy *
        (arc_frame Trig.real x1 y1 x2 y2 fa fs r r 0).vy = 1 := by
  obtain ⟨e1, e2, e3, e4, e5⟩ := arc_frame_eqs Trig.real x1 y1 x2 y2 fa fs r r 0
  obtain ⟨e6, e7, e8, e9, e10⟩ := arc_frame_centre Trig.real x1 y1 x2 y2 fa fs r r 0
  obtain ⟨e11, e12, e13, e14, _, _⟩ := arc_frame_vectors Trig.real x1 y1 x2 y2 fa fs r r 0
  generalize arc_frame Trig.real x1 y1 x2 y2 fa fs r r 0 = f at *
  have hx : f.x1p = (x1 - x2) / 2 := by
    rw [e1]; simp [Trig.real]
  have hy : f.y1p = (y1 - y2) / 2 := by
    rw [e2]; simp [Trig.real]
  have hh : 0 < ((x1 - x2) / 2) ^ 2 + ((y1 - y2) / 2) ^ 2 := by
    by_contra hc
    have h0 : ((x1 - x2) / 2) ^ 2 + ((y1 - y2) / 2) ^ 2 = 0 :=
      le_antisymm (not_lt.1 hc) (by positivity)
    have ha : (x1 - x2) / 2 = 0 := by
      have := sq_nonneg ((x1 - x2) / 2)
      have := sq_nonneg ((y1 - y2) / 2)
      exact pow_eq_zero_iff (two_ne_zero) |>.1 (by linarith)
    have hb : (y1 - y2) / 2 = 0 := by
      have := sq_nonneg ((x1 - x2) / 2)
      have := sq_nonneg ((y1 - y2) / 2)
      exact pow_eq_zero_iff (two_ne_zero) |>.1 (by linarith)
    exact hne ⟨by linarith, by linarith⟩
  have hrc : f.radii_check = (((x1 - x2) / 2) ^ 2 + ((y1 - y2) / 2) ^ 2) / (r * r) := by
    rw [e3, hx, hy, abs_of_pos hr]; ring
  have hrr : 0 < r * r := mul_pos hr hr
  -- the effective radius
  have hR : f.rx = max r (Real.sqrt (((x1 - x2) / 2) ^ 2 + ((y1 - y2) / 2) ^ 2)) ∧ f.ry = f.rx := by
    by_cases hc : f.radii_check > 1
    · rw [e4, e5, if_pos hc]
      refine ⟨?_, rfl⟩
      have h1 : r * r < ((x1 - x2) / 2) ^ 2 + ((y1 - y2) / 2) ^ 2 := by
        rw [hrc, gt_iff_lt, lt_div_iff₀ hrr] at hc; linarith
      have h2 : r < Real.sqrt (((x1 - x2) / 2) ^ 2 + ((y1 - y2) / 2) ^ 2) := by
        apply Real.lt_sqrt_of_sq_lt; rw [pow_two]; exact h1
      rw [max_eq_right h2.le, hrc, abs_of_pos hr]
      show Real.sqrt _ * r = _
      rw [Real.sqrt_div (le_of_lt hh), Real.sqrt_mul_self hr.le]
      exact div_mul_cancel₀ _ (ne_of_gt hr)
    · rw [e4, e5, if_neg hc, abs_of_pos hr]
      refine ⟨?_, rfl⟩
      have h1 : ((x1 - x2) / 2) ^ 2 + ((y1 - y2) / 2) ^ 2 ≤ r * r := by
        rw [hrc, gt_iff_lt, not_lt, div_le_one hrr] at hc; exact hc
      have h2 : Real.sqrt (((x1 - x2) / 2) ^ 2 + ((y1 - y2) / 2) ^ 2) ≤ r := by
        rw [Real.sqrt_le_left hr.le, show r ^ 2 = r * r from pow_two r]; exact h1
      rw [max_eq_left h2]
  obtain ⟨hR1, hR2⟩ := hR
  have hpos : 0 < f.rx := by
    rw [hR1]; exact lt_max_of_lt_left hr
  have hge : ((x1 - x2) / 2) ^ 2 + ((y1 - y2) / 2) ^ 2 ≤ f.rx * f.rx := by
    have h3 : Real.sqrt (((x1 - x2) / 2) ^ 2 + ((y1 - y2) / 2) ^ 2) ≤ f.rx := by
      rw [hR1]; exact le_max_right _ _
    have h4 := Real.sqrt_nonneg (((x1 - x2) / 2) ^ 2 + ((y1 - y2) / 2) ^ 2)
    have h5 := Real.mul_self_sqrt (le_of_lt hh)
    rw [← h5]
    exact mul_self_le_mul_self h4 h3
  refine ⟨hR1, hR2, hpos, hx, hy, ?_⟩
  -- abbreviations
  generalize hRdef : f.rx = R at *
  generalize hadef : (x1 - x2) / 2 = a at *
  generalize hbdef : (y1 - y2) / 2 = b at *
  have hRne : R ≠ 0 := ne_of_gt hpos
  have hden : f.denominator = R * R * (a ^ 2 + b ^ 2) := by
    rw [e6, hR2, hx, hy]; ring
  have hdpos : 0 < f.denominator := by
    rw [hden]; exact mul_pos (mul_pos hpos hpos) hh
  have hsq : f.sq = (R * R - (a ^ 2 + b ^ 2)) / (a ^ 2 + b ^ 2) := by
    have h0 : (R * R * (f.ry * f.ry) - R * R * (f.y1p * f.y1p) - f.ry * f.ry * (f.x1p * f.x1p))
        / f.denominator = (R * R - (a ^ 2 + b ^ 2)) / (a ^ 2 + b ^ 2) := by
      rw [hden, hR2, hx, hy]
      field_simp
      ring
    rw [e7, h0, if_neg]
    rw [not_lt]
    exact div_nonneg (by linarith) hh.le
  have hsq0 : 0 ≤ f.sq := by
    rw [hsq]; exact div_nonneg (by linarith) hh.le
  have hcoef : f.coef * f.coef * (a ^ 2 + b ^ 2) = R * R - (a ^ 2 + b ^ 2) := by
    have h1 : f.coef * f.coef = f.sq := by
      rw [e8]
      show _ * Real.sqrt f.sq * (_ * Real.sqrt f.sq) = _
      have h2 := Real.mul_self_sqrt hsq0
      split
      · linear_combination h2
      · linear_combination h2
    rw [h1, hsq]
    field_simp
  have hcx : f.cx1 = f.coef * b := by
    rw [e9, hR2, hy]; field_simp
  have hcy : f.cy1 = -(f.coef * a) := by
    rw [e10, hR2, hx]; field_simp
  constructor
  · rw [e11, e12, hR2, hx, hy, hcx, hcy]
    field_simp
    linear_combination hcoef
  · rw [e13, e14, hR2, hx, hy, hcx, hcy]
    field_simp
    linear_combination hcoef

end CircleFrame
section CircleEndpoints

/-- For a circular arc without rotation between two distinct points, the centre and
the angles returned over the real numbers give back both points on the circle of the
effective radius, the larger of `r` and half the distance of the points. -/
theorem circle_endpoints (x1 y1 x2 y2 fa fs r : ℝ) (hr : 0 < r) (hne : ¬ (x1 = x2 ∧ y1 = y2)) :
    (endpoint_to_center Trig.real x1 y1 x2 y2 fa fs r r 0).1
        + max r (Real.sqrt (((x1 - x2) / 2) ^ 2 + ((y1 - y2) / 2) ^ 2))
          * Real.cos (endpoint_to_center Trig.real x1 y1 x2 y2 fa fs r r 0).2.2.1 = x1 ∧
    (endpoint_to_center Trig.real x1 y1 x2 y2 fa fs r r 0).2.1
        + max r (Real.sqrt (((x1 - x2) / 2) ^ 2 + ((y1 - y2) / 2) ^ 2))
          * Real.sin (endpoint_to_center Trig.real x1 y1 x2 y2 fa fs r r 0).2.2.1 = y1 ∧
    (endpoint_to_center Trig.real x1 y1 x2 y2 fa fs r r 0).1
        + max r (Real.sqrt (((x1 - x2) / 2) ^ 2 + ((y1 - y2) / 2) ^ 2))
          * Real.cos ((endpoint_to_center Trig.real x1 y1 x2 y2 fa fs r r 0).2.2.1
            + (endpoint_to_center Trig.real x1 y1 x2 y2 fa fs r r 0).2.2.2) = x2 ∧
    (endpoint_to_center Trig.real x1 y1 x2 y2 fa fs r r 0).2.1
        + max r (Real.sqrt (((x1 - x2) / 2) ^ 2 + ((y1 - y2) / 2) ^ 2))
          * Real.sin ((endpoint_to_center Trig.real x1 y1 x2 y2 fa fs r r 0).2.2.1
            + (endpoint_to_center Trig.real x1 y1 x2 y2 fa fs r r 0).2.2.2) = y2 := by
  obtain ⟨hR, hry, hpos, hx, hy, hu, hv⟩ := circle_frame x1 y1 x2 y2 fa fs r hr hne
  obtain ⟨k1, k2, k3, k4⟩ := angles_of_unit x1 y1 x2 y2 fa fs r r 0 hu hv
  obtain ⟨e11, e12, e13, e14, _, _⟩ := arc_frame_vectors Trig.real x1 y1 x2 y2 fa fs r r 0
  rw [k1, k2, k3, k4, ← hR, endpoint_to_center_frame]
  simp only
  rw [hry] at e12 e14
  rw [e11, e12, e13, e14, hx, hy]
  have hne0 : (arc_frame Trig.real x1 y1 x2 y2 fa fs r r 0).rx ≠ 0 := ne_of_gt hpos
  have c0 : Trig.real.cos 0 = 1 := Real.cos_zero
  have s0 : Trig.real.sin 0 = 0 := Real.sin_zero
  rw [c0, s0]
  generalize (arc_frame Trig.real x1 y1 x2 y2 fa fs r r 0).rx = R at *
  generalize (arc_frame Trig.real x1 y1 x2 y2 fa fs r r 0).cx1 = p at *
  generalize (arc_frame Trig.real x1 y1 x2 y2 fa fs r r 0).cy1 = q at *
  refine ⟨?_, ?_, ?_, ?_⟩ <;> field_simp <;> ring

end CircleEndpoints
section Divisors

/-- For two distinct points and radii that are not zero, no divisor of
`endpoint_to_center` is zero over the real numbers: the squares of the given radii,
the divisor of the centre computation, the radii after the check and the two
magnitudes `n`. -/
theorem divisors_nonzero (x1 y1 x2 y2 fa fs rx ry phi : ℝ) (hne : ¬ (x1 = x2 ∧ y1 = y2))
    (hrx : rx ≠ 0) (hry : ry ≠ 0) :
    |rx| * |rx| ≠ 0 ∧ |ry| * |ry| ≠ 0 ∧
    (arc_frame Trig.real x1 y1 x2 y2 fa fs rx ry phi).denominator ≠ 0 ∧
    (arc_frame Trig.real x1 y1 x2 y2 fa fs rx ry phi).rx ≠ 0 ∧
    (arc_frame Trig.real x1 y1 x2 y2 fa fs rx ry phi).ry ≠ 0 ∧
    (arc_frame Trig.real x1 y1 x2 y2 fa fs rx ry phi).n1 ≠ 0 ∧
    (arc_frame Trig.real x1 y1 x2 y2 fa fs rx ry phi).n2 ≠ 0 := by
  obtain ⟨e1, e2, e3, e4, e5⟩ := arc_frame_eqs Trig.real x1 y1 x2 y2 fa fs rx ry phi
  obtain ⟨e6, _, _, e9, e10⟩ := arc_frame_centre Trig.real x1 y1 x2 y2 fa fs rx ry phi
  obtain ⟨e11, e12, e13, e14, e15, e16⟩ := arc_frame_vectors Trig.real x1 y1 x2 y2 fa fs rx ry phi
  generalize arc_frame Trig.real x1 y1 x2 y2 fa fs rx ry phi = f at *
  have hax : 0 < |rx| := abs_pos.2 hrx
  have hay : 0 < |ry| := abs_pos.2 hry
  -- the start point in the frame of the ellipse is not the origin
  have hp : ¬ (f.x1p = 0 ∧ f.y1p = 0) := by
    rintro ⟨p1, p2⟩
    rw [e1] at p1
    rw [e2] at p2
    have hcs : Real.cos phi * Real.cos phi + Real.sin phi * Real.sin phi = 1 := by
      have := Real.cos_sq_add_sin_sq phi
      rw [pow_two, pow_two] at this
      exact this
    have p1b : Real.cos phi * ((x1 - x2) / 2) + Real.sin phi * ((y1 - y2) / 2) = 0 := p1
    have p2b : -Real.sin phi * ((x1 - x2) / 2) + Real.cos phi * ((y1 - y2) / 2) = 0 := p2
    have ha : (x1 - x2) / 2 = 0 := by
      linear_combination Real.cos phi * p1b - Real.sin phi * p2b - ((x1 - x2) / 2) * hcs
    have hb : (y1 - y2) / 2 = 0 := by
      linear_combination Real.sin phi * p1b + Real.cos phi * p2b - ((y1 - y2) / 2) * hcs
    exact hne ⟨by linarith, by linarith⟩
  -- the radii after the check are positive
  have hsqrt : f.radii_check > 1 → 0 < Real.sqrt f.radii_check := fun h =>
    Real.sqrt_pos.2 (lt_trans zero_lt_one h)
  have hfx : 0 < f.rx := by
    rw [e4]
    split
    · exact mul_pos (hsqrt ‹_›) hax
    · exact hax
  have hfy : 0 < f.ry := by
    rw [e5]
    split
    · exact mul_pos (hsqrt ‹_›) hay
    · exact hay
  have hden : 0 < f.denominator := by
    rw [e6]
    have h1 : 0 < f.rx * f.rx := mul_pos hfx hfx
    have h2 : 0 < f.ry * f.ry := mul_pos hfy hfy
    by_cases hx0 : f.x1p = 0
    · have hy0 : f.y1p ≠ 0 := fun h => hp ⟨hx0, h⟩
      have h3 : 0 < f.y1p * f.y1p := mul_self_pos.2 hy0
      have h4 : 0 ≤ f.x1p * f.x1p := mul_self_nonneg _
      exact add_pos_of_pos_of_nonneg (mul_pos h1 h3) (mul_nonneg h2.le h4)
    · have h3 : 0 < f.x1p * f.x1p := mul_self_pos.2 hx0
      have h4 : 0 ≤ f.y1p * f.y1p := mul_self_nonneg _
      exact add_pos_of_nonneg_of_pos (mul_nonneg h1.le h4) (mul_pos h2 h3)
  -- neither `u` nor `v` is the zero vector
  have hfx0 : f.rx ≠ 0 := ne_of_gt hfx
  have hfy0 : f.ry ≠ 0 := ne_of_gt hfy
  have key : ∀ a b : ℝ, a = f.coef * (f.rx * b / f.ry) → b = f.coef * -(f.ry * a / f.rx) →
      a = 0 ∧ b = 0 := by
    intro a b h1 h2
    have h3 : a * (1 + f.coef * f.coef) = 0 := by
      have h4 : a = -(f.coef * f.coef) * a := by
        calc a = f.coef * (f.rx * b / f.ry) := h1
          _ = f.coef * (f.rx * (f.coef * -(f.ry * a / f.rx)) / f.ry) := by rw [← h2]
          _ = -(f.coef * f.coef) * a := by field_simp; ring
      linear_combination h4
    have h5 : 1 + f.coef * f.coef ≠ 0 := ne_of_gt (add_pos_of_pos_of_nonneg one_pos (mul_self_nonneg _))
    have ha : a = 0 := (mul_eq_zero.1 h3).resolve_right h5
    refine ⟨ha, ?_⟩
    rw [h2, ha]
    simp
  have hu : 0 < f.ux * f.ux + f.uy * f.uy := by
    rcases lt_or_eq_of_le (add_nonneg (mul_self_nonneg f.ux) (mul_self_nonneg f.uy)) with h | h
    · exact h
    · exfalso
      have h1 := mul_self_nonneg f.ux
      have h2 := mul_self_nonneg f.uy
      have ux0 : f.ux = 0 := mul_self_eq_zero.1 (by linarith)
      have uy0 : f.uy = 0 := mul_self_eq_zero.1 (by linarith)
      rw [e11, div_eq_zero_iff] at ux0
      rw [e12, div_eq_zero_iff] at uy0
      have a1 : f.x1p = f.cx1 := by
        rcases ux0 with h | h
        · linarith
        · exact absurd h hfx0
      have a2 : f.y1p = f.cy1 := by
        rcases uy0 with h | h
        · linarith
        · exact absurd h hfy0
      exact hp (key f.x1p f.y1p (a1.trans e9) (a2.trans e10))
  have hv : 0 < f.vx * f.vx + f.vy * f.vy := by
    rcases lt_or_eq_of_le (add_nonneg (mul_self_nonneg f.vx) (mul_self_nonneg f.vy)) with h | h
    · exact h
    · exfalso
      have h1 := mul_self_nonneg f.vx
      have h2 := mul_self_nonneg f.vy
      have vx0 : f.vx = 0 := mul_self_eq_zero.1 (by linarith)
      have vy0 : f.vy = 0 := mul_self_eq_zero.1 (by linarith)
      rw [e13, div_eq_zero_iff] at vx0
      rw [e14, div_eq_zero_iff] at vy0
      have a1 : -f.x1p = f.cx1 := by
        rcases vx0 with h | h
        · linarith
        · exact absurd h hfx0
      have a2 : -f.y1p = f.cy1 := by
        rcases vy0 with h | h
        · linarith
        · exact absurd h hfy0
      have a3 := a2.trans e10
      have a4 : f.y1p = f.coef * -(f.ry * -f.x1p / f.rx) := by
        calc f.y1p = -(-f.y1p) := (neg_neg _).symm
          _ = -(f.coef * -(f.ry * f.x1p / f.rx)) := by rw [a3]
          _ = f.coef * -(f.ry * -f.x1p / f.rx) := by ring
      obtain ⟨b1, b2⟩ := key (-f.x1p) f.y1p (a1.trans e9) a4
      exact hp ⟨neg_eq_zero.1 b1, b2⟩
  refine ⟨ne_of_gt (mul_pos hax hax), ne_of_gt (mul_pos hay hay), ne_of_gt hden, hfx0, hfy0, ?_, ?_⟩
  · rw [e15]
    exact ne_of_gt (Real.sqrt_pos.2 hu)
  · rw [e16]
    exact ne_of_gt (Real.sqrt_pos.2 (mul_pos hu hv))

end Divisors
section EqualEndpoints
variable {α : Type} [LinearOrderedField α]

/-- For an arc whose end point is its start point, the start point in the frame of the
ellipse is the origin and the divisor `Prx*Py1 + Pry*Px1` of the centre computation
of `endpoint_to_center` is zero. -/
theorem equal_endpoints_frame (T : Trig α) (x y fa fs rx ry phi : α) :
    (arc_frame T x y x y fa fs rx ry phi).x1p = 0 ∧
    (arc_frame T x y x y fa fs rx ry phi).y1p = 0 ∧
    (arc_frame T x y x y fa fs rx ry phi).denominator = 0 := by
  obtain ⟨e1, e2, _, _, _⟩ := arc_frame_eqs T x y x y fa fs rx ry phi
  obtain ⟨e6, _, _, _, _⟩ := arc_frame_centre T x y x y fa fs rx ry phi
  have h1 : (arc_frame T x y x y fa fs rx ry phi).x1p = 0 := by
    rw [e1]; simp
  have h2 : (arc_frame T x y x y fa fs rx ry phi).y1p = 0 := by
    rw [e2]; simp
  refine ⟨h1, h2, ?_⟩
  rw [e6, h1, h2]
  simp

end EqualEndpoints
section RealRoots

/-- The square root of four. -/
theorem sqrt_four : Real.sqrt 4 = 2 := by
  rw [show (4 : ℝ) = 2 * 2 by norm_num, Real.sqrt_mul_self (by norm_num)]

end RealRoots
section MatchLemmas

theorem first_down_hit {β : Type} (f : Nat → Option β) (n : Nat) (r : β) (h : f n = some r) :
    first_down f n = some r := by
  cases n with
  | zero => simpa [first_down] using h
  | succ n => simp [first_down, h]

theorem first_down_skip {β : Type} (f : Nat → Option β) (k d : Nat)
    (h : ∀ j, k < j → j ≤ k + d → f j = none) : first_down f (k + d) = first_down f k := by
  induction d with
  | zero => rfl
  | succ d ih =>
    have h1 : f (k + d + 1) = none := h (k + d + 1) (by omega) (by omega)
    have h2 : first_down f (k + d + 1) = first_down f (k + d) := by
      simp [first_down, h1]
    rw [show k + (d + 1) = k + d + 1 from rfl, h2]
    exact ih (fun j hj1 hj2 => h j hj1 (by omega))

theorem regex_run_nil : regex_run [] [] = some [] := rfl

theorem regex_run_tail (s : List Char) : regex_run [Piece.any_star] s = some [] := by
  show first_down (fun n => regex_run [] (s.drop n)) s.length = some []
  apply first_down_hit
  simp [regex_run]

theorem regex_run_lit (l : List Char) (rest : List Piece) (s : List Char) :
    regex_run (Piece.lit l :: rest) (l ++ s) = regex_run rest s := by
  have h : l.isPrefixOf (l ++ s) = true := by
    rw [ List.isPrefixOf_iff_prefix]
    exact List.prefix_append l s
  simp [regex_run, h]

theorem regex_run_lit_none (l : List Char) (rest : List Piece) (s : List Char)
    (h : l.isPrefixOf s = false) : regex_run (Piece.lit l :: rest) s = none := by
  simp [regex_run, h]

theorem takeWhile_stops (p : Char → Bool) (x s : List Char) (hx : x.all p = true)
    (hs : stops p s = true) : (x ++ s).takeWhile p = x := by
  induction x with
  | nil =>
    cases s with
    | nil => rfl
    | cons c t =>
      simp only [stops, Bool.not_eq_true'] at hs
      simp [List.takeWhile, hs]
  | cons a x ih =>
    simp only [List.all_cons, Bool.and_eq_true] at hx
    simp [List.takeWhile, hx.1, ih hx.2]

theorem regex_run_group (p : Char → Bool) (x : List Char) (rest : List Piece) (s : List Char)
    (caps : List (List Char)) (hne : x ≠ []) (hx : x.all p = true) (hs : stops p s = true)
    (h : regex_run rest s = some caps) :
    regex_run (Piece.group_plus p :: rest) (x ++ s) = some (x :: caps) := by
  obtain ⟨m, hm⟩ : ∃ m, x.length = m + 1 := by
    cases x with
    | nil => exact absurd rfl hne
    | cons a t => exact ⟨t.length, rfl⟩
  have hl : ((x ++ s).takeWhile p).length = m + 1 := by
    rw [takeWhile_stops p x s hx hs, hm]
  show (match ((x ++ s).takeWhile p).length with
    | 0 => none
    | m + 1 => first_down (fun n => (regex_run rest ((x ++ s).drop (n + 1))).map
        (fun caps => (x ++ s).take (n + 1) :: caps)) m) = _
  rw [hl]
  apply first_down_hit
  rw [← hm]
  simp [h]

theorem regex_run_class (p : Char → Bool) (ws : List Char) (rest : List Piece) (s : List Char)
    (caps : List (List Char)) (hw : ws.all p = true) (hs : stops p s = true)
    (h : regex_run rest s = some caps) :
    regex_run (Piece.class_star p :: rest) (ws ++ s) = some caps := by
  show first_down (fun n => regex_run rest ((ws ++ s).drop n)) ((ws ++ s).takeWhile p).length = _
  rw [takeWhile_stops p ws s hw hs]
  apply first_down_hit
  simp [h]

theorem regex_run_last (rest : List Piece) (pre s : List Char) (caps : List (List Char))
    (h : regex_run rest s = some caps)
    (hlater : ∀ j, pre.length < j → j ≤ (pre ++ s).length →
      regex_run rest ((pre ++ s).drop j) = none) :
    regex_run (Piece.any_star :: rest) (pre ++ s) = some caps := by
  show first_down (fun n => regex_run rest ((pre ++ s).drop n)) (pre ++ s).length = _
  have hlen : (pre ++ s).length = pre.length + s.length := List.length_append _ _
  rw [hlen, first_down_skip _ pre.length s.length (fun j h1 h2 => hlater j h1 (by omega))]
  apply first_down_hit
  simp [h]

theorem none_after_spec (l s : List Char) (k : Nat) (h : none_after l s k = true) (j : Nat)
    (h1 : k < j) (h2 : j ≤ s.length) : l.isPrefixOf (s.drop j) = false := by
  unfold none_after at h
  rw [List.all_eq_true] at h
  have := h (j - (k + 1)) (by rw [List.mem_range]; omega)
  simp only [starts_at, Bool.not_eq_true'] at this
  rw [show k + 1 + (j - (k + 1)) = j by omega] at this
  exact this

end MatchLemmas
section PatternLemmas

theorem number_text_iff (x : List Char) :
    is_number_text x = true ↔ x ≠ [] ∧ x.all is_number_char = true := by
  cases x <;> simp [is_number_text]

/-- The pattern of `translate` on a string whose last `translate(` begins a text
`translate(x y)`: the marked sub-expressions are `x` and `y`. -/
theorem translate_captures (pre x y post : List Char) (hx : is_number_text x = true)
    (hy : is_number_text y = true)
    (hlast : none_after "translate(".toList (pre ++ (translate_text x y ++ post)) pre.length = true) :
    regex_match regex_translate (pre ++ (translate_text x y ++ post)) =
      some [pre ++ (translate_text x y ++ post), x, y] := by
  rw [number_text_iff] at hx hy
  have h : regex_run [Piece.lit "translate(".toList, Piece.group_plus is_number_char,
      Piece.lit " ".toList, Piece.group_plus is_number_char, Piece.lit ")".toList,
      Piece.any_star] (translate_text x y ++ post) = some [x, y] := by
    have e : translate_text x y ++ post =
        "translate(".toList ++ (x ++ (" ".toList ++ (y ++ (")".toList ++ post)))) := by
      simp [translate_text]
    rw [e, regex_run_lit]
    refine regex_run_group _ _ _ _ _ hx.1 hx.2 ?_ ?_
    · rfl
    rw [regex_run_lit]
    refine regex_run_group _ _ _ _ _ hy.1 hy.2 ?_ ?_
    · rfl
    rw [regex_run_lit]
    exact regex_run_tail post
  have h2 := regex_run_last _ pre _ _ h (fun j h1 h2 =>
    regex_run_lit_none _ _ _ (none_after_spec _ _ _ hlast j h1 h2))
  unfold regex_match regex_translate
  rw [h2]
  rfl

/-- The pattern of `rotate` on a string whose last `rotate(` begins a text
`rotate(a)`: the marked sub-expression is `a`. -/
theorem rotate_captures (pre a post : List Char) (ha : is_number_text a = true)
    (hlast : none_after "rotate(".toList (pre ++ (rotate_text a ++ post)) pre.length = true) :
    regex_match regex_rotate (pre ++ (rotate_text a ++ post)) =
      some [pre ++ (rotate_text a ++ post), a] := by
  rw [number_text_iff] at ha
  have h : regex_run [Piece.lit "rotate(".toList, Piece.group_plus is_number_char,
      Piece.lit ")".toList, Piece.any_star] (rotate_text a ++ post) = some [a] := by
    have e : rotate_text a ++ post = "rotate(".toList ++ (a ++ (")".toList ++ post)) := by
      simp [rotate_text]
    rw [e, regex_run_lit]
    refine regex_run_group _ _ _ _ _ ha.1 ha.2 ?_ ?_
    · rfl
    rw [regex_run_lit]
    exact regex_run_tail post
  have h2 := regex_run_last _ pre _ _ h (fun j h1 h2 =>
    regex_run_lit_none _ _ _ (none_after_spec _ _ _ hlast j h1 h2))
  unfold regex_match regex_rotate
  rw [h2]
  rfl

/-- The pattern of the fill colour on a string whose last `fill:` is followed by white
space, `#` and the run `ds` of hexadecimal digits: the marked sub-expression is `ds`. -/
theorem fill_captures (pre ws ds post : List Char) (hw : ws.all is_space = true)
    (hne : ds ≠ []) (hd : ds.all is_hex_char = true) (hp : stops is_hex_char post = true)
    (hlast : none_after "fill:".toList (pre ++ (fill_text ws ds ++ post)) pre.length = true) :
    regex_match regex_fill_color (pre ++ (fill_text ws ds ++ post)) =
      some [pre ++ (fill_text ws ds ++ post), ds] := by
  have h : regex_run [Piece.lit "fill:".toList, Piece.class_star is_space,
      Piece.lit "#".toList, Piece.group_plus is_hex_char, Piece.any_star]
      (fill_text ws ds ++ post) = some [ds] := by
    have e : fill_text ws ds ++ post = "fill:".toList ++ (ws ++ ("#".toList ++ (ds ++ post))) := by
      simp [fill_text]
    rw [e, regex_run_lit]
    refine regex_run_class _ _ _ _ _ hw ?_ ?_
    · rfl
    rw [regex_run_lit]
    apply regex_run_group _ _ _ _ _ hne hd hp
    exact regex_run_tail post
  have h2 := regex_run_last _ pre _ _ h (fun j h1 h2 =>
    regex_run_lit_none _ _ _ (none_after_spec _ _ _ hlast j h1 h2))
  unfold regex_match regex_fill_color
  rw [h2]
  rfl

end PatternLemmas
section FillLemmas

variable {α : Type}

theorem find_fill_color_nil (shape : Shape α) : find_fill_color shape [] = .ok shape := rfl

theorem hex_value_f : hex_digit_value 'f' = 15 := by decide

theorem strtol16_pair (d e : Char) (hd : is_hex_char d = true) (he : is_hex_char e = true) :
    strtol16 [d, e] = 16 * hex_digit_value d + hex_digit_value e := by
  simp [strtol16, List.takeWhile, hd, he]

theorem color_new_six (d1 d2 d3 d4 d5 d6 : Char) (h1 : is_hex_char d1 = true)
    (h2 : is_hex_char d2 = true) (h3 : is_hex_char d3 = true) (h4 : is_hex_char d4 = true)
    (h5 : is_hex_char d5 = true) (h6 : is_hex_char d6 = true) :
    Color.new [d1, d2, d3, d4, d5, d6] =
      .ok { r := 16 * hex_digit_value d1 + hex_digit_value d2,
            g := 16 * hex_digit_value d3 + hex_digit_value d4,
            b := 16 * hex_digit_value d5 + hex_digit_value d6,
            hexcode := [d1, d2, d3, d4, d5, d6] } := by
  have e1 : substr [d1, d2, d3, d4, d5, d6] 0 2 = .ok [d1, d2] := rfl
  have e2 : substr [d1, d2, d3, d4, d5, d6] 2 2 = .ok [d3, d4] := rfl
  have e3 : substr [d1, d2, d3, d4, d5, d6] 4 2 = .ok [d5, d6] := rfl
  have g : ∀ d e : Char, is_hex_char d = true → is_hex_char e = true →
      hex2int [d, e] = .ok (16 * hex_digit_value d + hex_digit_value e) := by
    intro d e hd he
    simp [hex2int, strtol16_pair d e hd he]
  unfold Color.new
  rw [e1, ok_bind, g d1 d2 h1 h2, ok_bind, e2, ok_bind, g d3 d4 h3 h4, ok_bind, e3, ok_bind,
    g d5 d6 h5 h6, ok_bind]

theorem find_fill_color_short (shape : Shape α) (pre ws post : List Char) (d1 d2 d3 : Char)
    (hw : ws.all is_space = true) (h1 : is_hex_char d1 = true) (h2 : is_hex_char d2 = true)
    (h3 : is_hex_char d3 = true) (hp : stops is_hex_char post = true)
    (hlast : none_after "fill:".toList (pre ++ (fill_text ws [d1, d2, d3] ++ post))
      pre.length = true) :
    find_fill_color shape (pre ++ (fill_text ws [d1, d2, d3] ++ post)) =
      .ok (shape.set_color
        { r := 16 * hex_digit_value d1 + 15, g := 16 * hex_digit_value d2 + 15,
          b := 16 * hex_digit_value d3 + 15, hexcode := [d1, 'f', d2, 'f', d3, 'f'] }) := by
  unfold find_fill_color
  rw [fill_captures pre ws [d1, d2, d3] post hw (by simp) (by simp [h1, h2, h3]) hp hlast]
  simp only [List.getD_cons_succ, List.getD_cons_zero, expand_hex]
  rw [color_new_six d1 'f' d2 'f' d3 'f' h1 (by decide) h2 (by decide) h3 (by decide), hex_value_f]
  rfl

end FillLemmas

section TransformationLemmas

variable {α : Type} [LinearOrderedField α]

theorem numeral_number_text (s : List Char) (h : is_numeral s = true) :
    is_number_text s = true := by
  rw [number_text_iff]
  refine ⟨is_numeral_ne_nil s h, ?_⟩
  have hu : ∀ t, is_unsigned_numeral t = true → ∀ c ∈ t, is_number_char c = true := by
    intro t ht c hc
    simp only [is_unsigned_numeral, Bool.and_eq_true, List.all_eq_true, Bool.or_eq_true,
      beq_iff_eq] at ht
    rcases ht.1.1 c hc with hd | rfl
    · simp [is_number_char, hd]
    · decide
  rw [List.all_eq_true]
  rcases is_numeral_cases s h with ⟨t, rfl, ht⟩ | ⟨c, t, rfl, _, _, hs⟩
  · intro c hc
    rcases List.mem_cons.1 hc with rfl | hc
    · decide
    · exact hu t ht c hc
  · exact hu _ hs

theorem find_translate_last (shape : Shape α) (pre x y post : List Char)
    (hx : is_numeral x = true) (hy : is_numeral y = true)
    (hlast : none_after "translate(".toList (pre ++ (translate_text x y ++ post)) pre.length = true) :
    find_translate shape (pre ++ (translate_text x y ++ post)) =
      .ok (shape.set_translate (numeral_value x) (numeral_value y)) := by
  unfold find_translate
  rw [translate_captures pre x y post (numeral_number_text x hx) (numeral_number_text y hy) hlast]
  simp only [cast_match, List.getD_cons_succ, List.getD_cons_zero, lexical_cast_numeral x hx,
    lexical_cast_numeral y hy]
  rfl

theorem find_rotate_last (T : Trig α) (shape : Shape α) (pre a post : List Char)
    (ha : is_numeral a = true)
    (hlast : none_after "rotate(".toList (pre ++ (rotate_text a ++ post)) pre.length = true) :
    find_rotate T shape (pre ++ (rotate_text a ++ post)) =
      .ok (shape.set_rotate T (numeral_value a)) := by
  unfold find_rotate
  rw [rotate_captures pre a post (numeral_number_text a ha) hlast]
  simp only [cast_match, List.getD_cons_succ, List.getD_cons_zero, lexical_cast_numeral a ha]
  rfl

theorem find_translate_nil (shape : Shape α) : find_translate shape [] = .ok shape := rfl

theorem find_rotate_nil (T : Trig α) (shape : Shape α) : find_rotate T shape [] = .ok shape := rfl

theorem find_transformations_eq (T : Trig α) (shape : Shape α) (transform style : List Char) :
    find_transformations T shape transform style =
      (find_translate shape transform >>= fun s1 => find_rotate T s1 transform >>= fun s2 =>
        find_fill_color s2 style) := rfl

theorem find_transformations_style (T : Trig α) (shape sh1 : Shape α)
    (transform style : List Char) (h : find_transformations T shape transform [] = .ok sh1) :
    find_transformations T shape transform style = find_fill_color sh1 style := by
  rw [find_transformations_eq] at h ⊢
  obtain ⟨s1, h1, h2⟩ := bind_eq_ok h
  obtain ⟨s2, h3, h4⟩ := bind_eq_ok h2
  rw [find_fill_color_nil] at h4
  cases h4
  rw [h1, ok_bind, h3, ok_bind]

end TransformationLemmas
section RelativeLemmas

variable {α : Type} [LinearOrderedField α]

theorem get_current_point_at (cr : Cairo α) (h : cr.ctm.det ≠ 0) (q : α × α)
    (hq : cr.current = some (cr.ctm.apply q)) : cairo_get_current_point cr = q := by
  rw [cairo_get_current_point, hq]
  exact Ctm.unapply_apply cr.ctm h q

theorem loop_m_pairs (ds : List (α × α)) (cr : Cairo α) (q : α × α) (h : cr.ctm.det ≠ 0)
    (hq : cr.current = some (cr.ctm.apply q)) :
    loop_m ((ds.map (fun d => [d.1, d.2])).flatten) cr =
      .ok ((relative_points q ds).foldl (fun cr p => cairo_line_to cr p.1 p.2) cr) := by
  induction ds generalizing cr q with
  | nil => rfl
  | cons d ds ih =>
    simp only [List.map_cons, List.flatten_cons, List.cons_append, List.nil_append, loop_m,
      relative_points, List.foldl_cons]
    rw [get_current_point_at cr h q hq]
    exact ih (cairo_line_to cr (q.1 + d.1) (q.2 + d.2)) (q.1 + d.1, q.2 + d.2) h rfl

theorem relative_points_last (c : α × α) (ds : List (α × α)) :
    (c :: relative_points c ds).getLast (by simp) = offset_sum c ds := by
  induction ds generalizing c with
  | nil => rfl
  | cons d ds ih =>
    rw [relative_points, List.getLast_cons (by simp)]
    exact ih (c.1 + d.1, c.2 + d.2)

end RelativeLemmas

section RelativeCommand

variable {α : Type} [LinearOrderedField α] [FloorRing α]

theorem execute_m_pairs (T : Trig α) (d1 : α × α) (ds : List (α × α)) (cr : Cairo α)
    (h : cr.ctm.det ≠ 0) :
    execute_operand T 'm' (d1.1 :: d1.2 :: (ds.map (fun d => [d.1, d.2])).flatten) cr =
      .ok (polyline cr
        ((cairo_get_current_point cr).1 + d1.1, (cairo_get_current_point cr).2 + d1.2)
        (relative_points
          ((cairo_get_current_point cr).1 + d1.1, (cairo_get_current_point cr).2 + d1.2) ds)) := by
  show case_m _ cr = _
  simp only [case_m, index, List.getElem?_cons_zero, List.getElem?_cons_succ, ok_bind,
    List.drop_succ_cons, List.drop_zero]
  exact loop_m_pairs ds (cairo_move_to cr _ _) _ h rfl

end RelativeCommand

section EllipseFrame

/-- For two distinct points the start point in the frame of the ellipse is not the
origin. -/
theorem frame_point_ne (x1 y1 x2 y2 fa fs rx ry phi : ℝ) (hne : ¬ (x1 = x2 ∧ y1 = y2)) :
    ¬ ((arc_frame Trig.real x1 y1 x2 y2 fa fs rx ry phi).x1p = 0 ∧
      (arc_frame Trig.real x1 y1 x2 y2 fa fs rx ry phi).y1p = 0) := by
  obtain ⟨e1, e2, _, _, _⟩ := arc_frame_eqs Trig.real x1 y1 x2 y2 fa fs rx ry phi
  rintro ⟨p1, p2⟩
  rw [e1] at p1
  rw [e2] at p2
  have hcs : Real.cos phi * Real.cos phi + Real.sin phi * Real.sin phi = 1 := by
    have := Real.cos_sq_add_sin_sq phi
    rw [pow_two, pow_two] at this
    exact this
  have p1b : Real.cos phi * ((x1 - x2) / 2) + Real.sin phi * ((y1 - y2) / 2) = 0 := p1
  have p2b : -Real.sin phi * ((x1 - x2) / 2) + Real.cos phi * ((y1 - y2) / 2) = 0 := p2
  have ha : (x1 - x2) / 2 = 0 := by
    linear_combination Real.cos phi * p1b - Real.sin phi * p2b - ((x1 - x2) / 2) * hcs
  have hb : (y1 - y2) / 2 = 0 := by
    linear_combination Real.sin phi * p1b + Real.cos phi * p2b - ((y1 - y2) / 2) * hcs
  exact hne ⟨by linarith, by linarith⟩

/-- The radii after the check of `endpoint_to_center`: they are positive, and the
start point in the frame of the ellipse is inside or on the ellipse they describe; it
is on it when the radii have been scaled. -/
theorem frame_radii (x1 y1 x2 y2 fa fs rx ry phi : ℝ) (hrx : rx ≠ 0) (hry : ry ≠ 0) :
    0 < (arc_frame Trig.real x1 y1 x2 y2 fa fs rx ry phi).rx ∧
    0 < (arc_frame Trig.real x1 y1 x2 y2 fa fs rx ry phi).ry ∧
    (arc_frame Trig.real x1 y1 x2 y2 fa fs rx ry phi).denominator ≤
      (arc_frame Trig.real x1 y1 x2 y2 fa fs rx ry phi).rx *
        (arc_frame Trig.real x1 y1 x2 y2 fa fs rx ry phi).rx *
        ((arc_frame Trig.real x1 y1 x2 y2 fa fs rx ry phi).ry *
          (arc_frame Trig.real x1 y1 x2 y2 fa fs rx ry phi).ry) ∧
    ((arc_frame Trig.real x1 y1 x2 y2 fa fs rx ry phi).radii_check > 1 →
      (arc_frame Trig.real x1 y1 x2 y2 fa fs rx ry phi).denominator =
        (arc_frame Trig.real x1 y1 x2 y2 fa fs rx ry phi).rx *
          (arc_frame Trig.real x1 y1 x2 y2 fa fs rx ry phi).rx *
          ((arc_frame Trig.real x1 y1 x2 y2 fa fs rx ry phi).ry *
            (arc_frame Trig.real x1 y1 x2 y2 fa fs rx ry phi).ry)) := by
  obtain ⟨_, _, e3, e4, e5⟩ := arc_frame_eqs Trig.real x1 y1 x2 y2 fa fs rx ry phi
  obtain ⟨e6, _, _, _, _⟩ := arc_frame_centre Trig.real x1 y1 x2 y2 fa fs rx ry phi
  generalize arc_frame Trig.real x1 y1 x2 y2 fa fs rx ry phi = f at *
  have hax : 0 < |rx| := abs_pos.2 hrx
  have hay : 0 < |ry| := abs_pos.2 hry
  generalize |rx| = X0 at *
  generalize |ry| = Y0 at *
  have hX : X0 ≠ 0 := ne_of_gt hax
  have hY : Y0 ≠ 0 := ne_of_gt hay
  -- the check, cleared of its divisions
  have hc : f.radii_check * (X0 * X0 * (Y0 * Y0)) =
      X0 * X0 * (f.y1p * f.y1p) + Y0 * Y0 * (f.x1p * f.x1p) := by
    rw [e3]; field_simp; ring
  have hpp : 0 < X0 * X0 * (Y0 * Y0) := mul_pos (mul_pos hax hax) (mul_pos hay hay)
  by_cases h : f.radii_check > 1
  · have hs0 : 0 < Real.sqrt f.radii_check := Real.sqrt_pos.2 (lt_trans zero_lt_one h)
    have hss : Real.sqrt f.radii_check * Real.sqrt f.radii_check = f.radii_check :=
      Real.mul_self_sqrt (le_of_lt (lt_trans zero_lt_one h))
    have ex : f.rx = Real.sqrt f.radii_check * X0 := by rw [e4, if_pos h]; rfl
    have ey : f.ry = Real.sqrt f.radii_check * Y0 := by rw [e5, if_pos h]; rfl
    have hd : f.denominator = f.rx * f.rx * (f.ry * f.ry) := by
      rw [e6, ex, ey]
      generalize Real.sqrt f.radii_check = s at *
      generalize f.radii_check = L at *
      linear_combination (-(s * s)) * hc - (s * s * (X0 * X0 * (Y0 * Y0))) * hss
    refine ⟨?_, ?_, le_of_eq hd, fun _ => hd⟩
    · rw [ex]; exact mul_pos hs0 hax
    · rw [ey]; exact mul_pos hs0 hay
  · have ex : f.rx = X0 := by rw [e4, if_neg h]
    have ey : f.ry = Y0 := by rw [e5, if_neg h]
    refine ⟨by rw [ex]; exact hax, by rw [ey]; exact hay, ?_, fun h2 => absurd h2 h⟩
    rw [e6, ex, ey, ← hc]
    have h1 : f.radii_check ≤ 1 := not_lt.1 h
    calc f.radii_check * (X0 * X0 * (Y0 * Y0)) ≤ 1 * (X0 * X0 * (Y0 * Y0)) :=
          mul_le_mul_of_nonneg_right h1 hpp.le
      _ = X0 * X0 * (Y0 * Y0) := one_mul _

end EllipseFrame
section EllipseUnit

/-- The square of `coef` in `endpoint_to_center`, for two distinct points and radii
that are not zero: `coef^2 * (Prx*Py1 + Pry*Px1) = Prx*Pry - Prx*Py1 - Pry*Px1`. -/
theorem frame_coef (x1 y1 x2 y2 fa fs rx ry phi : ℝ) (hne : ¬ (x1 = x2 ∧ y1 = y2))
    (hrx : rx ≠ 0) (hry : ry ≠ 0) :
    (arc_frame Trig.real x1 y1 x2 y2 fa fs rx ry phi).coef *
        (arc_frame Trig.real x1 y1 x2 y2 fa fs rx ry phi).coef *
        (arc_frame Trig.real x1 y1 x2 y2 fa fs rx ry phi).denominator =
      (arc_frame Trig.real x1 y1 x2 y2 fa fs rx ry phi).rx *
          (arc_frame Trig.real x1 y1 x2 y2 fa fs rx ry phi).rx *
          ((arc_frame Trig.real x1 y1 x2 y2 fa fs rx ry phi).ry *
            (arc_frame Trig.real x1 y1 x2 y2 fa fs rx ry phi).ry)
        - (arc_frame Trig.real x1 y1 x2 y2 fa fs rx ry phi).denominator ∧
    ((arc_frame Trig.real x1 y1 x2 y2 fa fs rx ry phi).radii_check > 1 →
      (arc_frame Trig.real x1 y1 x2 y2 fa fs rx ry phi).coef = 0) := by
  obtain ⟨_, _, hden, _, _, _, _⟩ := divisors_nonzero x1 y1 x2 y2 fa fs rx ry phi hne hrx hry
  obtain ⟨_, _, hle, heq⟩ := frame_radii x1 y1 x2 y2 fa fs rx ry phi hrx hry
  obtain ⟨e6, e7, e8, _, _⟩ := arc_frame_centre Trig.real x1 y1 x2 y2 fa fs rx ry phi
  generalize arc_frame Trig.real x1 y1 x2 y2 fa fs rx ry phi = f at *
  have hdpos : 0 < f.denominator := by
    rcases lt_or_gt_of_ne hden with h | h
    · exfalso
      rw [e6] at h
      have := add_nonneg (mul_nonneg (mul_self_nonneg f.rx) (mul_self_nonneg f.y1p))
        (mul_nonneg (mul_self_nonneg f.ry) (mul_self_nonneg f.x1p))
      exact absurd h (not_lt.2 this)
    · exact h
  have hnum : f.rx * f.rx * (f.ry * f.ry) - f.rx * f.rx * (f.y1p * f.y1p)
      - f.ry * f.ry * (f.x1p * f.x1p) = f.rx * f.rx * (f.ry * f.ry) - f.denominator := by
    rw [e6]; ring
  rw [hnum] at e7
  have hq : 0 ≤ (f.rx * f.rx * (f.ry * f.ry) - f.denominator) / f.denominator :=
    div_nonneg (sub_nonneg.2 hle) hdpos.le
  have hsq : f.sq = (f.rx * f.rx * (f.ry * f.ry) - f.denominator) / f.denominator := by
    rw [e7, if_neg (not_lt.2 hq)]
  have hsq0 : 0 ≤ f.sq := by rw [hsq]; exact hq
  have h1 : f.coef * f.coef = f.sq := by
    rw [e8]
    show _ * Real.sqrt f.sq * (_ * Real.sqrt f.sq) = _
    have h2 := Real.mul_self_sqrt hsq0
    split
    · linear_combination h2
    · linear_combination h2
  constructor
  · rw [h1, hsq]
    exact div_mul_cancel₀ _ hden
  · intro h
    have h0 : f.sq = 0 := by
      rw [hsq, heq h, sub_self, zero_div]
    rw [e8, h0]
    show _ * Real.sqrt 0 = 0
    rw [Real.sqrt_zero, mul_zero]

/-- For two distinct points and radii that are not zero, the vectors `u` and `v` of
`endpoint_to_center` are unit vectors over the real numbers. -/
theorem frame_unit (x1 y1 x2 y2 fa fs rx ry phi : ℝ) (hne : ¬ (x1 = x2 ∧ y1 = y2))
    (hrx : rx ≠ 0) (hry : ry ≠ 0) :
    (arc_frame Trig.real x1 y1 x2 y2 fa fs rx ry phi).ux *
        (arc_frame Trig.real x1 y1 x2 y2 fa fs rx ry phi).ux
      + (arc_frame Trig.real x1 y1 x2 y2 fa fs rx ry phi).uy *
        (arc_frame Trig.real x1 y1 x2 y2 fa fs rx ry phi).uy = 1 ∧
    (arc_frame Trig.real x1 y1 x2 y2 fa fs rx ry phi).vx *
        (arc_frame Trig.real x1 y1 x2 y2 fa fs rx ry phi).vx
      + (arc_frame Trig.real x1 y1 x2 y2 fa fs rx ry phi).vy *
        (arc_frame Trig.real x1 y1 x2 y2 fa fs rx ry phi).vy = 1 := by
  obtain ⟨hc, _⟩ := frame_coef x1 y1 x2 y2 fa fs rx ry phi hne hrx hry
  obtain ⟨hx, hy, _, _⟩ := frame_radii x1 y1 x2 y2 fa fs rx ry phi hrx hry
  obtain ⟨e6, _, _, e9, e10⟩ := arc_frame_centre Trig.real x1 y1 x2 y2 fa fs rx ry phi
  obtain ⟨e11, e12, e13, e14, _, _⟩ := arc_frame_vectors Trig.real x1 y1 x2 y2 fa fs rx ry phi
  generalize arc_frame Trig.real x1 y1 x2 y2 fa fs rx ry phi = f at *
  have hX : f.rx ≠ 0 := ne_of_gt hx
  have hY : f.ry ≠ 0 := ne_of_gt hy
  rw [e6] at hc
  constructor
  · rw [e11, e12, e9, e10]
    field_simp
    linear_combination (f.rx * f.rx * (f.ry * f.ry)) * hc
  · rw [e13, e14, e9, e10]
    field_simp
    linear_combination (f.rx * f.rx * (f.ry * f.ry)) * hc

end EllipseUnit

section ReadLemmas

variable {α : Type}

theorem read_of_index (beyond : Nat → α) (coord : List α) (i : Nat) (v : α)
    (h : index coord i = .ok v) : read_unchecked beyond coord i = v := by
  unfold index at h
  unfold read_unchecked
  cases hc : coord[i]? with
  | none => rw [hc] at h; cases h
  | some w => rw [hc] at h; cases h; rfl

end ReadLemmas

section UncheckedLemmas

variable {α : Type} [LinearOrderedField α] [FloorRing α]

end UncheckedLemmas

/-! ## The claims -/

section DrawClaims

variable {α : Type} [LinearOrderedField α] [FloorRing α]

/-- C1: on a path string that starts with a letter and whose argument texts all
tokenize (to the commands `cmds`), `Path::draw` runs one command per letter, in the
order of the letters, each on the numbers tokenized from the characters between its
letter and the next one; a command that reads past its arguments ends the run at
that command.  Right after the finalize triggered by a letter `nxt` the commands
written before `nxt` have been run, the buffer is empty and the pending operand is
`nxt`; after the last finalize the operand is `'\0'` again. -/
theorem C1_draw_runs_commands (T : Trig α) (s : Shape α) (l : Char) (rest : List Char)
    (cmds : List (Char × List α)) (cr : Cairo α) (hl : is_letter l = true)
    (htok : tokenize_segments (segments (l :: rest)) = .ok cmds) :
    cmds.map Prod.fst = (l :: rest).filter is_letter ∧
    (Path.fresh s (l :: rest)).interpret T cr =
      (run_commands T cmds cr).map (fun cr1 => (Path.fresh s (l :: rest), cr1)) ∧
    (Path.fresh s (l :: rest)).draw T cr =
      (run_commands T cmds (cairo_set_color s cr)).map
        (fun cr1 => (Path.fresh s (l :: rest), cairo_fill (cairo_close_path cr1))) ∧
    ∀ pre nxt post, l :: rest = pre ++ nxt :: post → pre ≠ [] → is_letter nxt = true →
      (pre ++ [nxt]).foldlM (draw_char T) (Path.fresh s (l :: rest), cr) =
        (run_commands T (cmds.take (pre.filter is_letter).length) cr).map
          (fun cr1 =>
            ({ Path.fresh s (l :: rest) with operand := nxt, coordinates := [] }, cr1)) := by
  have hint : ∀ cr0 : Cairo α, (Path.fresh s (l :: rest)).interpret T cr0 =
      (run_commands T cmds cr0).map (fun cr1 => (Path.fresh s (l :: rest), cr1)) := by
    intro cr0
    rw [interpret_segments T s l rest hl cr0, run_segments_tokenized T _ cmds htok]
  refine ⟨?_, hint cr, ?_, ?_⟩
  · rw [tokenize_segments_letters _ cmds htok, segments_letters]
  · unfold Path.draw
    rw [show (Path.fresh s (l :: rest)).toShape = s from rfl, hint]
    cases run_commands T cmds (cairo_set_color s cr) <;> rfl
  · intro pre nxt post hsplit hpre hn
    obtain ⟨c, pre1, rfl⟩ := List.exists_cons_of_ne_nil hpre
    have hc : c = l := by
      have := congrArg List.head? hsplit
      simpa using this.symm
    subst hc
    rw [loop_after_letter T s _ c pre1 nxt hl hn cr]
    have hseg : segments (c :: rest) = segments (c :: pre1) ++ segments (nxt :: post) := by
      rw [hsplit, segments_append_letter _ _ _ hn]
    rw [hseg] at htok
    have htake := tokenize_segments_take _ _ cmds htok
    rw [run_segments_tokenized T _ _ htake]
    have hlen : (segments (c :: pre1)).length = ((c :: pre1).filter is_letter).length := by
      rw [← segments_letters, List.length_map]
    rw [hlen]

/-- C1 (witness): the path `M1 2L3 4` over the real numbers. -/
theorem C1_draw_runs_commands_witness :
    is_letter 'M' = true ∧
    (tokenize_segments (segments "M1 2L3 4".toList) : Except Err (List (Char × List ℝ)))
      = .ok [('M', [1, 2]), ('L', [3, 4])] ∧
    (Path.fresh (⟨none, none, Color.black⟩ : Shape ℝ) "M1 2L3 4".toList).draw Trig.real Cairo.init =
      (run_commands Trig.real [('M', [1, 2]), ('L', [3, 4])]
        (cairo_set_color ⟨none, none, Color.black⟩ Cairo.init)).map
        (fun cr1 => (Path.fresh ⟨none, none, Color.black⟩ "M1 2L3 4".toList,
          cairo_fill (cairo_close_path cr1))) :=
  have h1 : is_letter 'M' = true := by decide
  have h2 : (tokenize_segments (segments "M1 2L3 4".toList) :
      Except Err (List (Char × List ℝ))) = .ok [('M', [1, 2]), ('L', [3, 4])] := by
    have e : (tokenize_segments (segments "M1 2L3 4".toList) :
        Except Err (List (Char × List ℝ))) =
        .ok [('M', [numeral_value "1".toList, numeral_value "2".toList]),
          ('L', [numeral_value "3".toList, numeral_value "4".toList])] := rfl
    rw [e]
    simp [numeral_value, unsigned_value, decimal_value, digits_value]
  ⟨h1, h2, (C1_draw_runs_commands Trig.real ⟨none, none, Color.black⟩ 'M' "1 2L3 4".toList
    [('M', [1, 2]), ('L', [3, 4])] Cairo.init h1 h2).2.2.1⟩

end DrawClaims

section TokenizerClaims

variable {α : Type} [LinearOrderedField α]

/-- C2: for non-empty digit strings `a`, `b`, `c`, `d` the tokenizer turns the text
`a-b.c.d` into the three numbers `a`, `-(b.c)`, `0.d`, in that order; `10-20.5.5`
gives `[10, -20.5, 0.5]` and `1-2` gives `[1, -2]`. -/
theorem C2_tokenize_compact (a b c d : List Char)
    (ha : is_digits a = true) (hb : is_digits b = true)
    (hc : is_digits c = true) (hd : is_digits d = true) :
    (parse_coordinates (a ++ '-' :: (b ++ '.' :: (c ++ '.' :: d))) : Except Err (List α)) =
      .ok [(digits_value a : α),
           -((digits_value b : α) + (digits_value c : α) / 10 ^ c.length),
           (digits_value d : α) / 10 ^ d.length] ∧
    (parse_coordinates "10-20.5.5".toList : Except Err (List α)) = .ok [10, -20.5, 0.5] ∧
    (parse_coordinates "1-2".toList : Except Err (List α)) = .ok [1, -2] := by
  refine ⟨tokenize_compact a b c d ha hb hc hd, ?_, ?_⟩
  · have e : (parse_coordinates "10-20.5.5".toList : Except Err (List α)) =
        .ok [numeral_value "10".toList, numeral_value "-20.5".toList,
          numeral_value ".5".toList] := rfl
    rw [e]
    simp [numeral_value, unsigned_value, decimal_value, digits_value]
    norm_num
  · have e : (parse_coordinates "1-2".toList : Except Err (List α)) =
        .ok [numeral_value "1".toList, numeral_value "-2".toList] := rfl
    rw [e]
    simp [numeral_value, unsigned_value, decimal_value, digits_value]

/-- C2 (witness): the digit strings `10`, `20`, `5`, `5` over the rationals. -/
theorem C2_tokenize_compact_witness :
    is_digits "10".toList = true ∧ is_digits "20".toList = true ∧
    is_digits "5".toList = true ∧ is_digits "5".toList = true ∧
    (parse_coordinates ("10".toList ++ '-' :: ("20".toList ++ '.' :: ("5".toList ++ '.' :: "5".toList))) :
        Except Err (List ℚ)) =
      .ok [(digits_value "10".toList : ℚ),
           -((digits_value "20".toList : ℚ) + (digits_value "5".toList : ℚ) / 10 ^ "5".toList.length),
           (digits_value "5".toList : ℚ) / 10 ^ "5".toList.length] :=
  ⟨by decide, by decide, by decide, by decide,
    (C2_tokenize_compact "10".toList "20".toList "5".toList "5".toList
      (by decide) (by decide) (by decide) (by decide)).1⟩

/-- C3: numerals (an optional `-`, digits, at most one `.`) joined by runs of `,`
and space, with optional leading and trailing runs, are tokenized to the list of
their values in order; the empty string and a string of separators only give the
empty sequence; `1,2 3,4` gives `[1, 2, 3, 4]`. -/
theorem C3_tokenize_separated (lead : List Char) (items : List (List Char × List Char))
    (hl : lead.all is_separator = true) (hi : well_separated items = true) :
    (parse_coordinates (joined lead items) : Except Err (List α))
      = .ok (items.map (fun it => numeral_value it.1)) ∧
    (parse_coordinates [] : Except Err (List α)) = .ok [] ∧
    (parse_coordinates lead : Except Err (List α)) = .ok [] ∧
    (parse_coordinates "1,2 3,4".toList : Except Err (List α)) = .ok [1, 2, 3, 4] := by
  have hl2 : ∀ c ∈ lead, is_separator c = true := by simpa using hl
  refine ⟨parse_joined lead items hl2 hi, rfl, ?_, ?_⟩
  · have h0 : (parse_coordinates (joined lead []) : Except Err (List α)) = _ :=
      parse_joined lead [] hl2 rfl
    simpa [joined] using h0
  · have e : (parse_coordinates "1,2 3,4".toList : Except Err (List α)) =
        .ok [numeral_value "1".toList, numeral_value "2".toList, numeral_value "3".toList,
          numeral_value "4".toList] := rfl
    rw [e]
    simp [numeral_value, unsigned_value, decimal_value, digits_value]

/-- C3 (witness): the text `1,2 3,4` as four numerals and their separators. -/
theorem C3_tokenize_separated_witness :
    ([] : List Char).all is_separator = true ∧
    well_separated [("1".toList, ",".toList), ("2".toList, " ".toList),
      ("3".toList, ",".toList), ("4".toList, [])] = true ∧
    (parse_coordinates (joined [] [("1".toList, ",".toList), ("2".toList, " ".toList),
        ("3".toList, ",".toList), ("4".toList, [])]) : Except Err (List ℚ))
      = .ok ([("1".toList, ",".toList), ("2".toList, " ".toList),
        ("3".toList, ",".toList), ("4".toList, [])].map (fun it => numeral_value it.1)) :=
  ⟨by decide, by decide,
    (C3_tokenize_separated [] [("1".toList, ",".toList), ("2".toList, " ".toList),
      ("3".toList, ",".toList), ("4".toList, [])] (by decide) (by decide)).1⟩

/-- C4: the second `.` of `1.5.5` ends the number `1.5` and starts `.5`.  On `1.5.5.5`
the third `.` arrives while the current number `.5` already holds a decimal point,
yet it is appended to it (the flag `firstdot` was set back to `true` before the `.`
was stored): the number `.5.5` is cast outside any `try` block and the tokenizer ends
with `bad_lexical_cast` instead of returning `[1.5, 0.5, 0.5]`. -/
theorem C4_third_point_fails :
    (parse_coordinates "1.5.5".toList : Except Err (List α)) = .ok [1.5, 0.5] ∧
    (parse_coordinates "1.5.5.5".toList : Except Err (List α)) = .error .bad_lexical_cast ∧
    (parse_coordinates "0.1.2.3".toList : Except Err (List α)) = .error .bad_lexical_cast := by
  refine ⟨?_, rfl, rfl⟩
  have e : (parse_coordinates "1.5.5".toList : Except Err (List α)) =
      .ok [numeral_value "1.5".toList, numeral_value ".5".toList] := rfl
  rw [e]
  simp [numeral_value, unsigned_value, decimal_value, digits_value]
  norm_num

/-- C5: a number that does not parse is dropped only when a separator ends it (as
in `- 5`); on `--5` (ended by a `-`), on `5-` and `1 2` followed by a newline (ended
by the end of the string) and on `-..5` (ended by a second `.`) the cast is made
outside any `try` block and the tokenizer ends with `bad_lexical_cast`. -/
theorem C5_malformed_number_fails :
    (parse_coordinates "--5".toList : Except Err (List α)) = .error .bad_lexical_cast ∧
    (parse_coordinates "5-".toList : Except Err (List α)) = .error .bad_lexical_cast ∧
    (parse_coordinates "1 2\n".toList : Except Err (List α)) = .error .bad_lexical_cast ∧
    (parse_coordinates "-..5".toList : Except Err (List α)) = .error .bad_lexical_cast ∧
    (parse_coordinates "- 5".toList : Except Err (List α)) = .ok [5] := by
  refine ⟨rfl, rfl, rfl, rfl, ?_⟩
  have e : (parse_coordinates "- 5".toList : Except Err (List α)) =
      .ok [numeral_value "5".toList] := rfl
  rw [e]
  simp [numeral_value, unsigned_value, decimal_value, digits_value]

end TokenizerClaims

section InterpreterClaims

variable {α : Type} [LinearOrderedField α] [FloorRing α]

/-- C6: for written pairs `p1`, ..., `pk` (`k ≥ 1`) drawing `M p1 p2 ... pk` and
drawing `M p1 L p2 ... L pk` both complete and leave the same context: the calls
made are the colour, move-to(`p1`), line-to(`p2`), ..., line-to(`pk`), close-path
and fill.  When the commands have been interpreted (before the closing
`cairo_close_path` and `cairo_fill`, which clears the path) the cursor of a context
with an invertible matrix is `pk`. -/
theorem C6_implicit_lineto (T : Trig α) (s : Shape α) (p1 : List Char × List Char)
    (ps : List (List Char × List Char)) (cr : Cairo α)
    (h1 : is_pair p1 = true) (hps : ps.all is_pair = true) :
    (Path.fresh s (implicit_path p1 ps)).draw T cr =
      .ok (Path.fresh s (implicit_path p1 ps), cairo_fill (cairo_close_path
        (polyline (cairo_set_color s cr) (pair_value p1) (ps.map pair_value)))) ∧
    (Path.fresh s (explicit_path p1 ps)).draw T cr =
      .ok (Path.fresh s (explicit_path p1 ps), cairo_fill (cairo_close_path
        (polyline (cairo_set_color s cr) (pair_value p1) (ps.map pair_value)))) ∧
    (cairo_fill (cairo_close_path
        (polyline (cairo_set_color s cr) (pair_value p1) (ps.map pair_value)))).trace =
      cr.trace ++ [Prim.set_source_rgb s.color.get_r s.color.get_g s.color.get_b,
          Prim.move_to (pair_value p1).1 (pair_value p1).2]
        ++ (ps.map pair_value).map (fun q : α × α => Prim.line_to q.1 q.2)
        ++ [Prim.close_path, Prim.fill] ∧
    (Path.fresh s (implicit_path p1 ps)).interpret T cr =
      .ok (Path.fresh s (implicit_path p1 ps),
        polyline cr (pair_value p1) (ps.map pair_value)) ∧
    (Path.fresh s (explicit_path p1 ps)).interpret T cr =
      .ok (Path.fresh s (explicit_path p1 ps),
        polyline cr (pair_value p1) (ps.map pair_value)) ∧
    (cr.ctm.det ≠ 0 →
      cairo_get_current_point (polyline cr (pair_value p1) (ps.map pair_value)) =
        (pair_value p1 :: ps.map pair_value).getLast (by simp)) := by
  have hps2 : ∀ p ∈ ps, is_pair p = true := by simpa using hps
  refine ⟨?_, ?_, ?_, interpret_implicit T s p1 ps h1 hps2 cr,
    interpret_explicit T s p1 ps h1 hps2 cr, fun hdet => polyline_cursor cr hdet _ _⟩
  · exact draw_of_interpret T _ cr _ _ (interpret_implicit T s p1 ps h1 hps2 _)
  · exact draw_of_interpret T _ cr _ _ (interpret_explicit T s p1 ps h1 hps2 _)
  · simp [cairo_fill, cairo_close_path, polyline_trace, cairo_set_color, cairo_set_source_rgb]

/-- C6 (witness): the paths `M10 10 20 20 30 10` and `M10 10 L20 20 L30 10` on a new
context leave the cursor at `(30, 10)`. -/
theorem C6_implicit_lineto_witness :
    implicit_path ("10".toList, "10".toList) [("20".toList, "20".toList), ("30".toList, "10".toList)]
      = "M10 10 20 20 30 10".toList ∧
    explicit_path ("10".toList, "10".toList) [("20".toList, "20".toList), ("30".toList, "10".toList)]
      = "M10 10 L20 20 L30 10".toList ∧
    is_pair ("10".toList, "10".toList) = true ∧
    [("20".toList, "20".toList), ("30".toList, "10".toList)].all is_pair = true ∧
    (Cairo.init : Cairo ℝ).ctm.det ≠ 0 ∧
    cairo_get_current_point (polyline (Cairo.init : Cairo ℝ) (pair_value ("10".toList, "10".toList))
        ([("20".toList, "20".toList), ("30".toList, "10".toList)].map pair_value)) = (30, 10) :=
  have hd : (Cairo.init : Cairo ℝ).ctm.det ≠ 0 := by
    simp [Cairo.init, Ctm.identity, Ctm.det]
  ⟨by decide, by decide, by decide, by decide, hd, by
    rw [(C6_implicit_lineto Trig.real ⟨none, none, Color.black⟩ ("10".toList, "10".toList)
      [("20".toList, "20".toList), ("30".toList, "10".toList)] Cairo.init
      (by decide) (by decide)).2.2.2.2.2 hd]
    simp [pair_value, numeral_value, unsigned_value, decimal_value, digits_value]⟩

/-- C7: from a context whose cursor is `(cx, cy)`, the command `l` with arguments
`[dx, dy]` and the command `L` with arguments `[cx + dx, cy + dy]` make the same
call, line-to(`cx + dx`, `cy + dy`), and leave the same context. -/
theorem C7_relative_line (T : Trig α) (cr : Cairo α) (cx cy dx dy : α)
    (hcur : cairo_get_current_point cr = (cx, cy)) :
    execute_operand T 'l' [dx, dy] cr = execute_operand T 'L' [cx + dx, cy + dy] cr ∧
    execute_operand T 'l' [dx, dy] cr = .ok (cairo_line_to cr (cx + dx) (cy + dy)) ∧
    (cairo_line_to cr (cx + dx) (cy + dy)).trace = cr.trace ++ [Prim.line_to (cx + dx) (cy + dy)] := by
  have h1 : execute_operand T 'l' [dx, dy] cr = .ok (cairo_line_to cr (cx + dx) (cy + dy)) := by
    show case_l _ cr = _
    simp [case_l, index, ok_bind, hcur]
  have h2 : execute_operand T 'L' [cx + dx, cy + dy] cr
      = .ok (cairo_line_to cr (cx + dx) (cy + dy)) := by
    show case_L _ cr = _
    simp [case_L, index, ok_bind]
  exact ⟨by rw [h1, h2], h1, rfl⟩

/-- C7 (witness): cursor `(1, 2)` after a move-to on a new context, offset `(3, 4)`. -/
theorem C7_relative_line_witness :
    cairo_get_current_point (cairo_move_to (Cairo.init : Cairo ℝ) 1 2) = (1, 2) ∧
    execute_operand Trig.real 'l' [3, 4] (cairo_move_to (Cairo.init : Cairo ℝ) 1 2) =
      execute_operand Trig.real 'L' [1 + 3, 2 + 4] (cairo_move_to (Cairo.init : Cairo ℝ) 1 2) :=
  have h : cairo_get_current_point (cairo_move_to (Cairo.init : Cairo ℝ) 1 2) = (1, 2) := by
    simp [cairo_get_current_point, cairo_move_to, Cairo.init, Ctm.identity, Ctm.apply,
      Ctm.unapply, Ctm.det]
  ⟨h, (C7_relative_line Trig.real (cairo_move_to (Cairo.init : Cairo ℝ) 1 2) 1 2 3 4 h).1⟩

end InterpreterClaims

section FallThroughClaims

variable {α : Type} [LinearOrderedField α] [FloorRing α]

/-- C8: the body of `case 'L'` (and of `case 'l'`) makes one call of `cairo_line_to`
on the first pair and has no loop: further pairs are ignored.  Drawing
`M0 0 L10 0 10 10` makes the calls colour, move-to(0, 0), line-to(10, 0), close-path,
fill; line-to(10, 10) is not made. -/
theorem C8_line_single_pair (T : Trig α) (s : Shape α) (cr : Cairo α) :
    (∀ x y : α, ∀ more : List α,
      execute_operand T 'L' (x :: y :: more) cr = .ok (cairo_line_to cr x y)) ∧
    (∀ x y : α, ∀ more : List α,
      execute_operand T 'l' (x :: y :: more) cr =
        .ok (cairo_line_to cr ((cairo_get_current_point cr).1 + x)
          ((cairo_get_current_point cr).2 + y))) ∧
    (Path.fresh s "M0 0 L10 0 10 10".toList).draw T cr =
      .ok (Path.fresh s "M0 0 L10 0 10 10".toList,
        cairo_fill (cairo_close_path
          (cairo_line_to (cairo_move_to (cairo_set_color s cr) 0 0) 10 0))) := by
  refine ⟨?_, ?_, ?_⟩
  · intro x y more
    show case_L _ cr = _
    simp [case_L, index, ok_bind]
  · intro x y more
    show case_l _ cr = _
    simp [case_l, index, ok_bind]
  · have e : (Path.fresh s "M0 0 L10 0 10 10".toList).draw T cr =
        .ok (Path.fresh s "M0 0 L10 0 10 10".toList,
          cairo_fill (cairo_close_path
            (cairo_line_to (cairo_move_to (cairo_set_color s cr)
              (numeral_value "0".toList) (numeral_value "0".toList))
              (numeral_value "10".toList) (numeral_value "0".toList)))) := rfl
    rw [e]
    simp [numeral_value, unsigned_value, decimal_value, digits_value]

/-- C9: the bodies of `case 'h'` and `case 'H'` are not closed by `break` and run on
into the bodies of `case 'c'` and `case 'C'`, which read `coord[1]` to `coord[5]`:
with its single argument the command reads past the end of `coord`, and drawing
`M0 0 H5` does not complete.  With six numbers `H` makes a line-to and two curve-to
calls. -/
theorem C9_horizontal_reads_six (T : Trig α) (s : Shape α) (cr : Cairo α) (x : α) :
    execute_operand T 'H' [x] cr = .error .out_of_range ∧
    execute_operand T 'h' [x] cr = .error .out_of_range ∧
    (Path.fresh s "M0 0 H5".toList).draw T cr = .error .out_of_range ∧
    (∀ c1 c2 c3 c4 c5 : α, execute_operand T 'H' [x, c1, c2, c3, c4, c5] cr =
      .ok (cairo_curve_to (cairo_restore (cairo_curve_to
        (cairo_translate (cairo_save (cairo_line_to cr x (cairo_get_current_point cr).2))
          (cairo_get_current_point (cairo_line_to cr x (cairo_get_current_point cr).2)).1
          (cairo_get_current_point (cairo_line_to cr x (cairo_get_current_point cr).2)).2)
        x c1 c2 c3 c4 c5)) x c1 c2 c3 c4 c5)) := by
  refine ⟨?_, ?_, ?_, fun _ _ _ _ _ => rfl⟩
  · show case_H _ cr >>= case_c _ >>= case_C _ = _
    simp [case_H, case_c, case_C, index, ok_bind, error_bind]
  · show case_h _ cr >>= case_H _ >>= case_c _ >>= case_C _ = _
    simp [case_h, case_H, case_c, case_C, index, ok_bind, error_bind]
  · rfl

/-- C10: the body of `case 'V'` is not closed by `break` and runs on into the body of
`case 'v'`: the command `V y` makes two calls of `cairo_line_to`, the second one
relative to the point reached by the first.  Drawing `M0 0 V5` on a new context makes
the calls line-to(0, 5) and line-to(0, 10).  The command `v y` makes one call. -/
theorem C10_vertical_runs_twice (T : Trig α) (s : Shape α) (cr : Cairo α) (y : α) :
    execute_operand T 'V' [y] cr =
      .ok (cairo_line_to (cairo_line_to cr (cairo_get_current_point cr).1 y)
        (cairo_get_current_point (cairo_line_to cr (cairo_get_current_point cr).1 y)).1
        ((cairo_get_current_point (cairo_line_to cr (cairo_get_current_point cr).1 y)).2 + y)) ∧
    execute_operand T 'v' [y] cr =
      .ok (cairo_line_to cr (cairo_get_current_point cr).1 ((cairo_get_current_point cr).2 + y)) ∧
    ((Path.fresh s "M0 0 V5".toList).draw T Cairo.init).map (fun st => st.2.trace) =
      .ok [Prim.set_source_rgb s.color.get_r s.color.get_g s.color.get_b,
        Prim.move_to 0 0, Prim.line_to 0 5, Prim.line_to 0 10, Prim.close_path, Prim.fill] := by
  refine ⟨?_, ?_, ?_⟩
  · show case_V _ cr >>= case_v _ = _
    simp [case_V, case_v, index, ok_bind]
  · show case_v _ cr = _
    simp [case_v, index, ok_bind]
  · have e : (Path.fresh s "M0 0 V5".toList).draw T Cairo.init =
        .ok (Path.fresh s "M0 0 V5".toList,
          cairo_fill (cairo_close_path (cairo_line_to
            (cairo_line_to (cairo_move_to (cairo_set_color s Cairo.init)
              (numeral_value "0".toList) (numeral_value "0".toList))
              (Ctm.identity.unapply (Ctm.identity.apply
                (numeral_value "0".toList, numeral_value "0".toList))).1
              (numeral_value "5".toList))
            (Ctm.identity.unapply (Ctm.identity.apply
              ((Ctm.identity.unapply (Ctm.identity.apply
                (numeral_value "0".toList, numeral_value "0".toList))).1,
                numeral_value "5".toList))).1
            ((Ctm.identity.unapply (Ctm.identity.apply
              ((Ctm.identity.unapply (Ctm.identity.apply
                (numeral_value "0".toList, numeral_value "0".toList))).1,
                numeral_value "5".toList))).2 + numeral_value "5".toList)))) := rfl
    have hid : (Ctm.identity : Ctm α).det ≠ 0 := by simp [Ctm.identity, Ctm.det]
    rw [e]
    simp only [Ctm.unapply_apply _ hid, map_ok]
    simp [numeral_value, unsigned_value, decimal_value, digits_value, cairo_fill,
      cairo_close_path, cairo_line_to, cairo_move_to, cairo_set_color, cairo_set_source_rgb,
      Cairo.init]
    norm_num

end FallThroughClaims

section CommandClaims

variable {α : Type} [LinearOrderedField α] [FloorRing α]

/-- C11: the command `C` with six numbers makes one call of `cairo_curve_to` on them.
The body of `case 'c'` is not closed by `break` and runs on into the body of
`case 'C'`: the command `c` makes the curve inside save / translate(cursor) /
restore and then a second curve, on the same six numbers read as absolute
coordinates. -/
theorem C11_relative_curve_runs_twice (T : Trig α) (cr : Cairo α) (c0 c1 c2 c3 c4 c5 : α) :
    execute_operand T 'C' [c0, c1, c2, c3, c4, c5] cr =
      .ok (cairo_curve_to cr c0 c1 c2 c3 c4 c5) ∧
    (cairo_curve_to cr c0 c1 c2 c3 c4 c5).trace =
      cr.trace ++ [Prim.curve_to c0 c1 c2 c3 c4 c5] ∧
    execute_operand T 'c' [c0, c1, c2, c3, c4, c5] cr =
      .ok (cairo_curve_to (cairo_restore (cairo_curve_to
        (cairo_translate (cairo_save cr) (cairo_get_current_point cr).1
          (cairo_get_current_point cr).2) c0 c1 c2 c3 c4 c5)) c0 c1 c2 c3 c4 c5) ∧
    (cairo_curve_to (cairo_restore (cairo_curve_to
        (cairo_translate (cairo_save cr) (cairo_get_current_point cr).1
          (cairo_get_current_point cr).2) c0 c1 c2 c3 c4 c5)) c0 c1 c2 c3 c4 c5).trace =
      cr.trace ++ [Prim.save,
        Prim.translate (cairo_get_current_point cr).1 (cairo_get_current_point cr).2,
        Prim.curve_to c0 c1 c2 c3 c4 c5, Prim.restore, Prim.curve_to c0 c1 c2 c3 c4 c5] := by
  refine ⟨rfl, rfl, rfl, ?_⟩
  simp [cairo_curve_to, cairo_restore, cairo_translate, cairo_save]

/-- C12: the command `a` with seven numbers makes the calls of one arc group, for
the arc from the cursor to the cursor moved by (`ex`, `ey`).  The body of `case 'A'`
is not closed by `break` and runs on into the body of `case 'a'`: the command `A`
makes the arc group for the end point (`ex`, `ey`) and then a second arc group, for
the arc from the cursor it has reached to that cursor moved by (`ex`, `ey`). -/
theorem C12_absolute_arc_runs_twice (T : Trig α) (cr : Cairo α) (rx ry rot fa fs ex ey : α) :
    (execute_operand T 'a' [rx, ry, rot, fa, fs, ex, ey] cr).map (fun c => c.trace) =
      .ok (cr.trace ++ arc_calls T (cairo_get_current_point cr)
        ((cairo_get_current_point cr).1 + ex, (cairo_get_current_point cr).2 + ey)
        rx ry rot fa fs) ∧
    ∃ cr1, case_A T [rx, ry, rot, fa, fs, ex, ey] cr = .ok cr1 ∧
      cr1.trace = cr.trace ++ arc_calls T (cairo_get_current_point cr) (ex, ey) rx ry rot fa fs ∧
      (execute_operand T 'A' [rx, ry, rot, fa, fs, ex, ey] cr).map (fun c => c.trace) =
        .ok (cr.trace ++ arc_calls T (cairo_get_current_point cr) (ex, ey) rx ry rot fa fs
          ++ arc_calls T (cairo_get_current_point cr1)
            ((cairo_get_current_point cr1).1 + ex, (cairo_get_current_point cr1).2 + ey)
            rx ry rot fa fs) := by
  have h : rot / 180 * T.pi = rot * T.pi / 180 := by ring
  have ha : ∀ c : Cairo α,
      (case_a T [rx, ry, rot, fa, fs, ex, ey] c).map (fun c => c.trace) =
      .ok (c.trace ++ arc_calls T (cairo_get_current_point c)
        ((cairo_get_current_point c).1 + ex, (cairo_get_current_point c).2 + ey)
        rx ry rot fa fs) := by
    intro c
    simp [case_a, arc_group, index, ok_bind, map_ok, arc_calls, cairo_restore, cairo_save,
      cairo_translate, cairo_rotate, cairo_scale, cairo_arc_negative, cairo_get_current_point, h]
  refine ⟨ha cr, ?_⟩
  have hA : ∃ cr1, case_A T [rx, ry, rot, fa, fs, ex, ey] cr = .ok cr1 ∧
      cr1.trace = cr.trace ++ arc_calls T (cairo_get_current_point cr) (ex, ey) rx ry rot fa fs := by
    refine ⟨_, rfl, ?_⟩
    simp [arc_calls, cairo_restore, cairo_save, cairo_translate, cairo_rotate, cairo_scale,
      cairo_arc_negative, cairo_get_current_point, h]
  obtain ⟨cr1, h1, h2⟩ := hA
  refine ⟨cr1, h1, h2, ?_⟩
  show (case_A T _ cr >>= case_a T _).map _ = _
  rw [h1, ok_bind, ha cr1, h2]

end CommandClaims

section PathClaims

variable {α : Type} [LinearOrderedField α] [FloorRing α]

/-- C13: a letter `q` that is none of `M m L l H h V v C c A a Z z`, with arguments
that tokenize, makes no call and leaves the context, hence the cursor, as it was, and
does not fail.  Drawing a path in which the command `q args` stands between the
commands `pre` and the commands `post` gives the same result on the context as drawing
`pre` followed by `post`; when it completes, its last two calls are close-path and
fill. -/
theorem C13_unknown_letter_skipped (T : Trig α) (s : Shape α) (pre args post : List Char)
    (q : Char) (coord : List α) (cr : Cairo α)
    (hq : is_letter q = true) (hk : is_known q = false)
    (hargs : ∀ c ∈ args, is_letter c = false)
    (htok : parse_coordinates args = .ok coord)
    (hpre : ∀ c, pre.head? = some c → is_letter c = true)
    (hpost : ∀ c, post.head? = some c → is_letter c = true) :
    execute_operand T q coord cr = .ok cr ∧
    ((Path.fresh s (pre ++ q :: (args ++ post))).draw T cr).map Prod.snd =
      ((Path.fresh s (pre ++ post)).draw T cr).map Prod.snd ∧
    ∀ p1 cr1, (Path.fresh s (pre ++ q :: (args ++ post))).draw T cr = .ok (p1, cr1) →
      ∃ cr2, (Path.fresh s (pre ++ q :: (args ++ post))).interpret T (cairo_set_color s cr)
          = .ok (p1, cr2) ∧
        cr1.trace = cr2.trace ++ [Prim.close_path, Prim.fill] := by
  refine ⟨execute_unknown T q coord cr hk, ?_, ?_⟩
  · unfold Path.draw
    rw [fresh_toShape, fresh_toShape,
      interpret_fresh T s _ (head_append_letter pre _ q hq hpre),
      interpret_fresh T s _ (head_append_or pre post hpre hpost),
      segments_around pre args post q hq hargs hpost, segments_append_head pre post hpost,
      run_skip_unknown T _ _ q args coord _ hk htok]
    cases run_segments T (segments pre ++ segments post) (cairo_set_color s cr) <;> rfl
  · intro p1 cr1 h
    unfold Path.draw at h
    obtain ⟨⟨p2, cr2⟩, h1, h2⟩ := bind_eq_ok h
    simp only [Except.ok.injEq, Prod.mk.injEq] at h2
    obtain ⟨rfl, rfl⟩ := h2
    exact ⟨cr2, h1, by simp [cairo_fill, cairo_close_path]⟩

/-- C13 (witness): the path `M1 2Q3 4L5 6`, in which `Q3 4` is skipped. -/
theorem C13_unknown_letter_skipped_witness :
    is_letter 'Q' = true ∧ is_known 'Q' = false ∧
    (parse_coordinates "3 4".toList : Except Err (List ℝ)) = .ok [3, 4] ∧
    ((Path.fresh (⟨none, none, Color.black⟩ : Shape ℝ)
        ("M1 2".toList ++ 'Q' :: ("3 4".toList ++ "L5 6".toList))).draw Trig.real
          Cairo.init).map Prod.snd =
      ((Path.fresh (⟨none, none, Color.black⟩ : Shape ℝ)
        ("M1 2".toList ++ "L5 6".toList)).draw Trig.real Cairo.init).map Prod.snd :=
  have h3 : (parse_coordinates "3 4".toList : Except Err (List ℝ)) = .ok [3, 4] := by
    have e : (parse_coordinates "3 4".toList : Except Err (List ℝ)) =
        .ok [numeral_value "3".toList, numeral_value "4".toList] := rfl
    rw [e]
    simp [numeral_value, unsigned_value, decimal_value, digits_value]
  ⟨by decide, by decide, h3,
    (C13_unknown_letter_skipped Trig.real ⟨none, none, Color.black⟩ "M1 2".toList "3 4".toList
      "L5 6".toList 'Q' [3, 4] Cairo.init (by decide) (by decide) (by decide) h3
      (by decide) (by decide)).2.1⟩

/-- C14: when `Path::draw` completes, the calls it has made are the colour and the
calls of the commands, none of which is a fill, followed by close-path and fill, made
on the context the interpreter returned: the last two calls are close-path and fill
and fill is made exactly once.  On the empty string the draw completes with the calls
colour, close-path, fill. -/
theorem C14_draw_ends_with_close_fill (T : Trig α) (p p1 : Path α) (cr cr1 : Cairo α)
    (h : p.draw T cr = .ok (p1, cr1)) :
    (∃ cr2 calls, p.interpret T (cairo_set_color p.toShape cr) = .ok (p1, cr2) ∧
      cr2.trace = cr.trace ++ calls ∧
      cr1 = cairo_fill (cairo_close_path cr2) ∧
      cr1.trace = cr.trace ++ (calls ++ [Prim.close_path, Prim.fill]) ∧
      (∀ c ∈ calls, is_fill c = false) ∧
      (calls ++ [Prim.close_path, Prim.fill]).countP is_fill = 1) ∧
    ∀ s : Shape α, (Path.fresh s []).draw T cr =
      .ok (Path.fresh s [], cairo_fill (cairo_close_path (cairo_set_color s cr))) := by
  refine ⟨?_, fun s => rfl⟩
  unfold Path.draw at h
  obtain ⟨⟨p2, cr2⟩, h1, h2⟩ := bind_eq_ok h
  simp only [Except.ok.injEq, Prod.mk.injEq] at h2
  obtain ⟨rfl, rfl⟩ := h2
  obtain ⟨⟨l, ⟨e1, _, _⟩, hl⟩, _⟩ := interpret_calmly T _ _ _ _ h1
  rw [calm_iff] at hl
  have hc : ∀ c ∈ Prim.set_source_rgb p.color.get_r p.color.get_g p.color.get_b :: l,
      is_fill c = false := by
    intro c hc
    rcases List.mem_cons.1 hc with rfl | hc
    · rfl
    · exact hl.2 c hc
  refine ⟨cr2, Prim.set_source_rgb p.color.get_r p.color.get_g p.color.get_b :: l, h1, ?_, rfl,
    ?_, hc, ?_⟩
  · simp [e1, cairo_set_color, cairo_set_source_rgb]
  · simp [cairo_fill, cairo_close_path, e1, cairo_set_color, cairo_set_source_rgb]
  · rw [List.countP_append, List.countP_eq_zero.2 (by simpa using hc)]
    rfl

/-- C14 (witness): the path `M1 2Z` on a new context. -/
theorem C14_draw_ends_with_close_fill_witness :
    (Path.fresh (⟨none, none, Color.black⟩ : Shape ℝ) "M1 2Z".toList).draw Trig.real Cairo.init =
      .ok (Path.fresh ⟨none, none, Color.black⟩ "M1 2Z".toList,
        cairo_fill (cairo_close_path (cairo_close_path (cairo_close_path (cairo_move_to
          (cairo_set_color ⟨none, none, Color.black⟩ Cairo.init)
          (numeral_value "1".toList) (numeral_value "2".toList)))))) ∧
    ∃ calls, (cairo_fill (cairo_close_path (cairo_close_path (cairo_close_path (cairo_move_to
          (cairo_set_color ⟨none, none, Color.black⟩ (Cairo.init : Cairo ℝ))
          (numeral_value "1".toList) (numeral_value "2".toList)))))).trace =
        (Cairo.init : Cairo ℝ).trace ++ (calls ++ [Prim.close_path, Prim.fill]) ∧
      (calls ++ [Prim.close_path, Prim.fill]).countP is_fill = 1 :=
  have hd : (Path.fresh (⟨none, none, Color.black⟩ : Shape ℝ) "M1 2Z".toList).draw Trig.real
      Cairo.init =
      .ok (Path.fresh ⟨none, none, Color.black⟩ "M1 2Z".toList,
        cairo_fill (cairo_close_path (cairo_close_path (cairo_close_path (cairo_move_to
          (cairo_set_color ⟨none, none, Color.black⟩ Cairo.init)
          (numeral_value "1".toList) (numeral_value "2".toList)))))) := rfl
  match (C14_draw_ends_with_close_fill Trig.real _ _ Cairo.init _ hd).1 with
  | ⟨_, calls, _, _, _, h4, _, h6⟩ => ⟨hd, calls, h4, h6⟩

end PathClaims

section ArcClaims

/-- C15 (counterexample): the circular arc of radius 1 from `(0, 0)` to `(4, 0)`, both
flags 0, without rotation.  The points are further apart than the diameter, so the
radii are scaled to 2: the centre is `(2, 0)`, the start angle `pi`, the extent
`-pi`, and the point at the start angle on the circle of radius 1 about the centre
has the abscissa 1, not 0. -/
theorem C15_long_chord_misses_start :
    (0 : ℝ) < 1 ∧ ¬ ((0 : ℝ) = 4 ∧ (0 : ℝ) = 0) ∧
    endpoint_to_center Trig.real 0 0 4 0 0 0 1 1 0 = (2, 0, Real.pi, -Real.pi) ∧
    (endpoint_to_center Trig.real 0 0 4 0 0 0 1 1 0).1
      + 1 * Real.cos (endpoint_to_center Trig.real 0 0 4 0 0 0 1 1 0).2.2.1 = 1 ∧
    (endpoint_to_center Trig.real 0 0 4 0 0 0 1 1 0).1
      + 1 * Real.cos (endpoint_to_center Trig.real 0 0 4 0 0 0 1 1 0).2.2.1 ≠ 0 := by
  have hv : endpoint_to_center Trig.real 0 0 4 0 0 0 1 1 0 = (2, 0, Real.pi, -Real.pi) := by
    have hcx : (arc_frame Trig.real 0 0 4 0 0 0 1 1 0).cx1 = 0 := by
      simp [arc_frame, Trig.real]
    have hcy : (arc_frame Trig.real 0 0 4 0 0 0 1 1 0).cy1 = 0 := by
      simp [arc_frame, Trig.real]
      norm_num [sqrt_four]
    have hux : (arc_frame Trig.real 0 0 4 0 0 0 1 1 0).ux = -1 := by
      simp [arc_frame, Trig.real]
      norm_num [sqrt_four]
    have huy : (arc_frame Trig.real 0 0 4 0 0 0 1 1 0).uy = 0 := by
      simp [arc_frame, Trig.real]
      norm_num [sqrt_four]
    have hvx : (arc_frame Trig.real 0 0 4 0 0 0 1 1 0).vx = 1 := by
      simp [arc_frame, Trig.real]
      norm_num [sqrt_four]
    have hvy : (arc_frame Trig.real 0 0 4 0 0 0 1 1 0).vy = 0 := by
      simp [arc_frame, Trig.real]
      norm_num [sqrt_four]
    obtain ⟨_, _, _, _, hn1, hn2⟩ := arc_frame_vectors Trig.real 0 0 4 0 0 0 1 1 0
    rw [hux, huy] at hn1
    rw [hux, huy, hvx, hvy] at hn2
    have hn1b : (arc_frame Trig.real 0 0 4 0 0 0 1 1 0).n1 = 1 := by
      rw [hn1]; simp [Trig.real]
    have hn2b : (arc_frame Trig.real 0 0 4 0 0 0 1 1 0).n2 = 1 := by
      rw [hn2]; simp [Trig.real]
    have hpi := Real.pi_pos
    rw [endpoint_to_center_frame]
    simp only [hux, huy, hvx, hvy, hn1b, hn2b, hcx, hcy]
    have hs1 : signed_acos Trig.real 0 (-1) 1 = Real.pi := by
      simp [signed_acos, Trig.real]
    have hs2 : signed_acos Trig.real (-1 * 0 - 0 * 1) (-1 * 1 + 0 * 0) 1 = Real.pi := by
      simp [signed_acos, Trig.real]
    rw [hs1, hs2]
    have ha : sweep_adjust Trig.real 0 Real.pi = -Real.pi := by
      unfold sweep_adjust
      rw [if_pos ⟨by norm_num, hpi⟩]
      show Real.pi - 2 * Real.pi = -Real.pi
      ring
    rw [ha]
    have f1 : fmod Real.pi (2 * Trig.real.pi) = Real.pi := by
      apply fmod_small
      · show (0 : ℝ) < 2 * Real.pi
        linarith
      · show |Real.pi| < 2 * Real.pi
        rw [abs_of_pos hpi]
        linarith
    have f2 : fmod (-Real.pi) (2 * Trig.real.pi) = -Real.pi := by
      apply fmod_small
      · show (0 : ℝ) < 2 * Real.pi
        linarith
      · show |-Real.pi| < 2 * Real.pi
        rw [abs_neg, abs_of_pos hpi]
        linarith
    rw [f1, f2]
    simp [Trig.real]
    norm_num
  refine ⟨by norm_num, by norm_num, hv, ?_, ?_⟩
  · rw [hv]
    simp only [Real.cos_pi]
    norm_num
  · rw [hv]
    simp only [Real.cos_pi]
    norm_num

/-- C15: for a circle (`rx = ry = r > 0`, rotation 0), two distinct points and all
values of the two flags, the centre, start angle and extent returned over the real
numbers give back both points on the circle of the effective radius, the larger of
`r` and half the distance of the points; when the points are no further apart than
the diameter `2 r`, this is the circle of radius `r`. -/
theorem C15_circle_round_trip (x1 y1 x2 y2 fa fs r : ℝ) (hr : 0 < r)
    (hne : ¬ (x1 = x2 ∧ y1 = y2)) :
    ((endpoint_to_center Trig.real x1 y1 x2 y2 fa fs r r 0).1
        + max r (Real.sqrt (((x1 - x2) / 2) ^ 2 + ((y1 - y2) / 2) ^ 2))
          * Real.cos (endpoint_to_center Trig.real x1 y1 x2 y2 fa fs r r 0).2.2.1 = x1 ∧
      (endpoint_to_center Trig.real x1 y1 x2 y2 fa fs r r 0).2.1
        + max r (Real.sqrt (((x1 - x2) / 2) ^ 2 + ((y1 - y2) / 2) ^ 2))
          * Real.sin (endpoint_to_center Trig.real x1 y1 x2 y2 fa fs r r 0).2.2.1 = y1 ∧
      (endpoint_to_center Trig.real x1 y1 x2 y2 fa fs r r 0).1
        + max r (Real.sqrt (((x1 - x2) / 2) ^ 2 + ((y1 - y2) / 2) ^ 2))
          * Real.cos ((endpoint_to_center Trig.real x1 y1 x2 y2 fa fs r r 0).2.2.1
            + (endpoint_to_center Trig.real x1 y1 x2 y2 fa fs r r 0).2.2.2) = x2 ∧
      (endpoint_to_center Trig.real x1 y1 x2 y2 fa fs r r 0).2.1
        + max r (Real.sqrt (((x1 - x2) / 2) ^ 2 + ((y1 - y2) / 2) ^ 2))
          * Real.sin ((endpoint_to_center Trig.real x1 y1 x2 y2 fa fs r r 0).2.2.1
            + (endpoint_to_center Trig.real x1 y1 x2 y2 fa fs r r 0).2.2.2) = y2) ∧
    ((x1 - x2) ^ 2 + (y1 - y2) ^ 2 ≤ (2 * r) ^ 2 →
      (endpoint_to_center Trig.real x1 y1 x2 y2 fa fs r r 0).1
        + r * Real.cos (endpoint_to_center Trig.real x1 y1 x2 y2 fa fs r r 0).2.2.1 = x1 ∧
      (endpoint_to_center Trig.real x1 y1 x2 y2 fa fs r r 0).2.1
        + r * Real.sin (endpoint_to_center Trig.real x1 y1 x2 y2 fa fs r r 0).2.2.1 = y1 ∧
      (endpoint_to_center Trig.real x1 y1 x2 y2 fa fs r r 0).1
        + r * Real.cos ((endpoint_to_center Trig.real x1 y1 x2 y2 fa fs r r 0).2.2.1
            + (endpoint_to_center Trig.real x1 y1 x2 y2 fa fs r r 0).2.2.2) = x2 ∧
      (endpoint_to_center Trig.real x1 y1 x2 y2 fa fs r r 0).2.1
        + r * Real.sin ((endpoint_to_center Trig.real x1 y1 x2 y2 fa fs r r 0).2.2.1
            + (endpoint_to_center Trig.real x1 y1 x2 y2 fa fs r r 0).2.2.2) = y2) := by
  have h := circle_endpoints x1 y1 x2 y2 fa fs r hr hne
  refine ⟨h, fun hc => ?_⟩
  have hm : max r (Real.sqrt (((x1 - x2) / 2) ^ 2 + ((y1 - y2) / 2) ^ 2)) = r := by
    apply max_eq_left
    rw [Real.sqrt_le_left hr.le]
    linarith
  rw [hm] at h
  exact h

/-- C15 (witness): the quarter circle of radius 1 from `(1, 0)` to `(0, 1)`, large-arc
flag 0 and sweep flag 1. -/
theorem C15_circle_round_trip_witness :
    (0 : ℝ) < 1 ∧ ¬ ((1 : ℝ) = 0 ∧ (0 : ℝ) = 1) ∧
    ((1 : ℝ) - 0) ^ 2 + ((0 : ℝ) - 1) ^ 2 ≤ (2 * 1) ^ 2 ∧
    (endpoint_to_center Trig.real 1 0 0 1 0 1 1 1 0).1
      + 1 * Real.cos (endpoint_to_center Trig.real 1 0 0 1 0 1 1 1 0).2.2.1 = 1 ∧
    (endpoint_to_center Trig.real 1 0 0 1 0 1 1 1 0).2.1
      + 1 * Real.sin (endpoint_to_center Trig.real 1 0 0 1 0 1 1 1 0).2.2.1 = 0 ∧
    (endpoint_to_center Trig.real 1 0 0 1 0 1 1 1 0).1
      + 1 * Real.cos ((endpoint_to_center Trig.real 1 0 0 1 0 1 1 1 0).2.2.1
          + (endpoint_to_center Trig.real 1 0 0 1 0 1 1 1 0).2.2.2) = 0 ∧
    (endpoint_to_center Trig.real 1 0 0 1 0 1 1 1 0).2.1
      + 1 * Real.sin ((endpoint_to_center Trig.real 1 0 0 1 0 1 1 1 0).2.2.1
          + (endpoint_to_center Trig.real 1 0 0 1 0 1 1 1 0).2.2.2) = 1 :=
  ⟨by norm_num, by norm_num, by norm_num,
    (C15_circle_round_trip 1 0 0 1 0 1 1 (by norm_num) (by norm_num)).2 (by norm_num)⟩

/-- C17: for every arc whose end point is its start point, whatever the radii, the
flags and the rotation, the start point in the frame of the ellipse is the origin and
the divisor `Prx*Py1 + Pry*Px1` of the centre computation of `endpoint_to_center` is
zero: the function has no guard for this arc and computes `sq` as `Prx*Pry` divided
by zero. -/
theorem C17_equal_endpoints_divide_by_zero {α : Type} [LinearOrderedField α] (T : Trig α)
    (x y fa fs rx ry phi : α) :
    (arc_frame T x y x y fa fs rx ry phi).x1p = 0 ∧
    (arc_frame T x y x y fa fs rx ry phi).y1p = 0 ∧
    (arc_frame T x y x y fa fs rx ry phi).denominator = 0 ∧
    (arc_frame T x y x y fa fs rx ry phi).sq =
      (if ((arc_frame T x y x y fa fs rx ry phi).rx * (arc_frame T x y x y fa fs rx ry phi).rx
            * ((arc_frame T x y x y fa fs rx ry phi).ry *
              (arc_frame T x y x y fa fs rx ry phi).ry)) / 0 < 0 then 0
        else ((arc_frame T x y x y fa fs rx ry phi).rx * (arc_frame T x y x y fa fs rx ry phi).rx
            * ((arc_frame T x y x y fa fs rx ry phi).ry *
              (arc_frame T x y x y fa fs rx ry phi).ry)) / 0) := by
  obtain ⟨h1, h2, h3⟩ := equal_endpoints_frame T x y fa fs rx ry phi
  obtain ⟨_, e7, _, _, _⟩ := arc_frame_centre T x y x y fa fs rx ry phi
  refine ⟨h1, h2, h3, ?_⟩
  rw [e7, h1, h2, h3]
  simp only [mul_zero, sub_zero]

end ArcClaims

section DocumentClaims

variable {α : Type} [LinearOrderedField α] [FloorRing α]

/-- C18: on the document made of the single path `M--5` the cast of the token `-` at
the second `-` is made outside any `try` block and throws `bad_lexical_cast`; the
exception leaves `Svg2Cairo::draw` after the `cairo_save` of the shape, so the block
of the shape is not completed.  On the document made of the circle `cx=5 cy=5 r=3`
with fill `ff0000` and the path `M0 0 L10 0 L10 10 Z` with fill `00ff00`, in which
every number is well formed, the calls are the two blocks: one arc under colour
(1, 0, 0), then one move-to/line-to polygon filled under colour (0, 1, 0). -/
theorem C18_draw_throws_on_malformed_number (T : Trig α) :
    draw T [AnyShape.path (Path.fresh ⟨none, none, Color.black⟩ "M--5".toList)]
      (Cairo.init : Cairo α) = .error .bad_lexical_cast ∧
    draw T
      [AnyShape.circle
          { translate := none, rotate := none, cx := 5, cy := 5, r := 3,
            color := { r := 255, g := 0, b := 0, hexcode := "ff0000".toList } },
        AnyShape.path (Path.fresh ⟨none, none, Color.black⟩ "M--5".toList)]
      (Cairo.init : Cairo α) = .error .bad_lexical_cast ∧
    (draw T
      [AnyShape.circle
          { translate := none, rotate := none, cx := 5, cy := 5, r := 3,
            color := { r := 255, g := 0, b := 0, hexcode := "ff0000".toList } },
        AnyShape.path (Path.fresh
          { translate := none, rotate := none,
            color := { r := 0, g := 255, b := 0, hexcode := "00ff00".toList } }
          "M0 0 L10 0 L10 10 Z".toList)] Cairo.init).map (fun st => st.2.trace) =
      .ok [Prim.save, Prim.set_source_rgb 1 0 0, Prim.arc 5 5 3 0 (2 * T.pi), Prim.fill,
        Prim.restore,
        Prim.save, Prim.set_source_rgb 0 1 0, Prim.move_to 0 0, Prim.line_to 10 0,
        Prim.line_to 10 10, Prim.close_path, Prim.close_path, Prim.close_path, Prim.fill,
        Prim.restore] := by
  refine ⟨rfl, rfl, ?_⟩
  have e : (draw T
      [AnyShape.circle
          { translate := none, rotate := none, cx := 5, cy := 5, r := 3,
            color := { r := 255, g := 0, b := 0, hexcode := "ff0000".toList } },
        AnyShape.path (Path.fresh
          { translate := none, rotate := none,
            color := { r := 0, g := 255, b := 0, hexcode := "00ff00".toList } }
          "M0 0 L10 0 L10 10 Z".toList)] Cairo.init).map (fun st => st.2.trace) =
      .ok [Prim.save,
        Prim.set_source_rgb (((255 : ℕ) : α) / 255) (((0 : ℕ) : α) / 255)
          (((0 : ℕ) : α) / 255),
        Prim.arc 5 5 3 0 (2 * T.pi), Prim.fill, Prim.restore,
        Prim.save,
        Prim.set_source_rgb (((0 : ℕ) : α) / 255) (((255 : ℕ) : α) / 255)
          (((0 : ℕ) : α) / 255),
        Prim.move_to (numeral_value "0".toList) (numeral_value "0".toList),
        Prim.line_to (numeral_value "10".toList) (numeral_value "0".toList),
        Prim.line_to (numeral_value "10".toList) (numeral_value "10".toList),
        Prim.close_path, Prim.close_path, Prim.close_path, Prim.fill, Prim.restore] := rfl
  rw [e]
  simp [numeral_value, unsigned_value, decimal_value, digits_value]

/-- C19: when `Svg2Cairo::draw` completes, the calls it has made are the blocks of
the shapes; in every initial part of these calls the restores do not outnumber the
saves, and over the block of each shape, whatever commands a path holds, saves and
restores are equal in number.  Every shape that is drawn leaves the stack of saved
states, and the matrix, as it found them. -/
theorem C19_save_restore_balanced (T : Trig α) (shapes shapes1 : List (AnyShape α))
    (cr cr1 : Cairo α) (h : draw T shapes cr = .ok (shapes1, cr1)) :
    (∃ geoms, List.Forall₂ (is_geometry T) shapes geoms ∧
      cr1.trace = cr.trace ++
        (List.zipWith (fun sh g => shape_block sh.toShape g) shapes geoms).flatten ∧
      balanced (List.zipWith (fun sh g => shape_block sh.toShape g) shapes geoms).flatten ∧
      ∀ b ∈ List.zipWith (fun sh g => shape_block sh.toShape g) shapes geoms, balanced b) ∧
    cr1.saved = cr.saved ∧ cr1.ctm = cr.ctm ∧
    (∀ (sh sh2 : AnyShape α) (c c2 : Cairo α), draw_shape T sh c = .ok (sh2, c2) →
      c2.saved = c.saved ∧ c2.saved.length = c.saved.length ∧ c2.ctm = c.ctm) ∧
    (∀ (op : Char) (coord : List α) (c c2 : Cairo α),
      execute_operand T op coord c = .ok c2 →
        ∃ l, c2.trace = c.trace ++ l ∧ balanced l ∧ c2.saved = c.saved) := by
  obtain ⟨geoms, h1, h2, h3, h4⟩ := draw_blocks T shapes shapes1 cr cr1 h
  refine ⟨⟨geoms, h1, h2, balanced_of_final_depth _ (final_depth_blocks T shapes geoms h1), ?_⟩,
    h4, h3, ?_, ?_⟩
  · intro b hb
    clear h2 h
    induction h1 with
    | nil => simp at hb
    | cons hg _ ih =>
      simp only [List.zipWith_cons_cons, List.mem_cons] at hb
      rcases hb with rfl | hb
      · exact balanced_of_final_depth _ (calm_shape_block T _ _ hg)
      · exact ih hb
  · intro sh sh2 c c2 hs
    obtain ⟨g, _, _, e2, e3⟩ := draw_shape_block T sh sh2 c c2 hs
    exact ⟨e3, by rw [e3], e2⟩
  · intro op coord c c2 he
    obtain ⟨l, ⟨e1, _, e3⟩, hl⟩ := execute_calmly T op coord c c2 he
    rw [calm_iff] at hl
    exact ⟨l, e1, balanced_of_final_depth l hl.1, e3⟩

/-- C19 (witness): the document made of the path `M0 0 c1 1 2 2 3 3`, whose relative
curve is drawn inside a save/restore pair of its own. -/
theorem C19_save_restore_balanced_witness :
    ∃ shapes1 cr1,
      draw Trig.real
        [AnyShape.path (Path.fresh ⟨none, none, Color.black⟩ "M0 0 c1 1 2 2 3 3".toList)]
        (Cairo.init : Cairo ℝ) = .ok (shapes1, cr1) ∧
      cr1.saved = (Cairo.init : Cairo ℝ).saved :=
  match ok_of_isOk (draw Trig.real
    [AnyShape.path (Path.fresh ⟨none, none, Color.black⟩ "M0 0 c1 1 2 2 3 3".toList)]
    (Cairo.init : Cairo ℝ)) rfl with
  | ⟨(shapes1, cr1), h⟩ =>
    ⟨shapes1, cr1, h, (C19_save_restore_balanced Trig.real _ shapes1 Cairo.init cr1 h).2.1⟩

end DocumentClaims

section PathStateClaims

variable {α : Type} [LinearOrderedField α] [FloorRing α]

/-- C20: a completed `Path::draw` returns the path object in the state it had before
the call: command string, transformations and colour unchanged, no pending operand,
empty buffer.  Drawing it again from the same context therefore completes with the
same calls. -/
theorem C20_draw_restores_path (T : Trig α) (s : Shape α) (ops : List Char) (p1 : Path α)
    (cr cr1 : Cairo α) (h : (Path.fresh s ops).draw T cr = .ok (p1, cr1)) :
    p1 = Path.fresh s ops ∧
    p1.operations = ops ∧ p1.toShape = s ∧ p1.operand = NUL ∧ p1.coordinates = [] ∧
    p1.draw T cr = .ok (p1, cr1) := by
  obtain ⟨l, _, _, _, _, hp⟩ := draw_calls T _ _ _ _ h
  have e : p1 = Path.fresh s ops := by rw [hp]; rfl
  subst e
  exact ⟨rfl, rfl, rfl, rfl, rfl, h⟩

/-- C20 (witness): the path `M1 2Z` drawn on a new context. -/
theorem C20_draw_restores_path_witness :
    (Path.fresh (⟨none, none, Color.black⟩ : Shape ℝ) "M1 2Z".toList).draw Trig.real Cairo.init =
      .ok (Path.fresh ⟨none, none, Color.black⟩ "M1 2Z".toList,
        cairo_fill (cairo_close_path (cairo_close_path (cairo_close_path (cairo_move_to
          (cairo_set_color ⟨none, none, Color.black⟩ Cairo.init)
          (numeral_value "1".toList) (numeral_value "2".toList)))))) ∧
    (Path.fresh (⟨none, none, Color.black⟩ : Shape ℝ) "M1 2Z".toList).operand = NUL :=
  have hd : (Path.fresh (⟨none, none, Color.black⟩ : Shape ℝ) "M1 2Z".toList).draw Trig.real
      Cairo.init =
      .ok (Path.fresh ⟨none, none, Color.black⟩ "M1 2Z".toList,
        cairo_fill (cairo_close_path (cairo_close_path (cairo_close_path (cairo_move_to
          (cairo_set_color ⟨none, none, Color.black⟩ Cairo.init)
          (numeral_value "1".toList) (numeral_value "2".toList)))))) := rfl
  ⟨hd, (C20_draw_restores_path Trig.real ⟨none, none, Color.black⟩ "M1 2Z".toList _
    Cairo.init _ hd).2.2.2.1⟩

end PathStateClaims
section ArgumentClaims

variable {α : Type} [LinearOrderedField α] [FloorRing α]

end ArgumentClaims

section LoadClaims

variable {α : Type} [LinearOrderedField α]

/-- C22 (counterexample): the style `fill:#abc`.  The three digits are expanded with
the letter `f`, to `afbfcf`, and the colour of the shape is (175, 191, 207); the
string `a0b0c0` would give (160, 176, 192). -/
theorem C22_short_hex_gives_afbfcf :
    is_hex_char 'a' = true ∧ is_hex_char 'b' = true ∧ is_hex_char 'c' = true ∧
    find_transformations Trig.real ⟨none, none, Color.black⟩ [] "fill:#abc".toList =
      .ok ⟨none, none, { r := 175, g := 191, b := 207, hexcode := "afbfcf".toList }⟩ ∧
    "afbfcf".toList ≠ "a0b0c0".toList ∧
    (175, 191, 207) ≠ (16 * hex_digit_value 'a', 16 * hex_digit_value 'b', 16 * hex_digit_value 'c') :=
  ⟨by decide, by decide, by decide, rfl, by decide, by decide⟩

/-- C22: for every style in which the last `fill:` is followed by white space, `#` and
exactly three hexadecimal digits `d1 d2 d3`, `find_transformations` expands the
digits to the six-digit string `d1 f d2 f d3 f` before building the `Color`, so the
colour of the shape is (`16*d1 + 15`, `16*d2 + 15`, `16*d3 + 15`); a string of six
digits is used as it is. -/
theorem C22_short_hex_expands_with_f (T : Trig α) (shape : Shape α) (pre ws post : List Char)
    (d1 d2 d3 : Char) (hw : ws.all is_space = true) (h1 : is_hex_char d1 = true)
    (h2 : is_hex_char d2 = true) (h3 : is_hex_char d3 = true)
    (hp : stops is_hex_char post = true)
    (hlast : none_after "fill:".toList (pre ++ (fill_text ws [d1, d2, d3] ++ post))
      pre.length = true) :
    regex_match regex_fill_color (pre ++ (fill_text ws [d1, d2, d3] ++ post)) =
      some [pre ++ (fill_text ws [d1, d2, d3] ++ post), [d1, d2, d3]] ∧
    expand_hex [d1, d2, d3] = [d1, 'f', d2, 'f', d3, 'f'] ∧
    find_transformations T shape [] (pre ++ (fill_text ws [d1, d2, d3] ++ post)) =
      .ok (shape.set_color
        { r := 16 * hex_digit_value d1 + 15, g := 16 * hex_digit_value d2 + 15,
          b := 16 * hex_digit_value d3 + 15, hexcode := [d1, 'f', d2, 'f', d3, 'f'] }) ∧
    (∀ (transform : List Char) (sh1 : Shape α),
      find_transformations T shape transform [] = .ok sh1 →
      find_transformations T shape transform (pre ++ (fill_text ws [d1, d2, d3] ++ post)) =
        .ok (sh1.set_color
          { r := 16 * hex_digit_value d1 + 15, g := 16 * hex_digit_value d2 + 15,
            b := 16 * hex_digit_value d3 + 15, hexcode := [d1, 'f', d2, 'f', d3, 'f'] })) ∧
    (∀ e1 e2 e3 e4 e5 e6 : Char, is_hex_char e1 = true → is_hex_char e2 = true →
      is_hex_char e3 = true → is_hex_char e4 = true → is_hex_char e5 = true →
      is_hex_char e6 = true →
      expand_hex [e1, e2, e3, e4, e5, e6] = [e1, e2, e3, e4, e5, e6] ∧
      Color.new [e1, e2, e3, e4, e5, e6] =
        .ok { r := 16 * hex_digit_value e1 + hex_digit_value e2,
              g := 16 * hex_digit_value e3 + hex_digit_value e4,
              b := 16 * hex_digit_value e5 + hex_digit_value e6,
              hexcode := [e1, e2, e3, e4, e5, e6] }) := by
  refine ⟨fill_captures pre ws [d1, d2, d3] post hw (by simp) (by simp [h1, h2, h3]) hp hlast,
    rfl, ?_, ?_, ?_⟩
  · rw [find_transformations_style T shape shape [] _ rfl]
    exact find_fill_color_short shape pre ws post d1 d2 d3 hw h1 h2 h3 hp hlast
  · intro transform sh1 h
    rw [find_transformations_style T shape sh1 transform _ h]
    exact find_fill_color_short sh1 pre ws post d1 d2 d3 hw h1 h2 h3 hp hlast
  · intro e1 e2 e3 e4 e5 e6 g1 g2 g3 g4 g5 g6
    exact ⟨rfl, color_new_six e1 e2 e3 e4 e5 e6 g1 g2 g3 g4 g5 g6⟩

/-- C22 (witness): the style `stroke:none;fill: #1e9;opacity:1`. -/
theorem C22_short_hex_expands_with_f_witness :
    "stroke:none;fill: #1e9;opacity:1".toList =
      "stroke:none;".toList ++ (fill_text " ".toList ['1', 'e', '9'] ++ ";opacity:1".toList) ∧
    find_transformations Trig.real ⟨none, none, Color.black⟩ []
        ("stroke:none;".toList ++ (fill_text " ".toList ['1', 'e', '9'] ++ ";opacity:1".toList)) =
      .ok ⟨none, none, { r := 31, g := 239, b := 159, hexcode := "1fef9f".toList }⟩ :=
  ⟨by decide,
    (C22_short_hex_expands_with_f Trig.real ⟨none, none, Color.black⟩ "stroke:none;".toList
      " ".toList ";opacity:1".toList '1' 'e' '9' (by decide) (by decide) (by decide) (by decide)
      (by decide) (by decide)).2.2.1⟩

/-- C23 (counterexample): the attribute `translate(1 2) translate(3 4)`.  The piece
`.*` at the head of the pattern takes as many characters as it can, so the marked
sub-expressions are those of the last `translate(`: the shape is given the
translation (3, 4), not (1, 2). -/
theorem C23_second_translate_wins :
    regex_match regex_translate "translate(1 2) translate(3 4)".toList =
      some ["translate(1 2) translate(3 4)".toList, "3".toList, "4".toList] ∧
    find_transformations Trig.real ⟨none, none, Color.black⟩
        "translate(1 2) translate(3 4)".toList [] =
      .ok ⟨some (3, 4), none, Color.black⟩ ∧
    ((3 : ℝ), (4 : ℝ)) ≠ (1, 2) := by
  refine ⟨rfl, ?_, by norm_num⟩
  have e : find_transformations Trig.real ⟨none, none, Color.black⟩
      "translate(1 2) translate(3 4)".toList [] =
      .ok ⟨some (numeral_value "3".toList, numeral_value "4".toList), none, Color.black⟩ := rfl
  rw [e]
  simp [numeral_value, unsigned_value, decimal_value, digits_value]

/-- C23: for every transform attribute in which the last `translate(` begins a text
`translate(x y)` of two numerals, `find_transformations` sets the translation of the
shape from this last occurrence, whatever stands before it; likewise the rotation is
set from the text `rotate(a)` that the last `rotate(` begins.  One translation and
one rotation at most are set: each field of the shape holds at most one. -/
theorem C23_last_occurrence_wins (T : Trig α) (shape : Shape α)
    (pre x y post pre2 a post2 : List Char)
    (hx : is_numeral x = true) (hy : is_numeral y = true) (ha : is_numeral a = true)
    (hlast : none_after "translate(".toList (pre ++ (translate_text x y ++ post))
      pre.length = true)
    (hlast2 : none_after "rotate(".toList (pre2 ++ (rotate_text a ++ post2))
      pre2.length = true) :
    regex_match regex_translate (pre ++ (translate_text x y ++ post)) =
      some [pre ++ (translate_text x y ++ post), x, y] ∧
    regex_match regex_rotate (pre2 ++ (rotate_text a ++ post2)) =
      some [pre2 ++ (rotate_text a ++ post2), a] ∧
    find_translate shape (pre ++ (translate_text x y ++ post)) =
      .ok (shape.set_translate (numeral_value x) (numeral_value y)) ∧
    find_rotate T shape (pre2 ++ (rotate_text a ++ post2)) =
      .ok (shape.set_rotate T (numeral_value a)) ∧
    (regex_match regex_rotate (pre ++ (translate_text x y ++ post)) = none →
      find_transformations T shape (pre ++ (translate_text x y ++ post)) [] =
        .ok { translate := some (numeral_value x, numeral_value y),
              rotate := shape.rotate, color := shape.color }) ∧
    (regex_match regex_translate (pre2 ++ (rotate_text a ++ post2)) = none →
      find_transformations T shape (pre2 ++ (rotate_text a ++ post2)) [] =
        .ok { translate := shape.translate,
              rotate := some (numeral_value a / 180 * T.pi), color := shape.color }) ∧
    (pre ++ (translate_text x y ++ post) = pre2 ++ (rotate_text a ++ post2) →
      find_transformations T shape (pre ++ (translate_text x y ++ post)) [] =
        .ok { translate := some (numeral_value x, numeral_value y),
              rotate := some (numeral_value a / 180 * T.pi), color := shape.color }) := by
  have t1 := find_translate_last shape pre x y post hx hy hlast
  have r1 := fun sh : Shape α => find_rotate_last T sh pre2 a post2 ha hlast2
  refine ⟨translate_captures pre x y post (numeral_number_text x hx) (numeral_number_text y hy)
      hlast, rotate_captures pre2 a post2 (numeral_number_text a ha) hlast2, t1, r1 shape,
    ?_, ?_, ?_⟩
  · intro hn
    rw [find_transformations_eq, t1, ok_bind]
    unfold find_rotate
    rw [hn]
    rfl
  · intro hn
    rw [find_transformations_eq]
    unfold find_translate
    rw [hn, ok_bind, r1 shape]
    rfl
  · intro hs
    rw [find_transformations_eq, t1, ok_bind, hs, r1]
    rfl

/-- C23 (witness): the attribute `translate(1 2) rotate(30) translate(3 4) rotate(45)`
sets the translation (3, 4) and the rotation of 45 degrees. -/
theorem C23_last_occurrence_wins_witness :
    "translate(1 2) rotate(30) translate(3 4) rotate(45)".toList =
      "translate(1 2) rotate(30) ".toList ++
        (translate_text "3".toList "4".toList ++ " rotate(45)".toList) ∧
    "translate(1 2) rotate(30) ".toList ++
        (translate_text "3".toList "4".toList ++ " rotate(45)".toList) =
      "translate(1 2) rotate(30) translate(3 4) ".toList ++ (rotate_text "45".toList ++ []) ∧
    find_transformations Trig.real ⟨none, none, Color.black⟩
        ("translate(1 2) rotate(30) ".toList ++
          (translate_text "3".toList "4".toList ++ " rotate(45)".toList)) [] =
      .ok { translate := some (numeral_value "3".toList, numeral_value "4".toList),
            rotate := some (numeral_value "45".toList / 180 * Trig.real.pi),
            color := Color.black } :=
  ⟨by decide, by decide,
    (C23_last_occurrence_wins Trig.real ⟨none, none, Color.black⟩
      "translate(1 2) rotate(30) ".toList "3".toList "4".toList " rotate(45)".toList
      "translate(1 2) rotate(30) translate(3 4) ".toList "45".toList []
      (by decide) (by decide) (by decide) (by decide) (by decide)).2.2.2.2.2.2 (by decide)⟩

end LoadClaims

section EllipseClaims

/-- C24: for two distinct points and radii that are not zero, the vectors
`u = ((x1p - cx1)/rx, (y1p - cy1)/ry)` and `v = ((-x1p - cx1)/rx, (-y1p - cy1)/ry)`
of `endpoint_to_center`, `rx` and `ry` being the radii after the check, have the
Euclidean norm 1 over the real numbers, and both points lie on the ellipse with the
returned centre, the rotation `phi` and these radii: the start point is the image of
`u`, the end point the image of `v`. -/
theorem C24_endpoints_on_ellipse (x1 y1 x2 y2 fa fs rx ry phi : ℝ)
    (hne : ¬ (x1 = x2 ∧ y1 = y2)) (hrx : rx ≠ 0) (hry : ry ≠ 0) :
    (arc_frame Trig.real x1 y1 x2 y2 fa fs rx ry phi).ux =
      ((arc_frame Trig.real x1 y1 x2 y2 fa fs rx ry phi).x1p -
        (arc_frame Trig.real x1 y1 x2 y2 fa fs rx ry phi).cx1) /
        (arc_frame Trig.real x1 y1 x2 y2 fa fs rx ry phi).rx ∧
    (arc_frame Trig.real x1 y1 x2 y2 fa fs rx ry phi).uy =
      ((arc_frame Trig.real x1 y1 x2 y2 fa fs rx ry phi).y1p -
        (arc_frame Trig.real x1 y1 x2 y2 fa fs rx ry phi).cy1) /
        (arc_frame Trig.real x1 y1 x2 y2 fa fs rx ry phi).ry ∧
    (arc_frame Trig.real x1 y1 x2 y2 fa fs rx ry phi).vx =
      (-(arc_frame Trig.real x1 y1 x2 y2 fa fs rx ry phi).x1p -
        (arc_frame Trig.real x1 y1 x2 y2 fa fs rx ry phi).cx1) /
        (arc_frame Trig.real x1 y1 x2 y2 fa fs rx ry phi).rx ∧
    (arc_frame Trig.real x1 y1 x2 y2 fa fs rx ry phi).vy =
      (-(arc_frame Trig.real x1 y1 x2 y2 fa fs rx ry phi).y1p -
        (arc_frame Trig.real x1 y1 x2 y2 fa fs rx ry phi).cy1) /
        (arc_frame Trig.real x1 y1 x2 y2 fa fs rx ry phi).ry ∧
    Real.sqrt ((arc_frame Trig.real x1 y1 x2 y2 fa fs rx ry phi).ux ^ 2
      + (arc_frame Trig.real x1 y1 x2 y2 fa fs rx ry phi).uy ^ 2) = 1 ∧
    Real.sqrt ((arc_frame Trig.real x1 y1 x2 y2 fa fs rx ry phi).vx ^ 2
      + (arc_frame Trig.real x1 y1 x2 y2 fa fs rx ry phi).vy ^ 2) = 1 ∧
    x1 = (endpoint_to_center Trig.real x1 y1 x2 y2 fa fs rx ry phi).1
      + (Real.cos phi * ((arc_frame Trig.real x1 y1 x2 y2 fa fs rx ry phi).rx *
            (arc_frame Trig.real x1 y1 x2 y2 fa fs rx ry phi).ux)
        - Real.sin phi * ((arc_frame Trig.real x1 y1 x2 y2 fa fs rx ry phi).ry *
            (arc_frame Trig.real x1 y1 x2 y2 fa fs rx ry phi).uy)) ∧
    y1 = (endpoint_to_center Trig.real x1 y1 x2 y2 fa fs rx ry phi).2.1
      + (Real.sin phi * ((arc_frame Trig.real x1 y1 x2 y2 fa fs rx ry phi).rx *
            (arc_frame Trig.real x1 y1 x2 y2 fa fs rx ry phi).ux)
        + Real.cos phi * ((arc_frame Trig.real x1 y1 x2 y2 fa fs rx ry phi).ry *
            (arc_frame Trig.real x1 y1 x2 y2 fa fs rx ry phi).uy)) ∧
    x2 = (endpoint_to_center Trig.real x1 y1 x2 y2 fa fs rx ry phi).1
      + (Real.cos phi * ((arc_frame Trig.real x1 y1 x2 y2 fa fs rx ry phi).rx *
            (arc_frame Trig.real x1 y1 x2 y2 fa fs rx ry phi).vx)
        - Real.sin phi * ((arc_frame Trig.real x1 y1 x2 y2 fa fs rx ry phi).ry *
            (arc_frame Trig.real x1 y1 x2 y2 fa fs rx ry phi).vy)) ∧
    y2 = (endpoint_to_center Trig.real x1 y1 x2 y2 fa fs rx ry phi).2.1
      + (Real.sin phi * ((arc_frame Trig.real x1 y1 x2 y2 fa fs rx ry phi).rx *
            (arc_frame Trig.real x1 y1 x2 y2 fa fs rx ry phi).vx)
        + Real.cos phi * ((arc_frame Trig.real x1 y1 x2 y2 fa fs rx ry phi).ry *
            (arc_frame Trig.real x1 y1 x2 y2 fa fs rx ry phi).vy)) := by
  obtain ⟨hu, hv⟩ := frame_unit x1 y1 x2 y2 fa fs rx ry phi hne hrx hry
  obtain ⟨hx, hy, _, _⟩ := frame_radii x1 y1 x2 y2 fa fs rx ry phi hrx hry
  obtain ⟨e1, e2, _, _, _⟩ := arc_frame_eqs Trig.real x1 y1 x2 y2 fa fs rx ry phi
  obtain ⟨e11, e12, e13, e14, _, _⟩ := arc_frame_vectors Trig.real x1 y1 x2 y2 fa fs rx ry phi
  have hcs : Real.cos phi * Real.cos phi + Real.sin phi * Real.sin phi = 1 := by
    have := Real.cos_sq_add_sin_sq phi
    rw [pow_two, pow_two] at this
    exact this
  refine ⟨e11, e12, e13, e14, ?_, ?_, ?_⟩
  · rw [pow_two, pow_two, hu, Real.sqrt_one]
  · rw [pow_two, pow_two, hv, Real.sqrt_one]
  rw [endpoint_to_center_frame]
  simp only
  generalize arc_frame Trig.real x1 y1 x2 y2 fa fs rx ry phi = f at *
  have hX : f.rx ≠ 0 := ne_of_gt hx
  have hY : f.ry ≠ 0 := ne_of_gt hy
  have m1 : f.rx * f.ux = f.x1p - f.cx1 := by rw [e11]; field_simp
  have m2 : f.ry * f.uy = f.y1p - f.cy1 := by rw [e12]; field_simp
  have m3 : f.rx * f.vx = -f.x1p - f.cx1 := by rw [e13]; field_simp
  have m4 : f.ry * f.vy = -f.y1p - f.cy1 := by rw [e14]; field_simp
  have e1b : f.x1p = Real.cos phi * ((x1 - x2) / 2) + Real.sin phi * ((y1 - y2) / 2) := e1
  have e2b : f.y1p = -Real.sin phi * ((x1 - x2) / 2) + Real.cos phi * ((y1 - y2) / 2) := e2
  rw [m1, m2, m3, m4, e1b, e2b]
  show x1 = (x1 + x2) / 2 + (Real.cos phi * f.cx1 - Real.sin phi * f.cy1) + _ ∧
    y1 = (y1 + y2) / 2 + (Real.sin phi * f.cx1 + Real.cos phi * f.cy1) + _ ∧
    x2 = (x1 + x2) / 2 + (Real.cos phi * f.cx1 - Real.sin phi * f.cy1) + _ ∧
    y2 = (y1 + y2) / 2 + (Real.sin phi * f.cx1 + Real.cos phi * f.cy1) + _
  refine ⟨?_, ?_, ?_, ?_⟩
  · linear_combination (-((x1 - x2) / 2)) * hcs
  · linear_combination (-((y1 - y2) / 2)) * hcs
  · linear_combination ((x1 - x2) / 2) * hcs
  · linear_combination ((y1 - y2) / 2) * hcs

/-- C24 (witness): the arc from `(0, 0)` to `(2, 1)` with the radii 3 and 2 and the
rotation 1 (in radians). -/
theorem C24_endpoints_on_ellipse_witness :
    ¬ ((0 : ℝ) = 2 ∧ (0 : ℝ) = 1) ∧ (3 : ℝ) ≠ 0 ∧ (2 : ℝ) ≠ 0 ∧
    Real.sqrt ((arc_frame Trig.real 0 0 2 1 0 1 3 2 1).ux ^ 2
      + (arc_frame Trig.real 0 0 2 1 0 1 3 2 1).uy ^ 2) = 1 ∧
    Real.sqrt ((arc_frame Trig.real 0 0 2 1 0 1 3 2 1).vx ^ 2
      + (arc_frame Trig.real 0 0 2 1 0 1 3 2 1).vy ^ 2) = 1 :=
  ⟨by norm_num, by norm_num, by norm_num,
    (C24_endpoints_on_ellipse 0 0 2 1 0 1 3 2 1 (by norm_num) (by norm_num)
      (by norm_num)).2.2.2.2.1,
    (C24_endpoints_on_ellipse 0 0 2 1 0 1 3 2 1 (by norm_num) (by norm_num)
      (by norm_num)).2.2.2.2.2.1⟩

/-- C25: for radii that are not zero and a start point in the frame of the ellipse
with `x1p^2/rx^2 + y1p^2/ry^2 > 1`, both radii are multiplied by the square root of
this number: their ratio is kept, the scaled radii satisfy
`x1p^2/rx^2 + y1p^2/ry^2 = 1`, and the centre returned is the middle of the two
points, whatever the two flags are. -/
theorem C25_radii_scaled_uniformly (x1 y1 x2 y2 fa fs rx ry phi : ℝ)
    (hrx : rx ≠ 0) (hry : ry ≠ 0)
    (h : 1 < (arc_frame Trig.real x1 y1 x2 y2 fa fs rx ry phi).x1p ^ 2 / rx ^ 2
      + (arc_frame Trig.real x1 y1 x2 y2 fa fs rx ry phi).y1p ^ 2 / ry ^ 2) :
    (arc_frame Trig.real x1 y1 x2 y2 fa fs rx ry phi).rx =
      Real.sqrt ((arc_frame Trig.real x1 y1 x2 y2 fa fs rx ry phi).x1p ^ 2 / rx ^ 2
        + (arc_frame Trig.real x1 y1 x2 y2 fa fs rx ry phi).y1p ^ 2 / ry ^ 2) * |rx| ∧
    (arc_frame Trig.real x1 y1 x2 y2 fa fs rx ry phi).ry =
      Real.sqrt ((arc_frame Trig.real x1 y1 x2 y2 fa fs rx ry phi).x1p ^ 2 / rx ^ 2
        + (arc_frame Trig.real x1 y1 x2 y2 fa fs rx ry phi).y1p ^ 2 / ry ^ 2) * |ry| ∧
    (arc_frame Trig.real x1 y1 x2 y2 fa fs rx ry phi).rx /
        (arc_frame Trig.real x1 y1 x2 y2 fa fs rx ry phi).ry = |rx| / |ry| ∧
    (arc_frame Trig.real x1 y1 x2 y2 fa fs rx ry phi).x1p ^ 2 /
          (arc_frame Trig.real x1 y1 x2 y2 fa fs rx ry phi).rx ^ 2
        + (arc_frame Trig.real x1 y1 x2 y2 fa fs rx ry phi).y1p ^ 2 /
          (arc_frame Trig.real x1 y1 x2 y2 fa fs rx ry phi).ry ^ 2 = 1 ∧
    (endpoint_to_center Trig.real x1 y1 x2 y2 fa fs rx ry phi).1 = (x1 + x2) / 2 ∧
    (endpoint_to_center Trig.real x1 y1 x2 y2 fa fs rx ry phi).2.1 = (y1 + y2) / 2 := by
  obtain ⟨_, _, e3, e4, e5⟩ := arc_frame_eqs Trig.real x1 y1 x2 y2 fa fs rx ry phi
  obtain ⟨e6, _, _, e9, e10⟩ := arc_frame_centre Trig.real x1 y1 x2 y2 fa fs rx ry phi
  have hrc : (arc_frame Trig.real x1 y1 x2 y2 fa fs rx ry phi).radii_check =
      (arc_frame Trig.real x1 y1 x2 y2 fa fs rx ry phi).x1p ^ 2 / rx ^ 2
        + (arc_frame Trig.real x1 y1 x2 y2 fa fs rx ry phi).y1p ^ 2 / ry ^ 2 := by
    rw [e3, abs_mul_abs_self, abs_mul_abs_self, pow_two, pow_two, pow_two, pow_two]
  have hgt : (arc_frame Trig.real x1 y1 x2 y2 fa fs rx ry phi).radii_check > 1 := by
    rw [hrc]; exact h
  have hne : ¬ (x1 = x2 ∧ y1 = y2) := by
    rintro ⟨rfl, rfl⟩
    obtain ⟨z1, z2, _⟩ := equal_endpoints_frame Trig.real x1 y1 fa fs rx ry phi
    rw [z1, z2] at h
    norm_num at h
  obtain ⟨_, hc0⟩ := frame_coef x1 y1 x2 y2 fa fs rx ry phi hne hrx hry
  obtain ⟨hx, hy, _, heq⟩ := frame_radii x1 y1 x2 y2 fa fs rx ry phi hrx hry
  have hd := heq hgt
  have hcoef := hc0 hgt
  rw [endpoint_to_center_frame]
  simp only
  rw [← hrc]
  generalize arc_frame Trig.real x1 y1 x2 y2 fa fs rx ry phi = f at *
  have ex : f.rx = Real.sqrt f.radii_check * |rx| := by rw [e4, if_pos hgt]; rfl
  have ey : f.ry = Real.sqrt f.radii_check * |ry| := by rw [e5, if_pos hgt]; rfl
  have hs0 : Real.sqrt f.radii_check ≠ 0 :=
    ne_of_gt (Real.sqrt_pos.2 (lt_trans zero_lt_one hgt))
  have hX : f.rx ≠ 0 := ne_of_gt hx
  have hY : f.ry ≠ 0 := ne_of_gt hy
  have c1 : f.cx1 = 0 := by rw [e9, hcoef, zero_mul]
  have c2 : f.cy1 = 0 := by rw [e10, hcoef, zero_mul]
  refine ⟨ex, ey, ?_, ?_, ?_, ?_⟩
  · rw [ex, ey]
    exact mul_div_mul_left _ _ hs0
  · rw [e6] at hd
    field_simp
    linear_combination hd
  · rw [c1, c2]; simp
  · rw [c1, c2]; simp

/-- C25 (witness): the arc of the radii 1 and 2 from `(0, 0)` to `(4, 0)`, without
rotation; the centre is `(2, 0)`. -/
theorem C25_radii_scaled_uniformly_witness :
    (1 : ℝ) ≠ 0 ∧ (2 : ℝ) ≠ 0 ∧
    (endpoint_to_center Trig.real 0 0 4 0 0 1 1 2 0).1 = (0 + 4) / 2 ∧
    (endpoint_to_center Trig.real 0 0 4 0 0 1 1 2 0).2.1 = (0 + 0) / 2 :=
  have h : 1 < (arc_frame Trig.real 0 0 4 0 0 1 1 2 0).x1p ^ 2 / (1 : ℝ) ^ 2
      + (arc_frame Trig.real 0 0 4 0 0 1 1 2 0).y1p ^ 2 / (2 : ℝ) ^ 2 := by
    have a1 : (arc_frame Trig.real 0 0 4 0 0 1 1 2 0).x1p = -2 := by
      rw [(arc_frame_eqs Trig.real 0 0 4 0 0 1 1 2 0).1]
      simp [Trig.real]
      norm_num
    have a2 : (arc_frame Trig.real 0 0 4 0 0 1 1 2 0).y1p = 0 := by
      rw [(arc_frame_eqs Trig.real 0 0 4 0 0 1 1 2 0).2.1]
      simp [Trig.real]
    rw [a1, a2]
    norm_num
  ⟨by norm_num, by norm_num,
    (C25_radii_scaled_uniformly 0 0 4 0 0 1 1 2 0 (by norm_num) (by norm_num) h).2.2.2.2.1,
    (C25_radii_scaled_uniformly 0 0 4 0 0 1 1 2 0 (by norm_num) (by norm_num) h).2.2.2.2.2⟩

end EllipseClaims

section RelativeClaims

variable {α : Type} [LinearOrderedField α] [FloorRing α]

/-- C26: on a context whose matrix is invertible and whose cursor is `c`, the command
`m` with the offsets `d1`, ..., `dk` makes the calls move-to(`c + d1`),
line-to(`c + d1 + d2`), ..., line-to(`c + d1 + ... + dk`), each pair being an offset
from the cursor the pair before it has left, and the cursor is `c + d1 + ... + dk`
afterwards. -/
theorem C26_relative_moveto_chain (T : Trig α) (cr : Cairo α) (d1 : α × α) (ds : List (α × α))
    (h : cr.ctm.det ≠ 0) :
    ∃ cr1,
      execute_operand T 'm' (d1.1 :: d1.2 :: (ds.map (fun d => [d.1, d.2])).flatten) cr =
        .ok cr1 ∧
      cr1.trace = cr.trace ++
        Prim.move_to ((cairo_get_current_point cr).1 + d1.1)
            ((cairo_get_current_point cr).2 + d1.2) ::
          (relative_points ((cairo_get_current_point cr).1 + d1.1,
            (cairo_get_current_point cr).2 + d1.2) ds).map (fun p => Prim.line_to p.1 p.2) ∧
      cairo_get_current_point cr1 = offset_sum (cairo_get_current_point cr) (d1 :: ds) := by
  refine ⟨_, execute_m_pairs T d1 ds cr h, polyline_trace _ _ _, ?_⟩
  rw [polyline_cursor cr h, relative_points_last]
  rfl

/-- C26 (witness): the command `m` with the offsets (1, 2), (3, 4), (5, 6) on a new
context after a move to (10, 20). -/
theorem C26_relative_moveto_chain_witness :
    (cairo_move_to (Cairo.init : Cairo ℝ) 10 20).ctm.det ≠ 0 ∧
    ∃ cr1,
      execute_operand Trig.real 'm' ([1, 2, 3, 4, 5, 6] : List ℝ)
          (cairo_move_to (Cairo.init : Cairo ℝ) 10 20) = .ok cr1 ∧
      cairo_get_current_point cr1 =
        offset_sum (cairo_get_current_point (cairo_move_to (Cairo.init : Cairo ℝ) 10 20))
          [(1, 2), (3, 4), (5, 6)] :=
  have hd : (cairo_move_to (Cairo.init : Cairo ℝ) 10 20).ctm.det ≠ 0 := by
    simp [cairo_move_to, Cairo.init, Ctm.identity, Ctm.det]
  ⟨hd,
    match C26_relative_moveto_chain Trig.real (cairo_move_to (Cairo.init : Cairo ℝ) 10 20)
      (1, 2) [(3, 4), (5, 6)] hd with
    | ⟨cr1, h1, _, h3⟩ => ⟨cr1, h1, h3⟩⟩

end RelativeClaims

section FlagClaims

/-- C27: the large-arc flag is not compared with 0.5: the sign of `coef` is taken from
the test `|fa - fs| < 0.001`.  For the quarter circle of radius 1 from `(1, 0)` to
`(0, 1)` the flags (0.9, 1.0) and (1.0, 1.0), which lie on the same side of 0.5, give
the centres `(0, 0)` and `(1, 1)`. -/
theorem C27_flags_compared_with_each_other :
    (1 / 2 : ℝ) < 9 / 10 ∧ (1 / 2 : ℝ) < 1 ∧
    (endpoint_to_center Trig.real 1 0 0 1 (9 / 10) 1 1 1 0).1 = 0 ∧
    (endpoint_to_center Trig.real 1 0 0 1 (9 / 10) 1 1 1 0).2.1 = 0 ∧
    (endpoint_to_center Trig.real 1 0 0 1 1 1 1 1 0).1 = 1 ∧
    (endpoint_to_center Trig.real 1 0 0 1 1 1 1 1 0).2.1 = 1 := by
  have a1 : (arc_frame Trig.real 1 0 0 1 (9 / 10) 1 1 1 0).cx1 = -(1 / 2) := by
    simp [arc_frame, Trig.real]
    norm_num
    rw [abs_of_pos (by norm_num : (0 : ℝ) < 1 / 10)]
    norm_num
  have a2 : (arc_frame Trig.real 1 0 0 1 (9 / 10) 1 1 1 0).cy1 = -(1 / 2) := by
    simp [arc_frame, Trig.real]
    norm_num
    rw [abs_of_pos (by norm_num : (0 : ℝ) < 1 / 10)]
    norm_num
  have b1 : (arc_frame Trig.real 1 0 0 1 1 1 1 1 0).cx1 = 1 / 2 := by
    simp [arc_frame, Trig.real]
    norm_num
  have b2 : (arc_frame Trig.real 1 0 0 1 1 1 1 1 0).cy1 = 1 / 2 := by
    simp [arc_frame, Trig.real]
    norm_num
  refine ⟨by norm_num, by norm_num, ?_, ?_, ?_, ?_⟩
  · rw [endpoint_to_center_frame]
    simp only [a1, a2]
    simp [Trig.real]
  · rw [endpoint_to_center_frame]
    simp only [a1, a2]
    simp [Trig.real]
  · rw [endpoint_to_center_frame]
    simp only [b1, b2]
    simp [Trig.real]
    norm_num
  · rw [endpoint_to_center_frame]
    simp only [b1, b2]
    simp [Trig.real]
    norm_num

end FlagClaims

end Svg2Cairo
